import Mathlib

/-!
# peco layout engine: a shallow embedding of `layout.go` and `screen.go`

The Go code is translated function by function.  Go `int` values are
integers; the arithmetic of `CalculatePage` is that of Go's 64-bit `int`
(`wrapInt`), where the page numbers can wrap around, and the other functions
compute on the integers without a bound.
`termbox.Attribute` is a 16-bit value, Go strings are byte lists, and a
Go panic is the `Except.error` result.  Every call made on the `Screen`
interface during a draw is recorded, in order, in a list of `ScreenOp`s
that the drawing functions return next to the updated state.
-/

set_option autoImplicit false

namespace Layout

/-! ## Values shared by both source files -/

/-- A Go `rune` (a Unicode code point). -/
abbrev Rune := Int

/-- A Go `string`: a sequence of bytes, not necessarily valid UTF-8. -/
abbrev Str := List UInt8

/-- The `termbox.Attribute` type, an unsigned 16-bit value kept as a natural number. -/
abbrev Attribute := Nat

/-- `termbox.AttrBold`. -/
def AttrBold : Attribute := 0x0200

/-- `termbox.AttrReverse`. -/
def AttrReverse : Attribute := 0x0800

/-- `utf8.RuneError`, the replacement character U+FFFD. -/
def RuneError : Rune := 0xFFFD

/-- The continuation-byte test of the UTF-8 decoder: `lo <= b <= hi`. -/
def inRange (lo hi : Nat) (b : UInt8) : Bool :=
  decide (lo ≤ b.toNat) && decide (b.toNat ≤ hi)

/-- The low six bits of a continuation byte. -/
def contBits (b : UInt8) : Int := ((b.toNat % 64 : Nat) : Int)

/-- Go's `utf8.DecodeRuneInString`: the first rune of `s` and the number
of bytes it occupies; `(RuneError, 1)` on a malformed sequence and
`(RuneError, 0)` on the empty string. -/
def DecodeRuneInString (s : Str) : Rune × Nat :=
  match s with
  | [] => (RuneError, 0)
  | b0 :: rest =>
    let s0 := b0.toNat
    if s0 < 0x80 then ((s0 : Int), 1)
    else if s0 < 0xC2 then (RuneError, 1)
    else if s0 < 0xE0 then
      match rest with
      | b1 :: _ =>
        if inRange 0x80 0xBF b1 then (((s0 % 32 : Nat) : Int) * 64 + contBits b1, 2)
        else (RuneError, 1)
      | _ => (RuneError, 1)
    else if s0 < 0xF0 then
      let lo := if s0 = 0xE0 then 0xA0 else 0x80
      let hi := if s0 = 0xED then 0x9F else 0xBF
      match rest with
      | b1 :: b2 :: _ =>
        if inRange lo hi b1 && inRange 0x80 0xBF b2 then
          (((s0 % 16 : Nat) : Int) * 4096 + contBits b1 * 64 + contBits b2, 3)
        else (RuneError, 1)
      | _ => (RuneError, 1)
    else if s0 < 0xF5 then
      let lo := if s0 = 0xF0 then 0x90 else 0x80
      let hi := if s0 = 0xF4 then 0x8F else 0xBF
      match rest with
      | b1 :: b2 :: b3 :: _ =>
        if inRange lo hi b1 && inRange 0x80 0xBF b2 && inRange 0x80 0xBF b3 then
          (((s0 % 8 : Nat) : Int) * 262144 + contBits b1 * 4096 + contBits b2 * 64
            + contBits b3, 4)
        else (RuneError, 1)
      | _ => (RuneError, 1)
    else (RuneError, 1)

/-- Go's conversion `string(r)` of a rune to its UTF-8 encoding; a rune
outside the valid range becomes the encoding of U+FFFD. -/
def runeToString (r : Rune) : Str :=
  let n := r.toNat
  if r < 0 then [0xEF, 0xBF, 0xBD]
  else if n < 0x80 then [UInt8.ofNat n]
  else if n < 0x800 then [UInt8.ofNat (0xC0 + n / 64), UInt8.ofNat (0x80 + n % 64)]
  else if 0xD800 ≤ n ∧ n ≤ 0xDFFF then [0xEF, 0xBF, 0xBD]
  else if n < 0x10000 then
    [UInt8.ofNat (0xE0 + n / 4096), UInt8.ofNat (0x80 + n / 64 % 64),
     UInt8.ofNat (0x80 + n % 64)]
  else if n ≤ 0x10FFFF then
    [UInt8.ofNat (0xF0 + n / 262144), UInt8.ofNat (0x80 + n / 4096 % 64),
     UInt8.ofNat (0x80 + n / 64 % 64), UInt8.ofNat (0x80 + n % 64)]
  else [0xEF, 0xBF, 0xBD]

/-- The loop of `runewidth.StringWidth`: the sum of the widths of the
runes of `s` as a Go `range` loop decodes them.  `fuel` bounds the number
of runes; every rune takes at least one byte, so `s.length` is enough. -/
def stringWidthLoop (rw : Rune → Int) : Nat → Str → Int
  | 0, _ => 0
  | _, [] => 0
  | fuel + 1, b :: bs =>
    let d := DecodeRuneInString (b :: bs)
    rw d.1 + stringWidthLoop rw fuel ((b :: bs).drop d.2)

/-- Go's `runewidth.StringWidth`, for the rune-width table `rw`. -/
def StringWidth (rw : Rune → Int) (s : Str) : Int :=
  stringWidthLoop rw s.length s

/-- Go's `strconv.Itoa` / the `%d` verb: the decimal digits of `n`. -/
def itoa (n : Int) : Str :=
  let digits : Str := (Nat.toDigits 10 n.natAbs).map (fun c => UInt8.ofNat c.toNat)
  if n < 0 then (45 : UInt8) :: digits else digits

/-- The largest value of Go's `int` on a 64-bit platform, `math.MaxInt64`. -/
def maxInt : Int := 9223372036854775807

/-- The result of an arithmetic operation on Go's 64-bit `int`: the value
modulo `2^64`, in the range `-2^63 .. 2^63 - 1` (two's complement; overflow
wraps around silently). -/
def wrapInt (x : Int) : Int :=
  (x + 9223372036854775808) % 18446744073709551616 - 9223372036854775808

/-- A Go slice expression `s[a:b]` on a string: it panics unless
`0 <= a <= b <= len(s)`. -/
def sliceStr (s : Str) (a b : Int) : Except String Str :=
  if 0 ≤ a ∧ a ≤ b ∧ b ≤ (s.length : Int) then
    .ok ((s.drop a.toNat).take (b.toNat - a.toNat))
  else .error "slice bounds out of range"

/-- The integers `a, a+1, ..., b-1`, the values a Go loop
`for i := a; i < b; i++` runs through. -/
def intRange (a b : Int) : List Int :=
  List.map (fun (k : Nat) => a + (k : Int)) (List.range (b - a).toNat)

/-! ## screen.go -/

/-- The arguments of `Screen.Print`. -/
structure PrintArgs where
  X : Int := 0
  XOffset : Int := 0
  Y : Int := 0
  Fg : Attribute := 0
  Bg : Attribute := 0
  Msg : Str := []
  Fill : Bool := false
deriving DecidableEq, Repr

/-- One call on the `Screen` interface.  `print` marks the entry of a
`Print` call; the `setCell` and `size` calls that `Print` makes itself
follow it in the trace. -/
inductive ScreenOp where
  | print (args : PrintArgs)
  | setCell (x y : Int) (ch : Rune) (fg bg : Attribute)
  | size
  | flush
deriving DecidableEq, Repr

/-- The terminal as the layout code sees it: what `Size()` reports. -/
structure Screen where
  width : Int
  height : Int
deriving DecidableEq, Repr

/-- The `SetCell` calls of the tab branch of `Print`:
`for i := 0; i <= n; i++` calling `t.SetCell(x+i, y, ' ', fg, bg)`. -/
def tabCells (x y n : Int) (fg bg : Attribute) : List ScreenOp :=
  (intRange 0 (n + 1)).map (fun i => ScreenOp.setCell (x + i) y 32 fg bg)

/-- The `for len(msg) > 0` loop of `Termbox.Print`.  Returns the final
cursor column, the width written and the `SetCell` calls made.  `fuel`
bounds the iterations; each one consumes at least one byte. -/
def printLoop (rw : Rune → Int) (y xOffset : Int) (fg bg : Attribute) :
    Nat → Str → Int → Int → Int × Int × List ScreenOp
  | 0, _, x, written => (x, written, [])
  | _, [], x, written => (x, written, [])
  | fuel + 1, b :: bs, x, written =>
    let d := DecodeRuneInString (b :: bs)
    let c : Rune := if d.1 = RuneError then 63 else d.1
    let w : Nat := if d.1 = RuneError then 1 else d.2
    let msg := (b :: bs).drop w
    if c = 9 then
      let n := 4 - Int.tmod (x + xOffset) 4
      let r := printLoop rw y xOffset fg bg fuel msg (x + n) (written + n)
      (r.1, r.2.1, tabCells x y n fg bg ++ r.2.2)
    else
      let n := rw c
      let r := printLoop rw y xOffset fg bg fuel msg (x + n) (written + n)
      (r.1, r.2.1, ScreenOp.setCell x y c fg bg :: r.2.2)

/-- The fill loop of `Print`:
`for ; x < width; x++` calling `t.SetCell(x, y, ' ', fg, bg)`. -/
def fillCells (x y width : Int) (fg bg : Attribute) : List ScreenOp :=
  (intRange x width).map (fun i => ScreenOp.setCell i y 32 fg bg)

/-- The method `Termbox.Print`: the calls it makes on the terminal and the width it
returns.  After the fill loop the cursor stands at `max x width`, so
the padding added to the result is `width - max x width`. -/
def Print (rw : Rune → Int) (scr : Screen) (args : PrintArgs) : List ScreenOp × Int :=
  let r := printLoop rw args.Y args.XOffset args.Fg args.Bg args.Msg.length args.Msg args.X 0
  let x := r.1
  let written := r.2.1
  if !args.Fill then
    (ScreenOp.print args :: r.2.2, written)
  else
    let xEnd := if x < scr.width then scr.width else x
    (ScreenOp.print args :: (r.2.2 ++ ScreenOp.size :: fillCells x args.Y scr.width args.Fg args.Bg),
      written + (scr.width - xEnd))

/-! ## layout.go: the data model -/

/-- The package variable `extraOffset`. -/
def extraOffset : Int := 0

/-- The two anchors, `AnchorTop` (Go value 1) and `AnchorBottom` (Go value 2).
`NewAnchorSettings` is the only constructor of `AnchorSettings` and rejects
every other value, so the field holds one of these two. -/
inductive VerticalAnchor where
  | AnchorTop
  | AnchorBottom
deriving DecidableEq, Repr

/-- The Go constants `AnchorTop = iota + 1` and `AnchorBottom`, decoded. -/
def VerticalAnchor.ofInt (v : Int) : Option VerticalAnchor :=
  if v = 1 then some .AnchorTop else if v = 2 then some .AnchorBottom else none

/-- The function `IsValidVerticalAnchor`. -/
def IsValidVerticalAnchor (anchor : Int) : Bool :=
  decide (anchor = 1) || decide (anchor = 2)

/-- The function `mergeAttribute`, on 16-bit attribute values (subtraction
and addition wrap around at `2^16`). -/
def mergeAttribute (a b : Attribute) : Attribute :=
  if a &&& 0x0F = 0 ∨ b &&& 0x0F = 0 then a ||| b
  else ((((a + 65535) % 65536) ||| ((b + 65535) % 65536)) + 1) % 65536

/-- The struct `AnchorSettings`; its `screen` field is the one terminal of
the application state. -/
structure AnchorSettings where
  anchor : VerticalAnchor
  anchorOffset : Int
deriving DecidableEq, Repr

/-- The function `NewAnchorSettings`: panics on an unknown anchor. -/
def NewAnchorSettings (anchor : Int) (offset : Int) : Except String AnchorSettings :=
  match VerticalAnchor.ofInt anchor with
  | some a => .ok { anchor := a, anchorOffset := offset }
  | none => .error "Invalid vertical anchor specified"

/-- The method `AnchorSettings.AnchorPosition`: the row, and the `Size` call the
bottom anchor makes. -/
def AnchorSettings.AnchorPosition (as : AnchorSettings) (scr : Screen) : Int × List ScreenOp :=
  match as.anchor with
  | .AnchorTop => (as.anchorOffset, [])
  | .AnchorBottom => (scr.height - as.anchorOffset - 1, [ScreenOp.size])

/-- A foreground/background pair of the style set. -/
structure Style where
  fg : Attribute
  bg : Attribute
deriving DecidableEq, Repr

/-- The struct `StyleSet`, read-only here. -/
structure StyleSet where
  Basic : Style
  Query : Style
  Matched : Style
  Selected : Style
  SavedSelection : Style
deriving DecidableEq, Repr

/-- A line of the buffer, as seen through the `Line` interface: its identity
(`id`), `DisplayString()`, `Indices()` (`none` is the Go `nil`) and its dirty
flag. -/
structure Line where
  id : Nat
  displayString : Str
  indices : Option (List (Int × Int))
  dirty : Bool
deriving DecidableEq, Repr

/-- The struct `Location`, mutated in place by the layout code. -/
structure Location where
  page : Int
  perPage : Int
  offset : Int
  total : Int
  maxPage : Int
  lineNumber : Int
  column : Int
deriving DecidableEq, Repr

/-- The query, as its accessors `Runes()` and `String()` return it; `Len()`
is the number of runes. -/
structure Query where
  runes : List Rune
  str : Str
deriving DecidableEq, Repr

/-- The selection set, keyed by line identity. -/
abbrev Selection := List Nat

/-- The application state `Peco`, reduced to what the layout code reads and
writes through its accessors. -/
structure Peco where
  screen : Screen
  styles : StyleSet
  prompt : Str
  query : Query
  caret : Int
  loc : Location
  filterName : Str
  selection : Selection
  buf : List Line
  singleKeyJumpMode : Bool
  singleKeyJumpShowPrefix : Bool
  singleKeyJumpPrefixes : List Rune
  rangeStart : Option Int
deriving DecidableEq, Repr

/-- Modelled from the spec: the selection set's `Has`, which is not among the
sources: membership by line identity. -/
def Selection.Has (sel : Selection) (l : Line) : Bool := decide (l.id ∈ sel)

/-- Modelled from the spec: the selection set's `Add`, which is not among the
sources: insert the line's identity unless present. -/
def Selection.Add (sel : Selection) (l : Line) : Selection :=
  if l.id ∈ sel then sel else l.id :: sel

/-- Modelled from the spec: the selection set's `Remove`, which is not among
the sources: delete the line's identity. -/
def Selection.Remove (sel : Selection) (l : Line) : Selection :=
  sel.filter (fun i => decide (i ≠ l.id))

/-- Modelled from the spec: the line buffer's `LineAt`, which is not among the
sources: the line at `n`, or `none` for the index-out-of-range error. -/
def LineAt (buf : List Line) (n : Int) : Option Line :=
  if 0 ≤ n then buf[n.toNat]? else none

/-- Writes the dirty flag of the line at buffer index `i` (`SetDirty` on the
line object that `LineAt(i)` returned). -/
def setDirtyAt (buf : List Line) (i : Int) (d : Bool) : List Line :=
  match LineAt buf i with
  | some ln => buf.set i.toNat { ln with dirty := d }
  | none => buf

/-- Modelled from the spec: `Location.PageCrop().Crop(buffer)`, which is not
among the sources: the buffer indices shown on the page `currentPage`, that is
`perPage*(currentPage-1)` up to a page further, cut at the buffer's end. -/
def Crop (perPage currentPage : Int) (size : Int) : List Int :=
  let s := perPage * (currentPage - 1)
  let e := s + perPage
  if s > size then [] else intRange s (if e ≥ size then size else e)

/-- The cropped buffer's `LineAt(n)`: the source line at the `n`-th index of
the crop. -/
def cropLineAt (buf : List Line) (crop : List Int) (n : Int) : Option (Int × Line) :=
  if 0 ≤ n then
    match crop[n.toNat]? with
    | some i => (LineAt buf i).map (fun ln => (i, ln))
    | none => none
  else none

/-- The struct `UserPrompt`. -/
structure UserPrompt where
  as : AnchorSettings
  prompt : Str
  promptLen : Int
  styles : StyleSet
deriving DecidableEq, Repr

/-- The struct `StatusBar`; `clearTimer` records whether a timer is pending. -/
structure StatusBar where
  as : AnchorSettings
  clearTimer : Bool
  styles : StyleSet
deriving DecidableEq, Repr

/-- The struct `ListArea`; the display cache holds line identities, `none`
being the Go `nil`. -/
structure ListArea where
  as : AnchorSettings
  displayCache : List (Option Nat)
  dirty : Bool
  sortTopDown : Bool
  styles : StyleSet
deriving DecidableEq, Repr

/-- The struct `BasicLayout`. -/
structure BasicLayout where
  statusBar : StatusBar
  prompt : UserPrompt
  list : ListArea
deriving DecidableEq, Repr

/-- The paging requests: `Type()` is the constructor, `Line()` the argument of
the jump request. -/
inductive PagingRequest where
  | ToLineAbove
  | ToLineBelow
  | ToScrollPageDown
  | ToScrollPageUp
  | ToScrollLeft
  | ToScrollRight
  | ToLineInPage (line : Int)
deriving DecidableEq, Repr

/-! ## layout.go: the prompt -/

/-- The `default` branch of `UserPrompt.Draw`: the loop
`for i, r := range q.Runes()` that writes the query cell by cell, the rune at
the caret in reverse video.  Returns the accumulated width `prev` and the
`SetCell` calls. -/
def promptRunes (rw : Rune → Int) (u : UserPrompt) (location caret : Int) :
    List Rune → Int → Int → Int × List ScreenOp
  | [], _, prev => (prev, [])
  | r :: rs, i, prev =>
    let fg := if i = caret then u.styles.Query.fg ||| AttrReverse else u.styles.Query.fg
    let bg := if i = caret then u.styles.Query.bg ||| AttrReverse else u.styles.Query.bg
    let rest := promptRunes rw u location caret rs (i + 1) (prev + rw r)
    (rest.1, ScreenOp.setCell (u.promptLen + 1 + prev) location r fg bg :: rest.2)

/-- The method `UserPrompt.Draw`: draws the prompt row and flushes.  Returns the state
(the caret is normalised into `[0, len]`) and the calls made on the screen. -/
def UserPrompt.Draw (rw : Rune → Int) (u : UserPrompt) (state : Peco) : Peco × List ScreenOp :=
  let scr := state.screen
  let loc0 := u.as.AnchorPosition scr
  let location := loc0.1
  let p0 := Print rw scr
    { Y := location, Fg := u.styles.Basic.fg, Bg := u.styles.Basic.bg, Msg := u.prompt }
  let c1 : Int := if state.caret ≤ 0 then 0 else state.caret
  let qs := state.query.str
  let ql : Int := state.query.runes.length
  let c2 : Int := if c1 > ql then ql else c1
  let fg := u.styles.Query.fg
  let bg := u.styles.Query.bg
  let body : List ScreenOp :=
    if ql = 0 then
      (Print rw scr { X := u.promptLen, Y := location, Fg := fg, Bg := bg, Fill := true }).1
      ++ (Print rw scr { X := u.promptLen + 1, Y := location, Bg := bg ||| AttrReverse,
                          Fg := fg ||| AttrReverse, Msg := [32], Fill := false }).1
    else if ql = c2 then
      (Print rw scr { X := u.promptLen, Y := location, Fg := fg, Bg := bg, Fill := true }).1
      ++ (Print rw scr { X := u.promptLen + 1, Y := location, Fg := fg, Bg := bg, Msg := qs,
                          Fill := false }).1
      ++ (Print rw scr { X := u.promptLen + 1 + StringWidth rw qs, Y := location,
                          Fg := fg ||| AttrReverse, Bg := bg ||| AttrReverse, Msg := [32],
                          Fill := false }).1
    else
      let cells := promptRunes rw u location c2 state.query.runes 0 0
      cells.2
      ++ (Print rw scr { X := u.promptLen + cells.1 + 1, Y := location, Fg := fg, Bg := bg,
                          Fill := true }).1
  let width := scr.width
  let l := state.loc
  let pmsg : Str := state.filterName ++ [32, 91] ++ itoa l.total ++ [32, 40] ++ itoa l.page
    ++ [47] ++ itoa l.maxPage ++ [41, 93]
  let p1 := Print rw scr
    { X := width - StringWidth rw pmsg, Y := location, Fg := u.styles.Basic.fg,
      Bg := u.styles.Basic.bg, Msg := pmsg }
  ({ state with caret := c2 },
    loc0.2 ++ p0.1 ++ body ++ [ScreenOp.size] ++ p1.1 ++ [ScreenOp.flush])

/-! ## layout.go: the list area -/

/-- The function `selectionContains`. -/
def selectionContains (state : Peco) (n : Int) : Bool :=
  match LineAt state.buf n with
  | some l => state.selection.Has l
  | none => false

/-- The backward walk over pages that `ListArea.Draw` makes while a query is
running: `for page > 1`, stop when the page holds the end of the buffer, else
`page--`.  `fuel` bounds the iterations; `page.toNat` is enough. -/
def walkBackPage (perPage bufsiz : Int) : Nat → Int → Int
  | 0, page => page
  | fuel + 1, page =>
    if page > 1 then
      if perPage * (page - 1) < bufsiz ∧ perPage * page ≥ bufsiz then page
      else walkBackPage perPage bufsiz fuel (page - 1)
    else page

/-- The row coordinate of slot `n`: `n + start` top-down, `start - n` bottom-up. -/
def rowY (l : ListArea) (start n : Int) : Int :=
  if l.sortTopDown then n + start else start - n

/-- The loop `for n := bufsiz; n < perPage; n++` of `ListArea.Draw` that
empties the cache slots past the buffer and blanks their rows.  The list holds
the values of `n`. -/
def clearLoop (rw : Rune → Int) (l : ListArea) (scr : Screen) (start : Int) :
    List Int → List (Option Nat) → List (Option Nat) × List ScreenOp
  | [], cache => (cache, [])
  | n :: ns, cache =>
    let p := Print rw scr
      { Y := rowY l start n, Fg := l.styles.Basic.fg, Bg := l.styles.Basic.bg, Fill := true }
    let r := clearLoop rw l scr start ns (cache.set n.toNat none)
    (r.1, p.1 ++ r.2)

/-- The `switch` at the head of the row loop choosing the row's attributes. -/
def rowStyle (l : ListArea) (state : Peco) (n : Int) : Style :=
  if n + state.loc.offset = state.loc.lineNumber then l.styles.Selected
  else if selectionContains state (n + state.loc.offset) then l.styles.SavedSelection
  else l.styles.Basic

/-- The block `if m[0] > index` inside the span loop of `ListArea.Draw`: prints
the text between `index` and the start of the span `m` in the row's style.
Returns the new `prev` and `index` and the calls made. -/
def leadSegment (rw : Rune → Int) (scr : Screen) (y xOffset : Int) (st : Style) (line : Str)
    (m : Int × Int) (prev index : Int) : Except String (Int × Int × List ScreenOp) :=
  if m.1 > index then
    match sliceStr line index m.1 with
    | .error e => .error e
    | .ok c =>
      let p := Print rw scr
        { X := prev, Y := y, XOffset := xOffset, Fg := st.fg, Bg := st.bg, Msg := c }
      .ok (prev + p.2, index + (c.length : Int), p.1)
  else .ok (prev, index, [])

/-- The loop `for _, m := range matches` of `ListArea.Draw`: prints the text
before each span in the row's style and the span in the matched style.
Returns `prev`, `index` and the calls made; a slice out of bounds panics. -/
def matchLoop (rw : Rune → Int) (styles : StyleSet) (scr : Screen) (y xOffset : Int)
    (st : Style) (line : Str) :
    List (Int × Int) → Int → Int → Except String (Int × Int × List ScreenOp)
  | [], prev, index => .ok (prev, index, [])
  | m :: ms, prev, index =>
    match leadSegment rw scr y xOffset st line m prev index with
    | .error e => .error e
    | .ok lead =>
      match sliceStr line m.1 m.2 with
      | .error e => .error e
      | .ok c =>
        let p := Print rw scr
          { X := lead.1, Y := y, XOffset := xOffset, Fg := styles.Matched.fg,
            Bg := mergeAttribute st.bg styles.Matched.bg, Msg := c, Fill := true }
        match matchLoop rw styles scr y xOffset st line ms (lead.1 + p.2)
            (lead.2.1 + (c.length : Int)) with
        | .error e => .error e
        | .ok r => .ok (r.1, r.2.1, lead.2.2 ++ p.1 ++ r.2.2)

/-- The single-key-jump block of the row loop of `ListArea.Draw`: prints the
jump prefix of slot `n`, or two blanks, and moves `x` two columns on.  Returns
the new `x` and the calls made. -/
def jumpPrefix (rw : Rune → Int) (state : Peco) (n y : Int) (st : Style) :
    Int × List ScreenOp :=
  let scr := state.screen
  let x0 : Int := -1 * state.loc.column
  let xOffset := state.loc.column
  if state.singleKeyJumpMode || state.singleKeyJumpShowPrefix then
    let prefixes := state.singleKeyJumpPrefixes
    if n < (prefixes.length : Int) then
      (x0 + 2,
        (Print rw scr { X := x0, Y := y, XOffset := xOffset,
                        Fg := st.fg ||| AttrBold ||| AttrReverse, Bg := st.bg,
                        Msg := runeToString (prefixes.getD n.toNat 0) }).1
        ++ (Print rw scr { X := x0 + 1, Y := y, XOffset := xOffset, Fg := st.fg, Bg := st.bg,
                           Msg := [32] }).1)
    else
      (x0 + 2,
        (Print rw scr { X := x0, Y := y, XOffset := xOffset, Fg := st.fg, Bg := st.bg,
                        Msg := [32, 32] }).1)
  else (x0, [])

/-- The end of the row loop of `ListArea.Draw`, after the span loop: with
`m := matches[len(matches)-1]`, the branch `if m[0] > index`, else the text
after the last span. -/
def tailSegment (rw : Rune → Int) (styles : StyleSet) (scr : Screen) (y xOffset : Int)
    (st : Style) (line : Str) (spans : List (Int × Int)) (prev index : Int) :
    Except String (List ScreenOp) :=
  match spans.getLast? with
  | none => .error "index out of range"
  | some m =>
    if m.1 > index then
      match sliceStr line m.1 m.2 with
      | .error e => .error e
      | .ok c =>
        .ok (Print rw scr { X := prev, Y := y, XOffset := xOffset, Fg := styles.Query.fg,
                            Bg := mergeAttribute st.bg styles.Query.bg, Msg := c,
                            Fill := true }).1
    else if (line.length : Int) > m.2 then
      match sliceStr line m.2 (line.length : Int) with
      | .error e => .error e
      | .ok c =>
        .ok (Print rw scr { X := prev, Y := y, XOffset := xOffset, Fg := st.fg, Bg := st.bg,
                            Msg := c, Fill := true }).1
    else .ok []

/-- The body of the row loop of `ListArea.Draw` from `x := -1 * loc.Column()`
on: the jump prefix, then the text of the row, whole or in segments. -/
def drawRow (rw : Rune → Int) (l : ListArea) (state : Peco) (n y : Int) (st : Style)
    (target : Line) : Except String (List ScreenOp) :=
  let scr := state.screen
  let xOffset := state.loc.column
  let line := target.displayString
  let jump := jumpPrefix rw state n y st
  match target.indices with
  | none =>
    .ok (jump.2 ++ (Print rw scr { X := jump.1, Y := y, XOffset := xOffset, Fg := st.fg,
                                   Bg := st.bg, Msg := line, Fill := true }).1)
  | some spans =>
    match matchLoop rw l.styles scr y xOffset st line spans jump.1 0 with
    | .error e => .error e
    | .ok r =>
      match tailSegment rw l.styles scr y xOffset st line spans r.1 r.2.1 with
      | .error e => .error e
      | .ok t => .ok (jump.2 ++ r.2.2 ++ t)

/-- One slot of the row loop of `ListArea.Draw` that is written: clears the
line's dirty flag when the area or the line is dirty, records the line in the
cache and draws the row. -/
def writeRow (rw : Rune → Int) (start n i : Int) (target : Line) (l : ListArea) (state : Peco) :
    Except String (ListArea × Peco × List ScreenOp) :=
  let state1 : Peco :=
    if l.dirty || target.dirty then { state with buf := setDirtyAt state.buf i false }
    else state
  let l1 : ListArea := { l with displayCache := l.displayCache.set n.toNat (some target.id) }
  match drawRow rw l1 state1 n (rowY l start n) (rowStyle l state n) target with
  | .error e => .error e
  | .ok ops => .ok (l1, state1, ops)

/-- The loop `for n := 0; n < perPage; n++` of `ListArea.Draw`, from slot `n`
on.  `crop` is the page's buffer, `fuel` bounds the iterations (`perPage - n`
is enough). -/
def rowLoop (rw : Rune → Int) (crop : List Int) (start perPage : Int) :
    Nat → Int → ListArea → Peco → Except String (ListArea × Peco × List ScreenOp)
  | 0, _, l, state => .ok (l, state, [])
  | fuel + 1, n, l, state =>
    if ¬ n < perPage then .ok (l, state, [])
    else if n ≥ (crop.length : Int) then .ok (l, state, [])
    else
      match cropLineAt state.buf crop n with
      | none => .ok (l, state, [])
      | some (i, target) =>
        if ¬ (l.dirty || target.dirty) ∧ l.displayCache.getD n.toNat none = some target.id then
          rowLoop rw crop start perPage fuel (n + 1) l state
        else
          match writeRow rw start n i target l state with
          | .error e => .error e
          | .ok w =>
            match rowLoop rw crop start perPage fuel (n + 1) w.1 w.2.1 with
            | .error e => .error e
            | .ok r => .ok (r.1, r.2.1, w.2.2 ++ r.2.2)

/-- The `if runningQuery` block of `ListArea.Draw`: walks the page back and,
when the page changed, stores it and redraws the prompt. -/
def adjustPage (rw : Rune → Int) (parent : BasicLayout) (state : Peco) (runningQuery : Bool) :
    Peco × List ScreenOp :=
  if runningQuery then
    let page := walkBackPage state.loc.perPage (state.buf.length : Int) state.loc.page.toNat
      state.loc.page
    if state.loc.page ≠ page then
      parent.prompt.Draw rw { state with loc := { state.loc with page := page } }
    else (state, [])
  else (state, [])

/-- The block of `ListArea.Draw` that keeps the line number inside a buffer
that shrank: `if lbufsiz > 0 && loc.LineNumber() >= lbufsiz`. -/
def clampLineNumber (state : Peco) : Peco :=
  let lbufsiz : Int := state.buf.length
  if lbufsiz > 0 ∧ state.loc.lineNumber ≥ lbufsiz then
    { state with loc := { state.loc with lineNumber := lbufsiz - 1 } }
  else state

/-- The block of `ListArea.Draw` that brings the display cache to `perPage`
slots: `make([]Line, perPage)` followed by `copy`. -/
def resizeCache (cache : List (Option Nat)) (perPage : Int) : List (Option Nat) :=
  if (cache.length : Int) ≠ perPage then
    cache.take perPage.toNat ++ List.replicate (perPage.toNat - cache.length) none
  else cache

/-- What `ListArea.Draw` has computed when it enters its row loop: the page's
buffer `crop`, the row `start` of the area, the list area with its resized and
cleared cache, the state, and the calls made on the screen so far. -/
structure DrawSetup where
  crop : List Int
  start : Int
  list : ListArea
  state : Peco
  ops : List ScreenOp

/-- The part of `ListArea.Draw` between the `perPage < 1` check and the row
loop: the running-query block, the crop of the page, the clamp of the line
number, the resize of the cache, `AnchorPosition` and the loop that clears the
rows past the buffer. -/
def drawSetup (rw : Rune → Int) (l : ListArea) (state : Peco) (parent : BasicLayout)
    (perPage : Int) (runningQuery : Bool) : DrawSetup :=
  let r1 := adjustPage rw parent state runningQuery
  let crop := Crop r1.1.loc.perPage r1.1.loc.page (r1.1.buf.length : Int)
  let bufsiz : Int := crop.length
  let state2 := clampLineNumber r1.1
  let cache0 := resizeCache l.displayCache perPage
  let start := l.as.AnchorPosition state2.screen
  let cl := clearLoop rw l state2.screen start.1 (intRange bufsiz perPage) cache0
  { crop := crop, start := start.1, list := { l with displayCache := cl.1 }, state := state2,
    ops := r1.2 ++ start.2 ++ cl.2 }

/-- The method `ListArea.Draw`. -/
def ListArea.Draw (rw : Rune → Int) (l : ListArea) (state : Peco) (parent : BasicLayout)
    (perPage : Int) (runningQuery : Bool) : Except String (ListArea × Peco × List ScreenOp) :=
  if perPage < 1 then .error "perPage < 1"
  else
    let su := drawSetup rw l state parent perPage runningQuery
    match rowLoop rw su.crop su.start perPage perPage.toNat 0 su.list su.state with
    | .error e => .error e
    | .ok r => .ok ({ r.1 with dirty := false }, r.2.1, su.ops ++ r.2.2)

/-! ## layout.go: the layout -/

/-- The function `NewUserPrompt`. -/
def NewUserPrompt (rw : Rune → Int) (anchor : Int) (anchorOffset : Int) (prompt : Str)
    (styles : StyleSet) : Except String UserPrompt := do
  let prompt : Str := if prompt.length ≤ 0 then [81, 85, 69, 82, 89, 62] else prompt
  let as ← NewAnchorSettings anchor anchorOffset
  pure { as := as, prompt := prompt, promptLen := StringWidth rw prompt, styles := styles }

/-- The function `NewStatusBar`. -/
def NewStatusBar (anchor : Int) (anchorOffset : Int) (styles : StyleSet) :
    Except String StatusBar := do
  let as ← NewAnchorSettings anchor anchorOffset
  pure { as := as, clearTimer := false, styles := styles }

/-- The function `NewListArea`. -/
def NewListArea (anchor : Int) (anchorOffset : Int) (sortTopDown : Bool) (styles : StyleSet) :
    Except String ListArea := do
  let as ← NewAnchorSettings anchor anchorOffset
  pure { as := as, displayCache := [], dirty := false, sortTopDown := sortTopDown,
         styles := styles }

/-- The function `NewDefaultLayout`: the top-down layout. -/
def NewDefaultLayout (rw : Rune → Int) (state : Peco) : Except String BasicLayout := do
  let sb ← NewStatusBar 2 (0 + extraOffset) state.styles
  let pr ← NewUserPrompt rw 1 0 state.prompt state.styles
  let li ← NewListArea 1 1 true state.styles
  pure { statusBar := sb, prompt := pr, list := li }

/-- The function `NewBottomUpLayout`: the bottom-up layout. -/
def NewBottomUpLayout (rw : Rune → Int) (state : Peco) : Except String BasicLayout := do
  let sb ← NewStatusBar 2 (0 + extraOffset) state.styles
  let pr ← NewUserPrompt rw 2 (1 + extraOffset) state.prompt state.styles
  let li ← NewListArea 2 (2 + extraOffset) false state.styles
  pure { statusBar := sb, prompt := pr, list := li }

/-- The expression `(loc.LineNumber() / perPage) + 1` of `CalculatePage`, on
Go's 64-bit `int`. -/
def pageNumber (lineNumber perPage : Int) : Int :=
  wrapInt (wrapInt (Int.tdiv lineNumber perPage) + 1)

/-- The expression `(loc.Page() - 1) * perPage` of `CalculatePage`, on Go's
64-bit `int`. -/
def pageOffset (page perPage : Int) : Int :=
  wrapInt (wrapInt (page - 1) * perPage)

/-- The expression `(loc.Total() + perPage - 1) / perPage` of `CalculatePage`, on
Go's 64-bit `int`. -/
def pageCount (total perPage : Int) : Int :=
  wrapInt (Int.tdiv (wrapInt (wrapInt (total + perPage) - 1)) perPage)

/-- The method `BasicLayout.CalculatePage`.  The result is the state and the
returned error (`none` for `nil`); a zero `perPage` panics in the division.
The arithmetic is that of Go's 64-bit `int`. -/
def CalculatePage (state : Peco) (perPage : Int) : Except String (Peco × Option String) :=
  if perPage = 0 then .error "integer divide by zero"
  else
    let loc := state.loc
    let bufSize : Int := state.buf.length
    let loc1 := { loc with page := pageNumber loc.lineNumber perPage }
    let loc2 := { loc1 with offset := pageOffset loc1.page perPage }
    let loc3 := { loc2 with perPage := perPage }
    let loc4 := { loc3 with total := bufSize }
    let loc5 : Location :=
      if loc4.total = 0 then { loc4 with maxPage := 1 }
      else { loc4 with maxPage := pageCount loc4.total perPage }
    if loc5.maxPage < loc5.page then
      if bufSize = 0 then
        .ok ({ state with loc := loc5 }, some "no targets or query. nothing to do")
      else .ok ({ state with loc := { loc5 with lineNumber := loc5.offset } }, none)
    else .ok ({ state with loc := loc5 }, none)

/-- The method `BasicLayout.DrawPrompt`. -/
def DrawPrompt (rw : Rune → Int) (l : BasicLayout) (state : Peco) : Peco × List ScreenOp :=
  l.prompt.Draw rw state

/-- The method `BasicLayout.linesPerPage`: panics when fewer than one row is left. -/
def linesPerPage (scr : Screen) : Except String Int :=
  let reservedLines := 2 + extraOffset
  let pp := scr.height - reservedLines
  if pp < 1 then .error "linesPerPage is < 1" else .ok pp

/-- The method `BasicLayout.DrawScreen`.  The trace starts with the `Size` call of
`linesPerPage`. -/
def DrawScreen (rw : Rune → Int) (l : BasicLayout) (state : Peco) (runningQuery : Bool) :
    Except String (BasicLayout × Peco × List ScreenOp) := do
  let perPage ← linesPerPage state.screen
  let cp ← CalculatePage state perPage
  match cp.2 with
  | some _ => pure (l, cp.1, [ScreenOp.size])
  | none =>
    let pr := DrawPrompt rw l cp.1
    let d ← l.list.Draw rw pr.1 l perPage runningQuery
    pure ({ l with list := d.1 }, d.2.1, [ScreenOp.size] ++ pr.2 ++ d.2.2 ++ [ScreenOp.flush])

/-- The `sel.Add` loops of `verticalScroll`: adds every existing line with a
number in `linenos`. -/
def addLines (buf : List Line) : List Int → Selection → Selection
  | [], sel => sel
  | n :: ns, sel =>
    match LineAt buf n with
    | some line => addLines buf ns (sel.Add line)
    | none => addLines buf ns sel

/-- The `sel.Remove` loops of `verticalScroll`: removes every existing line
with a number in `linenos`. -/
def removeLines (buf : List Line) : List Int → Selection → Selection
  | [], sel => sel
  | n :: ns, sel =>
    match LineAt buf n with
    | some line => removeLines buf ns (sel.Remove line)
    | none => removeLines buf ns sel

/-- The two `switch p.Type()` blocks of `verticalScroll`: the line number the
request asks for, before it is clamped. -/
def scrollTarget (sortTopDown : Bool) (loc : Location) (lcur lpp : Int) (p : PagingRequest) :
    Int :=
  let lineBefore := loc.lineNumber
  if sortTopDown then
    match p with
    | .ToLineAbove => lineBefore - 1
    | .ToLineBelow => lineBefore + 1
    | .ToScrollPageDown =>
      let lineno := lineBefore + lpp
      if loc.page = loc.maxPage - 1 ∧ lcur < lineno ∧ (lcur - lineBefore) < lpp then lcur - 1
      else lineno
    | .ToScrollPageUp => lineBefore - lpp
    | .ToLineInPage line => loc.perPage * (loc.page - 1) + line
    | _ => lineBefore
  else
    match p with
    | .ToLineAbove => lineBefore + 1
    | .ToLineBelow => lineBefore - 1
    | .ToScrollPageDown => lineBefore - lpp
    | .ToScrollPageUp => lineBefore + lpp
    | .ToLineInPage line => loc.perPage * (loc.page - 1) - line
    | _ => lineBefore

/-- The clamp of `verticalScroll`, from `if lineno < 0` to the `SetLineNumber`. -/
def clampLine (lcur lineno : Int) : Int :=
  if lineno < 0 then
    if lcur > 0 then lcur - 1 else 0
  else if lcur > 0 ∧ lineno ≥ lcur then 0
  else lineno

/-- The range-mode part of `verticalScroll`: the selection after a move from
`lineBefore` to `lineno` with the anchor at `r`. -/
def rangeSelect (sortTopDown : Bool) (buf : List Line) (lcur lineBefore lineno r : Int)
    (sel : Selection) : Selection :=
  if sortTopDown then
    if lineno < r then
      let sel1 := addLines buf (intRange lineno (r + 1)) sel
      if r ≤ lineBefore then
        removeLines buf (intRange r (min (lcur + 1) lineBefore)) sel1
      else if lineBefore < lineno then
        removeLines buf (intRange lineBefore lineno) sel1
      else sel1
    else
      let sel1 := addLines buf (intRange r (min (lcur + 1) (lineno + 1))) sel
      if lineBefore ≤ r then
        removeLines buf (intRange lineBefore r) sel1
      else if lineno < lineBefore then
        removeLines buf (intRange lineno (lineBefore + 1)) sel1
      else sel1
  else sel

/-- The function `verticalScroll`.  The deferred function runs last: it marks the
lines at the old and the new line number dirty. -/
def verticalScroll (state : Peco) (l : BasicLayout) (p : PagingRequest) :
    Except String (Peco × Bool) := do
  let loc := state.loc
  let lineBefore := loc.lineNumber
  let lcur : Int := state.buf.length
  let lpp ← linesPerPage state.screen
  let lineno := clampLine lcur (scrollTarget l.list.sortTopDown loc lcur lpp p)
  let loc1 := { loc with lineNumber := lineno }
  let sel : Selection :=
    match state.rangeStart with
    | none => state.selection
    | some r => rangeSelect l.list.sortTopDown state.buf lcur lineBefore lineno r state.selection
  let buf1 := setDirtyAt (setDirtyAt state.buf lineBefore true) lineno true
  pure ({ state with loc := loc1, selection := sel, buf := buf1 }, true)

/-- The function `horizontalScroll`. -/
def horizontalScroll (state : Peco) (l : BasicLayout) (p : PagingRequest) :
    BasicLayout × Peco × Bool :=
  let width := state.screen.width
  let loc := state.loc
  if p = .ToScrollRight then
    ({ l with list := { l.list with dirty := true } },
      { state with loc := { loc with column := loc.column + Int.tdiv width 2 } }, true)
  else if loc.column > 0 then
    let col := loc.column - Int.tdiv width 2
    let col1 := if col < 0 then 0 else col
    ({ l with list := { l.list with dirty := true } },
      { state with loc := { loc with column := col1 } }, true)
  else (l, state, false)

/-- The method `BasicLayout.MovePage`. -/
def MovePage (l : BasicLayout) (state : Peco) (p : PagingRequest) :
    Except String (BasicLayout × Peco × Bool) :=
  match p with
  | .ToScrollLeft => .ok (horizontalScroll state l p)
  | .ToScrollRight => .ok (horizontalScroll state l p)
  | _ => do
    let r ← verticalScroll state l p
    pure (l, r.1, r.2)

/-- The method `ListArea.purgeDisplayCache`. -/
def ListArea.purgeDisplayCache (l : ListArea) : ListArea :=
  { l with displayCache := [] }

/-- The method `BasicLayout.PurgeDisplayCache`. -/
def PurgeDisplayCache (l : BasicLayout) : BasicLayout :=
  { l with list := l.list.purgeDisplayCache }

/-! ## layout.go: the status bar -/

/-- One step of an execution of the status bar's methods: `Lock` or `Unlock`
on the bar's `timerMutex`, or a call on the screen. -/
inductive StatusEvent where
  | timerLock
  | timerUnlock
  | screen (op : ScreenOp)
deriving DecidableEq, Repr

/-- The method `StatusBar.stopTimer`: under the timer lock, stops and forgets a
pending timer. -/
def StatusBar.stopTimer (s : StatusBar) : StatusBar × List StatusEvent :=
  ({ s with clearTimer := false }, [StatusEvent.timerLock, StatusEvent.timerUnlock])

/-- The method `StatusBar.setClearTimer`: under the timer lock, records the
timer. -/
def StatusBar.setClearTimer (s : StatusBar) : StatusBar × List StatusEvent :=
  ({ s with clearTimer := true }, [StatusEvent.timerLock, StatusEvent.timerUnlock])

/-- The loop `for width > w` of `PrintStatus`: drops the first rune of `msg` and
subtracts from `width` the number of bytes `utf8.DecodeRuneInString` reports
for it.  On the empty string that number is 0 and the Go loop never ends; this
is the `error` result here.  `fuel` bounds the iterations; every other
iteration drops at least one byte, so `msg.length` is enough. -/
def truncateLoop (w : Int) : Nat → Str → Int → Except String (Str × Int)
  | _, [], width => if width > w then .error "loops forever" else .ok ([], width)
  | 0, b :: bs, width => if width > w then .error "out of fuel" else .ok (b :: bs, width)
  | fuel + 1, b :: bs, width =>
    if width > w then
      let rw := (DecodeRuneInString (b :: bs)).2
      truncateLoop w fuel ((b :: bs).drop rw) (width - (rw : Int))
    else .ok (b :: bs, width)

/-- The calls that `PrintStatus` makes on the screen while it holds the timer
lock, from `AnchorPosition` to `Flush`, for the message and width that the
truncation loop left. -/
def statusOps (rw : Rune → Int) (s : StatusBar) (scr : Screen) (msg : Str) (width : Int) :
    List ScreenOp :=
  let location := s.as.AnchorPosition scr
  let w := scr.width
  let pad : Str := if w > width then List.replicate (w - width).toNat 32 else []
  let fgAttr := s.styles.Basic.fg
  let bgAttr := s.styles.Basic.bg
  let p1 : List ScreenOp :=
    if w > width then
      (Print rw scr { Y := location.1, Fg := fgAttr, Bg := bgAttr, Msg := pad }).1
    else []
  let p2 : List ScreenOp :=
    if width > 0 then
      (Print rw scr { X := w - width, Y := location.1,
                      Fg := fgAttr ||| AttrReverse ||| AttrBold ||| AttrReverse,
                      Bg := bgAttr ||| AttrReverse, Msg := msg }).1
    else []
  location.2 ++ [ScreenOp.size] ++ p1 ++ p2 ++ [ScreenOp.flush]

/-- The method `StatusBar.PrintStatus`, as the sequence of its lock operations and
screen calls.  The function that the new timer would run later is not part of
this execution. -/
def StatusBar.PrintStatus (rw : Rune → Int) (s : StatusBar) (scr : Screen) (msg : Str)
    (clearDelay : Int) : Except String (StatusBar × List StatusEvent) :=
  let st := s.stopTimer
  match truncateLoop scr.width msg.length msg (StringWidth rw msg) with
  | .error e => .error e
  | .ok t =>
    let drawn : List StatusEvent :=
      st.2 ++ [StatusEvent.timerLock]
        ++ (statusOps rw s scr t.1 t.2).map StatusEvent.screen ++ [StatusEvent.timerUnlock]
    if clearDelay ≠ 0 then
      let sc := st.1.setClearTimer
      .ok (sc.1, drawn ++ sc.2)
    else .ok (st.1, drawn)

/-! ## Sample states and auxiliary predicates -/

/-- A style set with pairwise different attributes. -/
def sampleStyles : StyleSet :=
  { Basic := ⟨1, 0⟩, Query := ⟨2, 0⟩, Matched := ⟨3, 4⟩, Selected := ⟨5, 6⟩,
    SavedSelection := ⟨7, 8⟩ }

/-- The line with identity `i`, the text `abc` and no match spans. -/
def sampleLine (i : Nat) : Line :=
  { id := i, displayString := [97, 98, 99], indices := none, dirty := false }

/-- A state on an 8 x 12 terminal whose buffer holds the lines `0 .. n-1`, with
the cursor on `lineNumber`, an empty query and no range anchor. -/
def sampleState (n : Nat) (lineNumber : Int) : Peco :=
  { screen := ⟨8, 12⟩, styles := sampleStyles, prompt := [], query := ⟨[], []⟩, caret := 0,
    loc := ⟨1, 10, 0, n, 1, lineNumber, 0⟩, filterName := [70], selection := [],
    buf := (List.range n).map sampleLine, singleKeyJumpMode := false,
    singleKeyJumpShowPrefix := false, singleKeyJumpPrefixes := [], rangeStart := none }

/-- A rune-width table giving every rune one column. -/
def sampleWidth : Rune → Int := fun _ => 1

/-- The layout `NewDefaultLayout` builds for `sampleState`. -/
def topDownLayout : BasicLayout :=
  { statusBar := { as := ⟨.AnchorBottom, 0⟩, clearTimer := false, styles := sampleStyles },
    prompt := { as := ⟨.AnchorTop, 0⟩, prompt := [81, 85, 69, 82, 89, 62], promptLen := 6,
                styles := sampleStyles },
    list := { as := ⟨.AnchorTop, 1⟩, displayCache := [], dirty := false, sortTopDown := true,
              styles := sampleStyles } }

/-- The layout `NewBottomUpLayout` builds for `sampleState`. -/
def bottomUpLayout : BasicLayout :=
  { statusBar := { as := ⟨.AnchorBottom, 0⟩, clearTimer := false, styles := sampleStyles },
    prompt := { as := ⟨.AnchorBottom, 1⟩, prompt := [81, 85, 69, 82, 89, 62], promptLen := 6,
                styles := sampleStyles },
    list := { as := ⟨.AnchorBottom, 2⟩, displayCache := [], dirty := false,
              sortTopDown := false, styles := sampleStyles } }

/-- The screen row an operation writes to: the `Y` of a `Print`, the `y` of a
`SetCell`; `Size` and `Flush` write no cell. -/
def ScreenOp.row : ScreenOp → Option Int
  | .print args => some args.Y
  | .setCell _ y _ _ _ => some y
  | .size => none
  | .flush => none

/-- Every operation of `ops` is a `Size` query or a write (`Print`, `SetCell`)
to a row satisfying `P`; in particular `ops` holds no `Flush`. -/
def opsOnRows (P : Int → Prop) (ops : List ScreenOp) : Prop :=
  ∀ op ∈ ops, op = ScreenOp.size ∨ ∃ y, op.row = some y ∧ P y

/-- No operation of `ops` writes to row `y`. -/
def noWriteOnRow (y : Int) (ops : List ScreenOp) : Prop :=
  ∀ op ∈ ops, op.row ≠ some y

/-- A span list can be sliced out of a string of `len` bytes: when present
(not the Go `nil`), it is not empty and every span `(a, b)` has
`0 <= a <= b <= len`. -/
def spansFit (len : Int) : Option (List (Int × Int)) → Prop
  | none => True
  | some spans => spans ≠ [] ∧ ∀ m ∈ spans, 0 ≤ m.1 ∧ m.1 ≤ m.2 ∧ m.2 ≤ len

/-- The predicate `spansFit` is decidable. -/
instance spansFitDecidable (len : Int) : (o : Option (List (Int × Int))) → Decidable (spansFit len o)
  | none => isTrue trivial
  | some spans =>
    inferInstanceAs (Decidable (spans ≠ [] ∧ ∀ m ∈ spans, 0 ≤ m.1 ∧ m.1 ≤ m.2 ∧ m.2 ≤ len))

/-- The match spans of a line can be sliced out of its display string.  On
such a line the row loop of `ListArea.Draw` does not panic. -/
def Line.spansOk (ln : Line) : Prop :=
  spansFit (ln.displayString.length : Int) ln.indices

/-- The predicate `Line.spansOk` is decidable. -/
instance spansOkDecidable (ln : Line) : Decidable ln.spansOk :=
  spansFitDecidable _ _

/-- Two buffers hold the same lines, up to the dirty flags. -/
def sameLines (b1 b2 : List Line) : Prop :=
  b1.map (fun ln => { ln with dirty := false }) = b2.map (fun ln => { ln with dirty := false })

/-- The state in which `ListArea.Draw` leaves the list area: the area is
clean, the cache has `perPage` slots, the running-query block finds no page to
walk back to, and every line shown in a slot of the page is clean and recorded
in the cache at its slot. -/
def Drawn (perPage : Int) (rq : Bool) (l : ListArea) (state : Peco) : Prop :=
  l.dirty = false ∧ (l.displayCache.length : Int) = perPage
  ∧ (rq = true → state.loc.page = walkBackPage state.loc.perPage (state.buf.length : Int)
      state.loc.page.toNat state.loc.page)
  ∧ ∀ m i t, 0 ≤ m → m < perPage →
      cropLineAt state.buf (Crop state.loc.perPage state.loc.page (state.buf.length : Int)) m
        = some (i, t) →
      t.dirty = false ∧ l.displayCache.getD m.toNat none = some t.id

/-- Two states agree on what the drawing of a row reads besides the line: the
terminal, the column and the single-key-jump settings. -/
def sameView (a b : Peco) : Prop :=
  a.screen = b.screen ∧ a.loc.column = b.loc.column
  ∧ a.singleKeyJumpMode = b.singleKeyJumpMode
  ∧ a.singleKeyJumpShowPrefix = b.singleKeyJumpShowPrefix
  ∧ a.singleKeyJumpPrefixes = b.singleKeyJumpPrefixes

/-- A rune-width table in which the hiragana letter U+3042 takes two columns
and every other rune one. -/
def sampleWide : Rune → Int := fun r => if r = 0x3042 then 2 else 1

/-- The content of the terminal cell `(x, y)` after the calls `ops`: what the
last `SetCell` on that cell wrote, `none` if there was none. -/
def cellAt (ops : List ScreenOp) (x y : Int) : Option (Rune × Attribute × Attribute) :=
  ops.foldl (fun acc op =>
    match op with
    | ScreenOp.setCell x1 y1 ch fg bg => if x1 = x ∧ y1 = y then some (ch, fg, bg) else acc
    | _ => acc) none

/-- An operation on one of the two locks: the status bar's `timerMutex` and
the `termboxMutex` of screen.go. -/
inductive LockEvent where
  | timerLock
  | timerUnlock
  | termLock
  | termUnlock
deriving DecidableEq, Repr

/-- The lock operations of a call on the screen, from screen.go: `SetCell`,
`Size` and `Flush` lock `termboxMutex` and unlock it when they return; `Print`
takes no lock itself (the `SetCell` and `Size` calls it makes are separate
entries of the trace). -/
def ScreenOp.lockEvents : ScreenOp → List LockEvent
  | .print _ => []
  | .setCell _ _ _ _ _ => [LockEvent.termLock, LockEvent.termUnlock]
  | .size => [LockEvent.termLock, LockEvent.termUnlock]
  | .flush => [LockEvent.termLock, LockEvent.termUnlock]

/-- The lock operations of a trace of the status bar. -/
def lockTrace : List StatusEvent → List LockEvent
  | [] => []
  | StatusEvent.timerLock :: evs => LockEvent.timerLock :: lockTrace evs
  | StatusEvent.timerUnlock :: evs => LockEvent.timerUnlock :: lockTrace evs
  | StatusEvent.screen op :: evs => op.lockEvents ++ lockTrace evs

/-- Which locks are held, and whether one lock has been taken while the other
was held. -/
structure LockState where
  timerHeld : Bool
  termHeld : Bool
  termUnderTimer : Bool
  timerUnderTerm : Bool
deriving DecidableEq, Repr

/-- The effect of one lock operation. -/
def lockStep (st : LockState) : LockEvent → LockState
  | .timerLock => { st with timerHeld := true, timerUnderTerm := st.timerUnderTerm || st.termHeld }
  | .timerUnlock => { st with timerHeld := false }
  | .termLock => { st with termHeld := true, termUnderTimer := st.termUnderTimer || st.timerHeld }
  | .termUnlock => { st with termHeld := false }

/-- The lock state after a sequence of lock operations, starting with both
locks free. -/
def lockScan (evs : List LockEvent) : LockState :=
  evs.foldl lockStep ⟨false, false, false, false⟩

/-- Every `Lock` of the terminal-access lock in the sequence happens while the
timer lock is held; `held` tells whether the timer lock is held at the start. -/
def termLocksUnderTimer : Bool → List LockEvent → Bool
  | _, [] => true
  | _, LockEvent.timerLock :: evs => termLocksUnderTimer true evs
  | _, LockEvent.timerUnlock :: evs => termLocksUnderTimer false evs
  | held, LockEvent.termLock :: evs => held && termLocksUnderTimer held evs
  | held, LockEvent.termUnlock :: evs => termLocksUnderTimer held evs

/-- The state `sampleState 5 0` in range mode: the range anchor is line 0, which
is selected. -/
def rangeState : Peco :=
  { sampleState 5 0 with selection := [0], rangeStart := some 0 }

/-- Two frames with a move between them: `DrawScreen` on `rangeState` with an
empty cache, `MovePage` to line 3 of the page, and `DrawScreen` again, either
with the cache the first frame left or, with `purge`, after
`PurgeDisplayCache`.  The result is every call made on the screen. -/
def cacheScenario (purge : Bool) : Except String (List ScreenOp) :=
  match DrawScreen sampleWidth topDownLayout rangeState false with
  | .error e => .error e
  | .ok f1 =>
    match MovePage f1.1 f1.2.1 (.ToLineInPage 3) with
    | .error e => .error e
    | .ok m =>
      match DrawScreen sampleWidth (if purge then PurgeDisplayCache m.1 else m.1) m.2.1 false with
      | .error e => .error e
      | .ok f2 => .ok (f1.2.2 ++ f2.2.2)

/-- The `Print` calls of a trace, in order and without their `Fill` flag. -/
def printCalls : List ScreenOp → List PrintArgs
  | [] => []
  | ScreenOp.print a :: ops => { a with Fill := false } :: printCalls ops
  | _ :: ops => printCalls ops

/-- The match spans are sorted, do not overlap and lie within a string of
`len` bytes, none starting before byte `lo`. -/
def spansSorted (len : Int) : List (Int × Int) → Int → Bool
  | [], lo => decide (lo ≤ len)
  | m :: ms, lo =>
    decide (lo ≤ m.1) && decide (m.1 ≤ m.2) && decide (m.2 ≤ len) && spansSorted len ms m.2

/-- Follows the specification's words: the display string cut at its match
spans, from byte `index` on.  For each span, the unmatched text before it, if
any, marked `false`, and the text of the span, marked `true`; after the last
span, the rest of the text, if any, marked `false`. -/
def specSegments (line : Str) : List (Int × Int) → Int → List (Bool × Str)
  | [], index => if index < (line.length : Int) then [(false, line.drop index.toNat)] else []
  | m :: ms, index =>
    (if index < m.1 then [(false, (line.drop index.toNat).take (m.1.toNat - index.toNat))]
     else [])
      ++ (true, (line.drop m.1.toNat).take (m.2.toNat - m.1.toNat)) :: specSegments line ms m.2

/-- Follows the specification's words: the segments printed left to right from
column `x`, the unmatched ones in the row's style `st`, the matched ones with
the matched foreground and the blended background, each starting at the column
where the previous one ended, that is where the loop of `Print` left the
cursor.  An entry holds the match mark, the call and the column where the
segment ends. -/
def specRow (rw : Rune → Int) (styles : StyleSet) (y xOffset : Int) (st : Style) :
    List (Bool × Str) → Int → List (Bool × PrintArgs × Int)
  | [], _ => []
  | (matched, c) :: rest, x =>
    let fg := if matched then styles.Matched.fg else st.fg
    let bg := if matched then mergeAttribute st.bg styles.Matched.bg else st.bg
    let xEnd := (printLoop rw y xOffset fg bg c.length c x 0).1
    (matched, { X := x, XOffset := xOffset, Y := y, Fg := fg, Bg := bg, Msg := c }, xEnd)
      :: specRow rw styles y xOffset st rest xEnd

/-- A line whose text `abcdefghij` is longer than the 8 columns of the sample
terminal, with one match span over its first nine bytes. -/
def longLine : Line :=
  { id := 0, displayString := [97, 98, 99, 100, 101, 102, 103, 104, 105, 106],
    indices := some [(0, 9)], dirty := false }

/-- The line `abcdef` with the match spans `bc` and `e`. -/
def spanLine : Line :=
  { id := 0, displayString := [97, 98, 99, 100, 101, 102], indices := some [(1, 3), (4, 5)],
    dirty := false }

/-! ## Theorems -/

/-! ### Arithmetic of Go's integer division -/

theorem floor_div_eq_ediv (a b : Int) (hb : 0 < b) : ⌊(a : ℚ) / b⌋ = a / b := by
  rw [Int.floor_eq_iff]
  have hb' : (0 : ℚ) < b := by exact_mod_cast hb
  constructor
  · rw [le_div_iff₀ hb']
    have := Int.ediv_mul_le a (ne_of_gt hb)
    exact_mod_cast this
  · rw [div_lt_iff₀ hb']
    have := Int.lt_ediv_add_one_mul_self a hb
    exact_mod_cast this

theorem ceil_div_eq_ediv (a b : Int) (hb : 0 < b) : ⌈(a : ℚ) / b⌉ = (a + b - 1) / b := by
  rw [Int.ceil_eq_iff]
  have hb' : (0 : ℚ) < b := by exact_mod_cast hb
  have h1 := Int.ediv_mul_le (a + b - 1) (ne_of_gt hb)
  have h2 := Int.lt_ediv_add_one_mul_self (a + b - 1) hb
  constructor
  · rw [lt_div_iff₀ hb']
    have : ((a + b - 1) / b - 1) * b < a := by nlinarith
    exact_mod_cast this
  · rw [div_le_iff₀ hb']
    have : a ≤ (a + b - 1) / b * b := by nlinarith
    exact_mod_cast this

theorem tdiv_eq_floor (a b : Int) (ha : 0 ≤ a) (hb : 0 < b) :
    Int.tdiv a b = ⌊(a : ℚ) / b⌋ := by
  rw [floor_div_eq_ediv a b hb, Int.tdiv_eq_ediv ha (le_of_lt hb)]

/-! ### CalculatePage -/

theorem wrapInt_eq (x : Int) (h1 : -9223372036854775808 ≤ x) (h2 : x ≤ maxInt) :
    wrapInt x = x := by
  unfold maxInt at h2
  unfold wrapInt
  omega

/-- Without overflow the page number is `lineNumber / perPage + 1`. -/
theorem pageNumber_eq (L perPage : Int) (hL : 0 ≤ L) (hpp : 1 ≤ perPage)
    (hfit : Int.tdiv L perPage < maxInt) :
    pageNumber L perPage = Int.tdiv L perPage + 1 := by
  have h0 : 0 ≤ Int.tdiv L perPage := by
    rw [Int.tdiv_eq_ediv hL (by omega)]
    exact Int.ediv_nonneg hL (by omega)
  unfold pageNumber
  unfold maxInt at hfit
  rw [wrapInt_eq (Int.tdiv L perPage) (by omega) (by unfold maxInt; omega),
    wrapInt_eq (Int.tdiv L perPage + 1) (by omega) (by unfold maxInt; omega)]

/-- Without overflow the offset of the page is `(lineNumber / perPage) * perPage`. -/
theorem pageOffset_eq (L perPage : Int) (hL : 0 ≤ L) (hLmax : L ≤ maxInt) (hpp : 1 ≤ perPage) :
    pageOffset (Int.tdiv L perPage + 1) perPage = (Int.tdiv L perPage + 1 - 1) * perPage := by
  have hq : Int.tdiv L perPage = L / perPage := Int.tdiv_eq_ediv hL (by omega)
  have h0 : 0 ≤ L / perPage := Int.ediv_nonneg hL (by omega)
  have h1 : L / perPage * perPage ≤ L := Int.ediv_mul_le L (by omega)
  have h2 : L / perPage ≤ L / perPage * perPage := by nlinarith
  have h3 : 0 ≤ L / perPage * perPage := by nlinarith
  unfold pageOffset
  rw [hq]
  have e : L / perPage + 1 - 1 = L / perPage := by ring
  rw [e, wrapInt_eq (L / perPage) (by omega) (by omega),
    wrapInt_eq (L / perPage * perPage) (by omega) (by omega)]

/-- Without overflow the number of pages is `(total + perPage - 1) / perPage`. -/
theorem pageCount_eq (total perPage : Int) (ht : 0 ≤ total) (hpp : 1 ≤ perPage)
    (hfit : total + perPage - 1 ≤ maxInt) :
    pageCount total perPage = Int.tdiv (total + perPage - 1) perPage := by
  have hq : Int.tdiv (total + perPage - 1) perPage = (total + perPage - 1) / perPage :=
    Int.tdiv_eq_ediv (by omega) (by omega)
  have h0 : 0 ≤ (total + perPage - 1) / perPage := Int.ediv_nonneg (by omega) (by omega)
  have h1 : (total + perPage - 1) / perPage ≤ total + perPage - 1 :=
    Int.ediv_le_self _ (by omega)
  have hw : wrapInt (wrapInt (total + perPage) - 1) = total + perPage - 1 := by
    unfold maxInt at hfit
    unfold wrapInt
    omega
  unfold pageCount
  unfold maxInt at hfit
  rw [hw, hq,
    wrapInt_eq ((total + perPage - 1) / perPage) (by omega) (by unfold maxInt; omega)]

/-- The value of `CalculatePage` in closed form. -/
theorem CalculatePage_eq (state : Peco) (perPage : Int) (hpp : perPage ≠ 0) :
    CalculatePage state perPage =
      .ok ({ state with loc :=
              { page := pageNumber state.loc.lineNumber perPage
                perPage := perPage
                offset := pageOffset (pageNumber state.loc.lineNumber perPage) perPage
                total := (state.buf.length : Int)
                maxPage := if (state.buf.length : Int) = 0 then 1
                  else pageCount (state.buf.length : Int) perPage
                lineNumber :=
                  if (if (state.buf.length : Int) = 0 then (1 : Int)
                      else pageCount (state.buf.length : Int) perPage)
                      < pageNumber state.loc.lineNumber perPage
                    ∧ (state.buf.length : Int) ≠ 0
                  then pageOffset (pageNumber state.loc.lineNumber perPage) perPage
                  else state.loc.lineNumber
                column := state.loc.column } },
           if (if (state.buf.length : Int) = 0 then (1 : Int)
               else pageCount (state.buf.length : Int) perPage)
               < pageNumber state.loc.lineNumber perPage
             ∧ (state.buf.length : Int) = 0
           then some "no targets or query. nothing to do" else none) := by
  unfold CalculatePage
  rw [if_neg hpp]
  by_cases h0 : (state.buf.length : Int) = 0
  · by_cases h1 : (1 : Int) < pageNumber state.loc.lineNumber perPage
    · simp [h0, h1]
    · simp [h0, h1]
  · by_cases h1 : pageCount (state.buf.length : Int) perPage
        < pageNumber state.loc.lineNumber perPage
    · simp [h0, h1]
    · simp [h0, h1]

/-- C1, evaluated on the code: top-down layout, buffer of three lines, range
anchor at line 0, cursor on line 2 and the selection exactly the lines 0, 1, 2.
One `LineAbove` moves the cursor to line 1 and leaves only line 0 selected:
line 1, which lies between the anchor and the cursor, is no longer selected. -/
theorem C1_range_shrink_unselects_cursor_line :
    ∃ st, verticalScroll { sampleState 3 2 with selection := [0, 1, 2], rangeStart := some 0 }
        topDownLayout .ToLineAbove = .ok (st, true)
      ∧ st.loc.lineNumber = 1 ∧ st.selection = [0] ∧ selectionContains st 1 = false := by
  refine ⟨_, rfl, ?_, ?_, ?_⟩ <;> decide

/-- C2, as stated, fails: the arithmetic is that of Go's 64-bit `int`.  With
the cursor on line `2^63 - 1` and `perPage = 1`, `(L / perPage) + 1` wraps
around and `CalculatePage` stores `page = -2^63`, while
`floor(L / perPage) + 1 = 2^63`. -/
theorem C2_page_wraps :
    (1 : Int) ≤ 1 ∧ (0 : Int) ≤ (sampleState 25 9223372036854775807).loc.lineNumber
    ∧ (∃ st err, CalculatePage (sampleState 25 9223372036854775807) 1 = .ok (st, err)
      ∧ st.loc.page = -9223372036854775808)
    ∧ ⌊(((sampleState 25 9223372036854775807).loc.lineNumber : Int) : ℚ) / ((1 : Int) : ℚ)⌋ + 1
        = 9223372036854775808 := by
  refine ⟨by decide, by decide, ⟨_, _, rfl, by decide⟩, ?_⟩
  rw [floor_div_eq_ediv _ _ (by decide)]
  decide

/-- C2, amended: for `perPage >= 1` and a prior line number `0 <= L <= 2^63 - 1`,
`CalculatePage` returns and stores `perPage` and `total` = buffer size; when
`floor(L / perPage) + 1` does not exceed `2^63 - 1` it stores
`page = floor(L / perPage) + 1` and `offset = (page - 1) * perPage`; it stores
`maxPage` = 1 for an empty buffer and else, when `total + perPage - 1` does not
exceed `2^63 - 1`, `ceil(total / perPage)`; with 25 lines, `perPage = 10` and
`L = 12` this is `page = 2`, `offset = 10`, `maxPage = 3`. -/
theorem C2_calculatePage_stores_amended (state : Peco) (perPage : Int) (hpp : 1 ≤ perPage)
    (hL : 0 ≤ state.loc.lineNumber) (hLmax : state.loc.lineNumber ≤ maxInt) :
    (∃ st err, CalculatePage state perPage = .ok (st, err)
      ∧ (⌊(state.loc.lineNumber : ℚ) / perPage⌋ + 1 ≤ maxInt →
          st.loc.page = ⌊(state.loc.lineNumber : ℚ) / perPage⌋ + 1
          ∧ st.loc.offset = (st.loc.page - 1) * perPage)
      ∧ st.loc.perPage = perPage
      ∧ st.loc.total = (state.buf.length : Int)
      ∧ (state.buf.length = 0 → st.loc.maxPage = 1)
      ∧ (state.buf.length ≠ 0 → (state.buf.length : Int) + perPage - 1 ≤ maxInt →
          st.loc.maxPage = ⌈((state.buf.length : Int) : ℚ) / perPage⌉))
    ∧ (∃ st err, CalculatePage (sampleState 25 12) 10 = .ok (st, err)
      ∧ st.loc.total = 25 ∧ st.loc.perPage = 10
      ∧ st.loc.page = 2 ∧ st.loc.offset = 10 ∧ st.loc.maxPage = 3) := by
  constructor
  · have hne : perPage ≠ 0 := by omega
    refine ⟨_, _, CalculatePage_eq state perPage hne, ?_, rfl, rfl, ?_, ?_⟩
    · intro hfit
      rw [← tdiv_eq_floor _ _ hL (by omega)] at hfit ⊢
      have hp := pageNumber_eq state.loc.lineNumber perPage hL hpp (by omega)
      constructor
      · exact hp
      · show pageOffset (pageNumber state.loc.lineNumber perPage) perPage
          = (pageNumber state.loc.lineNumber perPage - 1) * perPage
        rw [hp]
        exact pageOffset_eq state.loc.lineNumber perPage hL hLmax hpp
    · intro h0
      have h0' : (state.buf.length : Int) = 0 := by exact_mod_cast h0
      show (if (state.buf.length : Int) = 0 then (1 : Int)
          else pageCount (state.buf.length : Int) perPage) = 1
      rw [if_pos h0']
    · intro h0 hfit
      have h0' : ¬ (state.buf.length : Int) = 0 := by exact_mod_cast h0
      show (if (state.buf.length : Int) = 0 then (1 : Int)
          else pageCount (state.buf.length : Int) perPage) = _
      rw [if_neg h0', pageCount_eq _ _ (by omega) hpp hfit, ceil_div_eq_ediv _ _ (by omega)]
      exact Int.tdiv_eq_ediv (by omega) (by omega)
  · exact ⟨_, _, rfl, by decide, by decide, by decide, by decide, by decide⟩

/-- The hypotheses of `C2_calculatePage_stores_amended` hold for the buffer of
25 lines with the cursor on line 12 and `perPage = 10`. -/
theorem C2_calculatePage_stores_amended_witness :
    (1 : Int) ≤ 10 ∧ (0 : Int) ≤ (sampleState 25 12).loc.lineNumber
    ∧ (sampleState 25 12).loc.lineNumber ≤ maxInt
    ∧ ∃ st err, CalculatePage (sampleState 25 12) 10 = .ok (st, err)
      ∧ st.loc.perPage = 10 ∧ st.loc.total = 25 :=
  ⟨by decide, by decide, by decide,
    let ⟨st, err, h, _, hp, ht, _⟩ := (C2_calculatePage_stores_amended (sampleState 25 12) 10
      (by decide) (by decide) (by decide)).1
    ⟨st, err, h, hp, ht⟩⟩

/-- C3, as stated, fails: with 5 lines, `perPage = 10` and the cursor on line
12, `CalculatePage` stores `page = 2` and `maxPage = 1`. -/
theorem C3_page_exceeds_maxPage :
    ∃ st err, CalculatePage (sampleState 5 12) 10 = .ok (st, err)
      ∧ st.loc.page = 2 ∧ st.loc.maxPage = 1 ∧ ¬ st.loc.page ≤ st.loc.maxPage :=
  ⟨_, _, rfl, by decide, by decide, by decide⟩

/-- C3, amended: for `perPage >= 1` and a prior line number `L >= 0`,
`CalculatePage` returns; the stored page is at most the stored `maxPage` when
`L` is less than the buffer size and `total + perPage - 1` does not exceed
`2^63 - 1` (Go's 64-bit `int` does not overflow), or the buffer is empty and
`L < perPage`; and whenever `maxPage < page` remains, the call has reported the
error (empty buffer) or has set the line number to `offset` (non-empty
buffer). -/
theorem C3_page_le_maxPage_amended (state : Peco) (perPage : Int) (hpp : 1 ≤ perPage)
    (hL : 0 ≤ state.loc.lineNumber) :
    ∃ st err, CalculatePage state perPage = .ok (st, err)
      ∧ (((state.loc.lineNumber < (state.buf.length : Int)
              ∧ (state.buf.length : Int) + perPage - 1 ≤ maxInt)
            ∨ (state.buf.length = 0 ∧ state.loc.lineNumber < perPage))
          → st.loc.page ≤ st.loc.maxPage)
      ∧ (st.loc.maxPage < st.loc.page →
          (state.buf.length = 0 → err.isSome = true)
          ∧ (state.buf.length ≠ 0 → err = none ∧ st.loc.lineNumber = st.loc.offset)) := by
  have hne : perPage ≠ 0 := by omega
  have hpos : 0 < perPage := by omega
  refine ⟨_, _, CalculatePage_eq state perPage hne, ?_, ?_⟩
  · intro h
    show pageNumber state.loc.lineNumber perPage
      ≤ (if (state.buf.length : Int) = 0 then (1 : Int)
          else pageCount (state.buf.length : Int) perPage)
    have hq0 : 0 ≤ state.loc.lineNumber / perPage := Int.ediv_nonneg hL (by omega)
    have hq1 : state.loc.lineNumber / perPage ≤ state.loc.lineNumber :=
      Int.ediv_le_self _ hL
    rcases h with ⟨h, hfit⟩ | ⟨h0, h⟩
    · have h0 : ¬ (state.buf.length : Int) = 0 := by omega
      have hfit2 : Int.tdiv state.loc.lineNumber perPage < maxInt := by
        rw [Int.tdiv_eq_ediv hL (by omega)]
        omega
      rw [if_neg h0, pageNumber_eq _ _ hL hpp hfit2, pageCount_eq _ _ (by omega) hpp hfit,
        Int.tdiv_eq_ediv hL (by omega), Int.tdiv_eq_ediv (by omega) (by omega)]
      have e : (state.buf.length : Int) + perPage - 1
          = ((state.buf.length : Int) - 1) + 1 * perPage := by ring
      rw [e, Int.add_mul_ediv_right _ _ hne]
      have := Int.ediv_le_ediv hpos (show state.loc.lineNumber ≤ (state.buf.length : Int) - 1 by omega)
      omega
    · have h0' : (state.buf.length : Int) = 0 := by exact_mod_cast h0
      have hz : Int.tdiv state.loc.lineNumber perPage = 0 := by
        rw [Int.tdiv_eq_ediv hL (by omega)]
        exact Int.ediv_eq_zero_of_lt hL h
      rw [if_pos h0', pageNumber_eq _ _ hL hpp (by rw [hz]; decide), hz]
      decide
  · intro h
    have h' : (if (state.buf.length : Int) = 0 then (1 : Int)
          else pageCount (state.buf.length : Int) perPage)
        < pageNumber state.loc.lineNumber perPage := h
    constructor
    · intro h0
      have h0' : (state.buf.length : Int) = 0 := by exact_mod_cast h0
      show (if _ then some "no targets or query. nothing to do" else none).isSome = true
      rw [if_pos ⟨h', h0'⟩]
      rfl
    · intro h0
      have h0' : ¬ (state.buf.length : Int) = 0 := by exact_mod_cast h0
      constructor
      · show (if _ then some "no targets or query. nothing to do" else none) = none
        rw [if_neg (fun hh => h0' hh.2)]
      · show (if _ then _ else _)
          = pageOffset (pageNumber state.loc.lineNumber perPage) perPage
        rw [if_pos ⟨h', h0'⟩]

/-- The hypotheses of `C3_page_le_maxPage_amended` hold for the buffer of 25
lines with the cursor on line 12 and `perPage = 10`. -/
theorem C3_page_le_maxPage_amended_witness :
    (1 : Int) ≤ 10 ∧ (0 : Int) ≤ (sampleState 25 12).loc.lineNumber
    ∧ ∃ st err, CalculatePage (sampleState 25 12) 10 = .ok (st, err)
      ∧ st.loc.page ≤ st.loc.maxPage :=
  ⟨by decide, by decide,
    let ⟨st, err, h, hp, _⟩ := C3_page_le_maxPage_amended (sampleState 25 12) 10 (by decide)
      (by decide)
    ⟨st, err, h, hp (Or.inl ⟨by decide, by decide⟩)⟩⟩

theorem linesPerPage_eq (scr : Screen) (h : 3 ≤ scr.height) :
    linesPerPage scr = .ok (scr.height - 2) := by
  unfold linesPerPage extraOffset
  have : ¬ scr.height - (2 + 0) < 1 := by omega
  simp only [this, if_false]
  congr 1

theorem linesPerPage_ok_iff (scr : Screen) (pp : Int) :
    linesPerPage scr = .ok pp ↔ (pp = scr.height - 2 ∧ 1 ≤ pp) := by
  unfold linesPerPage extraOffset
  by_cases h : scr.height - (2 + 0) < 1
  · simp only [h, if_true]
    constructor
    · intro h'; cases h'
    · rintro ⟨rfl, h2⟩; omega
  · simp only [h, if_false]
    constructor
    · intro h'
      have : scr.height - (2 + 0) = pp := by injection h'
      omega
    · rintro ⟨rfl, -⟩
      congr 1

theorem verticalScroll_eq (state : Peco) (l : BasicLayout) (p : PagingRequest) (lpp : Int)
    (h : linesPerPage state.screen = .ok lpp) :
    verticalScroll state l p =
      .ok ({ state with
              loc := { state.loc with
                lineNumber := clampLine (state.buf.length : Int)
                  (scrollTarget l.list.sortTopDown state.loc (state.buf.length : Int) lpp p) },
              selection :=
                (match state.rangeStart with
                | none => state.selection
                | some r => rangeSelect l.list.sortTopDown state.buf (state.buf.length : Int)
                    state.loc.lineNumber
                    (clampLine (state.buf.length : Int)
                      (scrollTarget l.list.sortTopDown state.loc (state.buf.length : Int) lpp p))
                    r state.selection),
              buf := setDirtyAt (setDirtyAt state.buf state.loc.lineNumber true)
                (clampLine (state.buf.length : Int)
                  (scrollTarget l.list.sortTopDown state.loc (state.buf.length : Int) lpp p))
                true }, true) := by
  unfold verticalScroll
  rw [h]
  rfl

theorem DrawScreen_eq (rw : Rune → Int) (l : BasicLayout) (state : Peco) (rq : Bool)
    (pp : Int) (cp : Peco × Option String) (d : ListArea × Peco × List ScreenOp)
    (h1 : linesPerPage state.screen = .ok pp)
    (h2 : CalculatePage state pp = .ok cp) (hnone : cp.2 = none)
    (h3 : l.list.Draw rw (DrawPrompt rw l cp.1).1 l pp rq = .ok d) :
    DrawScreen rw l state rq =
      .ok ({ l with list := d.1 }, d.2.1,
        [ScreenOp.size] ++ (DrawPrompt rw l cp.1).2 ++ d.2.2 ++ [ScreenOp.flush]) := by
  unfold DrawScreen
  rw [h1]
  simp only [bind, Except.bind, h2, hnone, h3]
  rfl

theorem DrawScreen_abort (rw : Rune → Int) (l : BasicLayout) (state : Peco) (rq : Bool)
    (pp : Int) (cp : Peco × Option String)
    (h1 : linesPerPage state.screen = .ok pp)
    (h2 : CalculatePage state pp = .ok cp) (hsome : cp.2.isSome = true) :
    DrawScreen rw l state rq = .ok (l, cp.1, [ScreenOp.size]) := by
  unfold DrawScreen
  rw [h1]
  obtain ⟨e, he⟩ := Option.isSome_iff_exists.1 hsome
  simp only [bind, Except.bind, h2, he]
  rfl

/-! ### ListArea.Draw on an empty buffer -/

theorem cropLineAt_nil (crop : List Int) (n : Int) : cropLineAt [] crop n = none := by
  unfold cropLineAt
  split
  · split
    · simp [LineAt]
    · rfl
  · rfl

theorem rowLoop_nil_buf (rw : Rune → Int) (crop : List Int) (start perPage : Int)
    (fuel : Nat) (n : Int) (l : ListArea) (state : Peco) (h : state.buf = []) :
    rowLoop rw crop start perPage fuel n l state = .ok (l, state, []) := by
  cases fuel with
  | zero => rfl
  | succ f =>
    unfold rowLoop
    rw [h, cropLineAt_nil]
    split
    · rfl
    · split <;> rfl

theorem adjustPage_buf (rw : Rune → Int) (parent : BasicLayout) (state : Peco) (rq : Bool) :
    (adjustPage rw parent state rq).1.buf = state.buf := by
  unfold adjustPage
  split
  · simp only []
    split <;> rfl
  · rfl

theorem clampLineNumber_buf (state : Peco) : (clampLineNumber state).buf = state.buf := by
  unfold clampLineNumber
  simp only []
  split <;> rfl

theorem Draw_nil_buf (rw : Rune → Int) (l : ListArea) (state : Peco) (parent : BasicLayout)
    (perPage : Int) (rq : Bool) (hpp : 1 ≤ perPage) (h : state.buf = []) :
    ∃ d, l.Draw rw state parent perPage rq = .ok d := by
  unfold ListArea.Draw
  rw [if_neg (by omega)]
  simp only []
  rw [rowLoop_nil_buf]
  · exact ⟨_, rfl⟩
  · show (clampLineNumber (adjustPage rw parent state rq).1).buf = []
    rw [clampLineNumber_buf, adjustPage_buf, h]

theorem isSome_ite_some {α : Type} (c : Prop) [Decidable c] (a : α) :
    (if c then some a else none).isSome = true ↔ c := by
  by_cases h : c
  · simp [h]
  · simp [h]

/-- What `CalculatePage` returns and stores, field by field. -/
theorem CalculatePage_facts (state : Peco) (perPage : Int) (hpp : perPage ≠ 0) :
    ∃ cp, CalculatePage state perPage = .ok cp
      ∧ cp.1.buf = state.buf ∧ cp.1.screen = state.screen
      ∧ cp.1.loc.page = pageNumber state.loc.lineNumber perPage
      ∧ cp.1.loc.perPage = perPage
      ∧ cp.1.loc.maxPage = (if (state.buf.length : Int) = 0 then 1
          else pageCount (state.buf.length : Int) perPage)
      ∧ (cp.2.isSome = true ↔ (cp.1.loc.maxPage < cp.1.loc.page ∧ (state.buf.length : Int) = 0))
      ∧ cp.1.loc.lineNumber = (if cp.1.loc.maxPage < cp.1.loc.page ∧ (state.buf.length : Int) ≠ 0
          then cp.1.loc.offset else state.loc.lineNumber) := by
  exact ⟨_, CalculatePage_eq state perPage hpp, rfl, rfl, rfl, rfl, rfl, isSome_ite_some _ _, rfl⟩

/-! ### Traces of Print and of the prompt -/

theorem Print_ops_head (rw : Rune → Int) (scr : Screen) (args : PrintArgs) :
    ∃ tl, (Print rw scr args).1 = ScreenOp.print args :: tl := by
  unfold Print
  simp only []
  split
  · exact ⟨_, rfl⟩
  · exact ⟨_, rfl⟩

theorem prompt_Draw_has_print (rw : Rune → Int) (u : UserPrompt) (state : Peco) :
    ∃ a, ScreenOp.print a ∈ (u.Draw rw state).2 := by
  obtain ⟨tl, htl⟩ := Print_ops_head rw state.screen
    { Y := (u.as.AnchorPosition state.screen).1, Fg := u.styles.Basic.fg,
      Bg := u.styles.Basic.bg, Msg := u.prompt }
  refine ⟨{ Y := (u.as.AnchorPosition state.screen).1, Fg := u.styles.Basic.fg,
            Bg := u.styles.Basic.bg, Msg := u.prompt }, ?_⟩
  unfold UserPrompt.Draw
  simp only [htl]
  simp

/-- C4, as stated, fails: on an empty buffer with the cursor on line 0 and
`perPage = 10`, `CalculatePage` sets `maxPage = 1` and reports no error, and
`DrawScreen` draws the frame and flushes it. -/
theorem C4_empty_buffer_is_drawn :
    (∃ st, CalculatePage (sampleState 0 0) 10 = .ok (st, none) ∧ st.loc.maxPage = 1)
    ∧ ∃ l st ops, DrawScreen sampleWidth topDownLayout (sampleState 0 0) false = .ok (l, st, ops)
        ∧ ScreenOp.flush ∈ ops
        ∧ ScreenOp.setCell 0 0 81 1 0 ∈ ops :=
  ⟨⟨_, rfl, by decide⟩, _, _, _, rfl, by decide, by decide⟩

/-- C4, amended: with an empty buffer and a prior line number `L >= 0`, for
every `perPage >= 1` `CalculatePage` returns with `maxPage = 1`, and, when
`L / perPage + 1` does not exceed `2^63 - 1` (Go's 64-bit `int` does not
overflow), it reports the "nothing to do" error exactly when `perPage <= L`.
`DrawScreen`, whose `perPage` comes from `linesPerPage`, then aborts the frame
when `perPage <= L`, having made only the `Size` call of `linesPerPage`; when
`L < perPage` it draws the frame and flushes it. -/
theorem C4_empty_buffer_amended (rw : Rune → Int) (l : BasicLayout) (state : Peco) (rq : Bool)
    (hempty : state.buf = []) (hL : 0 ≤ state.loc.lineNumber) :
    (∀ perPage : Int, 1 ≤ perPage →
      ∃ st err, CalculatePage state perPage = .ok (st, err) ∧ st.loc.maxPage = 1
        ∧ (state.loc.lineNumber / perPage < maxInt →
            (err.isSome = true ↔ perPage ≤ state.loc.lineNumber)))
    ∧ (∀ perPage : Int, linesPerPage state.screen = .ok perPage →
        (perPage ≤ state.loc.lineNumber → state.loc.lineNumber / perPage < maxInt →
          ∃ st, DrawScreen rw l state rq = .ok (l, st, [ScreenOp.size]))
        ∧ (state.loc.lineNumber < perPage →
          ∃ l1 st ops, DrawScreen rw l state rq = .ok (l1, st, ops)
            ∧ ops.getLast? = some ScreenOp.flush ∧ ∃ a, ScreenOp.print a ∈ ops)) := by
  have hlen : (state.buf.length : Int) = 0 := by rw [hempty]; rfl
  have key : ∀ perPage : Int, 1 ≤ perPage → state.loc.lineNumber / perPage < maxInt →
      ((1 : Int) < pageNumber state.loc.lineNumber perPage ↔ perPage ≤ state.loc.lineNumber) := by
    intro perPage hpp hfit
    rw [pageNumber_eq _ _ hL hpp (by rw [Int.tdiv_eq_ediv hL (by omega)]; exact hfit),
      Int.tdiv_eq_ediv hL (by omega)]
    have := Int.le_ediv_iff_mul_le (a := 1) (b := state.loc.lineNumber) (show 0 < perPage by omega)
    omega
  have facts : ∀ perPage : Int, 1 ≤ perPage →
      ∃ cp, CalculatePage state perPage = .ok cp ∧ cp.1.buf = [] ∧ cp.1.loc.maxPage = 1
        ∧ (state.loc.lineNumber / perPage < maxInt →
            (cp.2.isSome = true ↔ perPage ≤ state.loc.lineNumber)) := by
    intro perPage hpp
    obtain ⟨cp, h, hb, -, hpg, -, hmp, herr, -⟩ := CalculatePage_facts state perPage (by omega)
    rw [if_pos hlen] at hmp
    refine ⟨cp, h, hb.trans hempty, hmp, ?_⟩
    intro hfit
    rw [herr, hmp, hpg, ← key perPage hpp hfit]
    exact ⟨fun hh => hh.1, fun hh => ⟨hh, hlen⟩⟩
  constructor
  · intro perPage hpp
    obtain ⟨cp, h, -, hmp, herr⟩ := facts perPage hpp
    exact ⟨cp.1, cp.2, h, hmp, herr⟩
  · intro perPage hlpp
    have hpp : 1 ≤ perPage := ((linesPerPage_ok_iff _ _).1 hlpp).2
    obtain ⟨cp, h, hb, -, herr⟩ := facts perPage hpp
    constructor
    · intro hle hfit
      exact ⟨_, DrawScreen_abort rw l state rq perPage cp hlpp h ((herr hfit).2 hle)⟩
    · intro hlt
      have hfit : state.loc.lineNumber / perPage < maxInt := by
        rw [Int.ediv_eq_zero_of_lt hL hlt]
        decide
      have hnone : cp.2 = none := by
        cases hc : cp.2 with
        | none => rfl
        | some e =>
          have : perPage ≤ state.loc.lineNumber := (herr hfit).1 (by rw [hc]; rfl)
          omega
      obtain ⟨d, hd⟩ := Draw_nil_buf rw l.list (DrawPrompt rw l cp.1).1 l perPage rq hpp
        (show (DrawPrompt rw l cp.1).1.buf = [] from hb)
      refine ⟨_, _, _, DrawScreen_eq rw l state rq perPage cp d hlpp h hnone hd,
        List.getLast?_concat _, ?_⟩
      obtain ⟨a, ha⟩ := prompt_Draw_has_print rw l.prompt cp.1
      refine ⟨a, ?_⟩
      simp only [List.mem_append]
      exact Or.inl (Or.inl (Or.inr ha))

/-- The hypotheses of `C4_empty_buffer_amended` hold for the empty buffer with
the cursor on line 12: `perPage = 10 <= 12`, and the frame is aborted. -/
theorem C4_empty_buffer_amended_witness :
    (sampleState 0 12).buf = [] ∧ (0 : Int) ≤ (sampleState 0 12).loc.lineNumber
    ∧ ∃ st, DrawScreen sampleWidth topDownLayout (sampleState 0 12) false
        = .ok (topDownLayout, st, [ScreenOp.size]) :=
  ⟨rfl, by decide,
    ((C4_empty_buffer_amended sampleWidth topDownLayout (sampleState 0 12) false rfl
      (by decide)).2 10 rfl).1 (by decide) (by decide)⟩

/-! ### verticalScroll -/

/-- What `verticalScroll` returns on a terminal of at least three rows: it
always reports movement, and commits the clamped target. -/
theorem verticalScroll_facts (state : Peco) (l : BasicLayout) (p : PagingRequest)
    (hh : 3 ≤ state.screen.height) :
    ∃ st, verticalScroll state l p = .ok (st, true)
      ∧ st.loc.lineNumber = clampLine (state.buf.length : Int)
          (scrollTarget l.list.sortTopDown state.loc (state.buf.length : Int)
            (state.screen.height - 2) p) :=
  ⟨_, verticalScroll_eq state l p _ (linesPerPage_eq _ hh), rfl⟩

theorem MovePage_vertical (state : Peco) (l : BasicLayout) (p : PagingRequest) (st : Peco)
    (moved : Bool) (hp : p ≠ .ToScrollLeft ∧ p ≠ .ToScrollRight)
    (h : verticalScroll state l p = .ok (st, moved)) :
    MovePage l state p = .ok (l, st, moved) := by
  unfold MovePage
  cases p <;> simp_all [bind, Except.bind, pure, Except.pure]

/-- C5: in the top-down layout with a non-empty buffer of `N` lines, on a
terminal tall enough for `linesPerPage` (three rows), `MovePage` with
`LineAbove` from line 0 commits line `N - 1`, `MovePage` with `LineBelow` from
line `N - 1` commits line 0, and both report movement. -/
theorem C5_line_moves_wrap (state : Peco) (l : BasicLayout)
    (htd : l.list.sortTopDown = true) (hN : state.buf ≠ [])
    (hh : 3 ≤ state.screen.height) :
    (state.loc.lineNumber = 0 →
      ∃ st, MovePage l state .ToLineAbove = .ok (l, st, true)
        ∧ st.loc.lineNumber = (state.buf.length : Int) - 1)
    ∧ (state.loc.lineNumber = (state.buf.length : Int) - 1 →
      ∃ st, MovePage l state .ToLineBelow = .ok (l, st, true) ∧ st.loc.lineNumber = 0) := by
  have hpos : 0 < (state.buf.length : Int) := by
    have := List.length_pos.2 hN
    omega
  constructor
  · intro h0
    obtain ⟨st, hv, hl⟩ := verticalScroll_facts state l .ToLineAbove hh
    refine ⟨st, MovePage_vertical state l _ st true (by simp) hv, ?_⟩
    rw [hl, htd]
    simp only [scrollTarget, clampLine, h0, if_true]
    rw [if_pos (by omega), if_pos hpos]
  · intro h0
    obtain ⟨st, hv, hl⟩ := verticalScroll_facts state l .ToLineBelow hh
    refine ⟨st, MovePage_vertical state l _ st true (by simp) hv, ?_⟩
    rw [hl, htd]
    simp only [scrollTarget, clampLine, h0, if_true]
    rw [if_neg (by omega), if_pos ⟨hpos, by omega⟩]

/-- The hypotheses of `C5_line_moves_wrap` hold for the buffer of 5 lines with
the cursor on line 0: `LineAbove` commits line 4. -/
theorem C5_line_moves_wrap_witness :
    topDownLayout.list.sortTopDown = true ∧ (sampleState 5 0).buf ≠ []
    ∧ (3 : Int) ≤ (sampleState 5 0).screen.height
    ∧ ∃ st, MovePage topDownLayout (sampleState 5 0) .ToLineAbove = .ok (topDownLayout, st, true)
        ∧ st.loc.lineNumber = 4 :=
  ⟨rfl, by decide, by decide,
    (C5_line_moves_wrap (sampleState 5 0) topDownLayout rfl (by decide) (by decide)).1 rfl⟩

/-- C6, as stated, fails: on an empty buffer (top-down, cursor on line 0)
`LineBelow` has the target `t = 1 >= N = 0`, and `verticalScroll` commits line
1, not 0. -/
theorem C6_empty_buffer_keeps_target :
    scrollTarget topDownLayout.list.sortTopDown (sampleState 0 0).loc
        ((sampleState 0 0).buf.length : Int) 10 .ToLineBelow = 1
    ∧ ((sampleState 0 0).buf.length : Int) = 0
    ∧ ∃ st, verticalScroll (sampleState 0 0) topDownLayout .ToLineBelow = .ok (st, true)
        ∧ st.loc.lineNumber = 1 :=
  ⟨by decide, by decide, _, rfl, by decide⟩

/-- C6, amended: for every buffer size `N >= 0`, every request and either
layout direction, on a terminal tall enough for `linesPerPage`, if `t` is the
target line computed from the request's delta, `verticalScroll` commits
`N - 1` when `t < 0` and `N > 0`, 0 when `t < 0` and `N = 0`, 0 when `t >= N`
and `N > 0`, and `t` otherwise, that is when `0 <= t < N` or when `N = 0` and
`t >= 0`. -/
theorem C6_clamp_amended (state : Peco) (l : BasicLayout) (p : PagingRequest) (t : Int)
    (hh : 3 ≤ state.screen.height)
    (ht : t = scrollTarget l.list.sortTopDown state.loc (state.buf.length : Int)
      (state.screen.height - 2) p) :
    ∃ st, verticalScroll state l p = .ok (st, true)
      ∧ (t < 0 → 0 < state.buf.length → st.loc.lineNumber = (state.buf.length : Int) - 1)
      ∧ (t < 0 → state.buf.length = 0 → st.loc.lineNumber = 0)
      ∧ ((state.buf.length : Int) ≤ t → 0 < state.buf.length → st.loc.lineNumber = 0)
      ∧ (0 ≤ t → (t < (state.buf.length : Int) ∨ state.buf.length = 0) →
          st.loc.lineNumber = t) := by
  obtain ⟨st, hv, hl⟩ := verticalScroll_facts state l p hh
  rw [← ht] at hl
  refine ⟨st, hv, ?_, ?_, ?_, ?_⟩ <;> intro h1 h2 <;> rw [hl] <;> unfold clampLine
  · rw [if_pos h1, if_pos (by omega)]
  · rw [if_pos h1, if_neg (by omega)]
  · rw [if_neg (by omega), if_pos ⟨by omega, by omega⟩]
  · rw [if_neg (by omega), if_neg (by omega)]

/-- The hypotheses of `C6_clamp_amended` hold for the empty buffer and
`LineBelow`, where the target is 1 and the committed line number is 1. -/
theorem C6_clamp_amended_witness :
    (3 : Int) ≤ (sampleState 0 0).screen.height
    ∧ (1 : Int) = scrollTarget topDownLayout.list.sortTopDown (sampleState 0 0).loc
        ((sampleState 0 0).buf.length : Int) ((sampleState 0 0).screen.height - 2) .ToLineBelow
    ∧ ∃ st, verticalScroll (sampleState 0 0) topDownLayout .ToLineBelow = .ok (st, true)
        ∧ st.loc.lineNumber = 1 :=
  ⟨by decide, by decide,
    let ⟨st, h, _, _, _, h4⟩ := C6_clamp_amended (sampleState 0 0) topDownLayout .ToLineBelow 1
      (by decide) (by decide)
    ⟨st, h, h4 (by decide) (Or.inr rfl)⟩⟩

/-! ### horizontalScroll -/

/-- C8: for a column `c >= 0` and a terminal width `w >= 0`: `ScrollLeft` at
`c = 0` returns false and changes neither the state nor the layout (so neither
the column nor the dirty flag); `ScrollRight` sets the column to
`c + floor(w/2)`, and `ScrollLeft` at `c > 0` sets it to
`max(0, c - floor(w/2))`, both returning true with the list area dirty; the
column is never negative afterwards, also after `ScrollRight` followed by
`ScrollLeft`. -/
theorem C8_horizontalScroll (state : Peco) (l : BasicLayout)
    (hc : 0 ≤ state.loc.column) (hw : 0 ≤ state.screen.width) :
    (state.loc.column = 0 → horizontalScroll state l .ToScrollLeft = (l, state, false))
    ∧ ((horizontalScroll state l .ToScrollRight).2.2 = true
        ∧ (horizontalScroll state l .ToScrollRight).1.list.dirty = true
        ∧ (horizontalScroll state l .ToScrollRight).2.1.loc.column
            = state.loc.column + ⌊(state.screen.width : ℚ) / 2⌋)
    ∧ (0 < state.loc.column →
        (horizontalScroll state l .ToScrollLeft).2.2 = true
        ∧ (horizontalScroll state l .ToScrollLeft).1.list.dirty = true
        ∧ (horizontalScroll state l .ToScrollLeft).2.1.loc.column
            = max 0 (state.loc.column - ⌊(state.screen.width : ℚ) / 2⌋))
    ∧ 0 ≤ (horizontalScroll state l .ToScrollLeft).2.1.loc.column
    ∧ 0 ≤ (horizontalScroll state l .ToScrollRight).2.1.loc.column
    ∧ 0 ≤ (horizontalScroll (horizontalScroll state l .ToScrollRight).2.1
            (horizontalScroll state l .ToScrollRight).1 .ToScrollLeft).2.1.loc.column := by
  have hfl : ⌊(state.screen.width : ℚ) / 2⌋ = Int.tdiv state.screen.width 2 := by
    have := tdiv_eq_floor state.screen.width 2 hw (by decide)
    rw [this]
    norm_num
  have h2 : 0 ≤ Int.tdiv state.screen.width 2 := by
    rw [Int.tdiv_eq_ediv hw (by decide)]
    omega
  have left : ∀ (s : Peco) (k : BasicLayout), 0 ≤ s.loc.column →
      0 ≤ (horizontalScroll s k .ToScrollLeft).2.1.loc.column := by
    intro s k hs
    unfold horizontalScroll
    simp only [reduceCtorEq, if_false]
    split
    · simp only []
      split <;> omega
    · exact hs
  have right : (horizontalScroll state l .ToScrollRight).2.1.loc.column
      = state.loc.column + Int.tdiv state.screen.width 2 := by
    unfold horizontalScroll
    simp
  refine ⟨?_, ⟨?_, ?_, ?_⟩, ?_, left state l hc, ?_, ?_⟩
  · intro h0
    unfold horizontalScroll
    simp [h0]
  · unfold horizontalScroll
    simp
  · unfold horizontalScroll
    simp
  · rw [right, hfl]
  · intro hpos
    rw [hfl]
    unfold horizontalScroll
    simp only [reduceCtorEq, if_false, if_pos hpos]
    refine ⟨trivial, trivial, ?_⟩
    split <;> omega
  · rw [right]
    omega
  · apply left
    rw [right]
    omega

/-- The hypotheses of `C8_horizontalScroll` hold for the sample state (column
0, width 8): `ScrollRight` moves the column to 4. -/
theorem C8_horizontalScroll_witness :
    (0 : Int) ≤ (sampleState 3 0).loc.column ∧ (0 : Int) ≤ (sampleState 3 0).screen.width
    ∧ (horizontalScroll (sampleState 3 0) topDownLayout .ToScrollRight).2.1.loc.column
        = (sampleState 3 0).loc.column + ⌊((sampleState 3 0).screen.width : ℚ) / 2⌋ :=
  ⟨by decide, by decide,
    (C8_horizontalScroll (sampleState 3 0) topDownLayout (by decide) (by decide)).2.1.2.2⟩

/-! ### The rows that the drawing functions write to -/

theorem opsOnRows_nil (P : Int → Prop) : opsOnRows P [] := by
  intro op h
  cases h

theorem opsOnRows_append {P : Int → Prop} {a b : List ScreenOp}
    (ha : opsOnRows P a) (hb : opsOnRows P b) : opsOnRows P (a ++ b) := by
  intro op h
  rcases List.mem_append.1 h with h | h
  · exact ha op h
  · exact hb op h

theorem opsOnRows_cons {P : Int → Prop} (op : ScreenOp) {b : List ScreenOp}
    (ha : op = ScreenOp.size ∨ ∃ y, op.row = some y ∧ P y) (hb : opsOnRows P b) :
    opsOnRows P (op :: b) := by
  intro o h
  rcases List.mem_cons.1 h with h | h
  · rw [h]; exact ha
  · exact hb o h

theorem opsOnRows_mono {P Q : Int → Prop} {a : List ScreenOp} (h : ∀ y, P y → Q y)
    (ha : opsOnRows P a) : opsOnRows Q a := by
  intro op hop
  rcases ha op hop with h1 | ⟨y, hy, hp⟩
  · exact Or.inl h1
  · exact Or.inr ⟨y, hy, h y hp⟩

theorem opsOnRows_no_flush {P : Int → Prop} {a : List ScreenOp} (ha : opsOnRows P a) :
    ScreenOp.flush ∉ a := by
  intro h
  rcases ha _ h with h1 | ⟨y, hy, -⟩
  · cases h1
  · cases hy

theorem opsOnRows_noWrite {P : Int → Prop} {a : List ScreenOp} {y : Int}
    (ha : opsOnRows P a) (hy : ¬ P y) : noWriteOnRow y a := by
  intro op hop hrow
  rcases ha op hop with h1 | ⟨y', hy', hp⟩
  · rw [h1] at hrow; cases hrow
  · rw [hy'] at hrow
    injection hrow with e
    exact hy (e ▸ hp)

theorem opsOnRows_map_setCell (P : Int → Prop) (y : Int) (hy : P y) (f : Int → Int) (ch : Rune)
    (fg bg : Attribute) (xs : List Int) :
    opsOnRows P (xs.map (fun i => ScreenOp.setCell (f i) y ch fg bg)) := by
  intro op h
  obtain ⟨i, -, rfl⟩ := List.mem_map.1 h
  exact Or.inr ⟨y, rfl, hy⟩

theorem printLoop_onRow (rw : Rune → Int) (y xOffset : Int) (fg bg : Attribute) (fuel : Nat) :
    ∀ (msg : Str) (x written : Int),
      opsOnRows (fun r => r = y) (printLoop rw y xOffset fg bg fuel msg x written).2.2 := by
  induction fuel with
  | zero =>
    intro msg x written
    cases msg <;> exact opsOnRows_nil _
  | succ f ih =>
    intro msg x written
    cases msg with
    | nil => exact opsOnRows_nil _
    | cons b bs =>
      unfold printLoop
      simp only []
      split_ifs
      all_goals first
        | exact opsOnRows_append
            (opsOnRows_map_setCell (fun r => r = y) y rfl (fun i => x + i) 32 fg bg _) (ih _ _ _)
        | exact opsOnRows_cons _ (Or.inr ⟨y, rfl, rfl⟩) (ih _ _ _)

theorem Print_onRow (rw : Rune → Int) (scr : Screen) (args : PrintArgs) :
    opsOnRows (fun r => r = args.Y) (Print rw scr args).1 := by
  unfold Print
  simp only []
  split
  · exact opsOnRows_cons _ (Or.inr ⟨args.Y, rfl, rfl⟩) (printLoop_onRow _ _ _ _ _ _ _ _ _)
  · exact opsOnRows_cons _ (Or.inr ⟨args.Y, rfl, rfl⟩)
      (opsOnRows_append (printLoop_onRow _ _ _ _ _ _ _ _ _)
        (opsOnRows_cons _ (Or.inl rfl)
          (opsOnRows_map_setCell (fun r => r = args.Y) args.Y rfl (fun i => i) 32 _ _ _)))

theorem clearLoop_onRows (rw : Rune → Int) (l : ListArea) (scr : Screen) (start : Int)
    (ns : List Int) :
    ∀ cache : List (Option Nat),
      opsOnRows (fun r => ∃ n ∈ ns, r = rowY l start n) (clearLoop rw l scr start ns cache).2 := by
  induction ns with
  | nil =>
    intro cache
    exact opsOnRows_nil _
  | cons n ns ih =>
    intro cache
    unfold clearLoop
    simp only []
    refine opsOnRows_append (opsOnRows_mono ?_ (Print_onRow _ _ _)) (opsOnRows_mono ?_ (ih _))
    · intro y hy
      exact ⟨n, List.mem_cons_self _ _, hy⟩
    · rintro y ⟨m, hm, rfl⟩
      exact ⟨m, List.mem_cons_of_mem _ hm, rfl⟩

theorem leadSegment_onRow (rw : Rune → Int) (scr : Screen) (y xOffset : Int) (st : Style)
    (line : Str) (m : Int × Int) (prev index : Int) (r : Int × Int × List ScreenOp)
    (h : leadSegment rw scr y xOffset st line m prev index = .ok r) :
    opsOnRows (fun k => k = y) r.2.2 := by
  unfold leadSegment at h
  split at h
  · split at h
    · cases h
    · cases h
      exact Print_onRow _ _ _
  · cases h
    exact opsOnRows_nil _

theorem matchLoop_onRow (rw : Rune → Int) (styles : StyleSet) (scr : Screen) (y xOffset : Int)
    (st : Style) (line : Str) (spans : List (Int × Int)) :
    ∀ (prev index : Int) (r : Int × Int × List ScreenOp),
      matchLoop rw styles scr y xOffset st line spans prev index = .ok r →
      opsOnRows (fun k => k = y) r.2.2 := by
  induction spans with
  | nil =>
    intro prev index r h
    unfold matchLoop at h
    cases h
    exact opsOnRows_nil _
  | cons m ms ih =>
    intro prev index r h
    unfold matchLoop at h
    split at h
    · cases h
    · rename_i lead hlead
      split at h
      · cases h
      · simp only [] at h
        split at h
        · cases h
        · rename_i r2 hr2
          cases h
          exact opsOnRows_append
            (opsOnRows_append (leadSegment_onRow _ _ _ _ _ _ _ _ _ _ hlead) (Print_onRow _ _ _))
            (ih _ _ _ hr2)

theorem jumpPrefix_onRow (rw : Rune → Int) (state : Peco) (n y : Int) (st : Style) :
    opsOnRows (fun k => k = y) (jumpPrefix rw state n y st).2 := by
  unfold jumpPrefix
  simp only []
  split
  · split
    · exact opsOnRows_append (Print_onRow _ _ _) (Print_onRow _ _ _)
    · exact Print_onRow _ _ _
  · exact opsOnRows_nil _

theorem tailSegment_onRow (rw : Rune → Int) (styles : StyleSet) (scr : Screen)
    (y xOffset : Int) (st : Style) (line : Str) (spans : List (Int × Int)) (prev index : Int)
    (t : List ScreenOp)
    (h : tailSegment rw styles scr y xOffset st line spans prev index = .ok t) :
    opsOnRows (fun k => k = y) t := by
  unfold tailSegment at h
  split at h
  · cases h
  · split at h
    · split at h
      · cases h
      · cases h
        exact Print_onRow _ _ _
    · split at h
      · split at h
        · cases h
        · cases h
          exact Print_onRow _ _ _
      · cases h
        exact opsOnRows_nil _

theorem drawRow_onRow (rw : Rune → Int) (l : ListArea) (state : Peco) (n y : Int) (st : Style)
    (target : Line) (ops : List ScreenOp) (h : drawRow rw l state n y st target = .ok ops) :
    opsOnRows (fun k => k = y) ops := by
  unfold drawRow at h
  simp only [] at h
  split at h
  · cases h
    exact opsOnRows_append (jumpPrefix_onRow _ _ _ _ _) (Print_onRow _ _ _)
  · split at h
    · cases h
    · rename_i r hr
      split at h
      · cases h
      · rename_i t ht
        cases h
        exact opsOnRows_append
          (opsOnRows_append (jumpPrefix_onRow _ _ _ _ _) (matchLoop_onRow _ _ _ _ _ _ _ _ _ _ _ hr))
          (tailSegment_onRow _ _ _ _ _ _ _ _ _ _ _ ht)

/-! ### Buffers, crops and slots -/

theorem intRange_length (a b : Int) : (intRange a b).length = (b - a).toNat := by
  unfold intRange
  simp

theorem intRange_getElem? (a b : Int) (k : Nat) :
    (intRange a b)[k]? = if (k : Int) < b - a then some (a + (k : Int)) else none := by
  unfold intRange
  rw [List.getElem?_map]
  by_cases h : (k : Int) < b - a
  · rw [if_pos h, List.getElem?_range (by omega)]
    rfl
  · rw [if_neg h, List.getElem?_eq_none (by simp; omega)]
    rfl

theorem mem_intRange (a b x : Int) : x ∈ intRange a b ↔ a ≤ x ∧ x < b := by
  unfold intRange
  simp only [List.mem_map, List.mem_range]
  constructor
  · rintro ⟨k, hk, rfl⟩
    omega
  · rintro ⟨h1, h2⟩
    exact ⟨(x - a).toNat, by omega, by omega⟩

theorem LineAt_eq_some (buf : List Line) (j : Int) (t : Line) (h : LineAt buf j = some t) :
    0 ≤ j ∧ j < (buf.length : Int) ∧ buf[j.toNat]? = some t := by
  unfold LineAt at h
  split at h
  · rename_i h0
    have := (List.getElem?_eq_some_iff.1 h).1
    exact ⟨h0, by omega, h⟩
  · cases h

theorem LineAt_of_lt (buf : List Line) (j : Int) (h0 : 0 ≤ j) (h1 : j < (buf.length : Int)) :
    ∃ t, LineAt buf j = some t := by
  unfold LineAt
  rw [if_pos h0]
  have : j.toNat < buf.length := by omega
  exact ⟨buf[j.toNat], List.getElem?_eq_getElem this⟩

theorem LineAt_mem (buf : List Line) (j : Int) (t : Line) (h : LineAt buf j = some t) :
    t ∈ buf :=
  List.getElem?_mem (LineAt_eq_some buf j t h).2.2

theorem setDirtyAt_length (buf : List Line) (i : Int) (d : Bool) :
    (setDirtyAt buf i d).length = buf.length := by
  unfold setDirtyAt
  split
  · simp
  · rfl

theorem LineAt_setDirtyAt (buf : List Line) (i j : Int) (d : Bool) :
    LineAt (setDirtyAt buf i d) j
      = (LineAt buf j).map (fun t => if j = i then { t with dirty := d } else t) := by
  unfold setDirtyAt
  split
  · rename_i ln hln
    obtain ⟨hi0, hi1, hi2⟩ := LineAt_eq_some buf i ln hln
    by_cases hj : 0 ≤ j
    · unfold LineAt
      rw [if_pos hj, if_pos hj, List.getElem?_set]
      by_cases hij : j = i
      · subst hij
        have : j.toNat < buf.length := by omega
        rw [if_pos rfl, if_pos this, hi2]
        simp
      · have : ¬ i.toNat = j.toNat := by omega
        rw [if_neg this]
        cases buf[j.toNat]? with
        | none => rfl
        | some t => simp [hij]
    · unfold LineAt
      rw [if_neg hj, if_neg hj]
      rfl
  · rename_i hnone
    by_cases hij : j = i
    · subst hij
      rw [hnone]
      rfl
    · cases LineAt buf j with
      | none => rfl
      | some t => simp [hij]

theorem setDirtyAt_spansOk (buf : List Line) (i : Int) (d : Bool)
    (h : ∀ ln ∈ buf, ln.spansOk) : ∀ ln ∈ setDirtyAt buf i d, ln.spansOk := by
  unfold setDirtyAt
  split
  · rename_i t ht
    intro ln hln
    rcases List.mem_or_eq_of_mem_set hln with h1 | h1
    · exact h ln h1
    · rw [h1]
      exact h t (LineAt_mem buf i t ht)
  · exact h

/-- The slot `m` of a crop `intRange s e`: the buffer line `s + m`. -/
theorem cropLineAt_intRange (buf : List Line) (s e m : Int) :
    cropLineAt buf (intRange s e) m
      = if 0 ≤ m ∧ m < e - s then (LineAt buf (s + m)).map (fun ln => (s + m, ln)) else none := by
  unfold cropLineAt
  by_cases h0 : 0 ≤ m
  · rw [if_pos h0, intRange_getElem?]
    by_cases h1 : m < e - s
    · have : ((m.toNat : Nat) : Int) < e - s := by omega
      rw [if_pos this, if_pos ⟨h0, h1⟩]
      have e1 : s + ((m.toNat : Nat) : Int) = s + m := by omega
      simp only [e1]
    · have : ¬ ((m.toNat : Nat) : Int) < e - s := by omega
      rw [if_neg this, if_neg (fun hh => h1 hh.2)]
  · rw [if_neg h0, if_neg (fun hh => h0 hh.1)]

/-- The crop of a page is empty or an interval starting at `perPage * (page - 1)`
and ending inside the buffer. -/
theorem Crop_shape (perPage page size : Int) :
    ∃ e, Crop perPage page size = intRange (perPage * (page - 1)) e ∧ e ≤ size
      ∧ e ≤ perPage * (page - 1) + perPage := by
  unfold Crop
  simp only []
  split
  · refine ⟨min size (perPage * (page - 1) + perPage) , ?_, min_le_left _ _, min_le_right _ _⟩
    unfold intRange
    have : (min size (perPage * (page - 1) + perPage) - perPage * (page - 1)).toNat = 0 := by
      have := min_le_left size (perPage * (page - 1) + perPage)
      omega
    rw [this]
    rfl
  · split
    · exact ⟨size, rfl, le_refl _, by omega⟩
    · exact ⟨_, rfl, by omega, le_refl _⟩

/-- A page that shows a line of the buffer starts at a non-negative index. -/
theorem Crop_start_nonneg (perPage page s e m : Int) (hs : s = perPage * (page - 1))
    (he : e ≤ perPage * (page - 1) + perPage) (h0 : 0 ≤ m) (h1 : m < e - s) (h2 : 0 ≤ s + m) :
    0 ≤ s := by
  by_contra hneg
  have hneg : s < 0 := by omega
  have hpos : 0 < perPage * page := by
    have : perPage * (page - 1) + perPage = perPage * page := by ring
    omega
  rw [hs] at hneg
  rcases lt_trichotomy perPage 0 with hp | hp | hp
  · have h3 : page < 0 := by
      by_contra hh
      have : perPage * page ≤ 0 := by nlinarith
      omega
    nlinarith
  · rw [hp] at hpos
    simp at hpos
  · have h3 : 0 < page := by
      by_contra hh
      have : perPage * page ≤ 0 := by nlinarith
      omega
    nlinarith

theorem sameLines_length {b1 b2 : List Line} (h : sameLines b1 b2) : b1.length = b2.length := by
  have := congrArg List.length h
  simpa using this

theorem sameLines_LineAt {b1 b2 : List Line} (h : sameLines b1 b2) (j : Int) :
    (LineAt b1 j).map (fun ln => { ln with dirty := false })
      = (LineAt b2 j).map (fun ln => { ln with dirty := false }) := by
  unfold LineAt
  split
  · have := congrArg (fun b => b[j.toNat]?) h
    simpa [List.getElem?_map] using this
  · rfl

theorem sameLines_setDirtyAt (buf : List Line) (i : Int) (d : Bool) :
    sameLines (setDirtyAt buf i d) buf := by
  unfold sameLines
  apply List.ext_getElem?
  intro k
  rw [List.getElem?_map, List.getElem?_map]
  have h := LineAt_setDirtyAt buf i (k : Int) d
  unfold LineAt at h
  rw [if_pos (by omega), if_pos (by omega)] at h
  simp only [Int.toNat_ofNat] at h
  rw [h]
  cases buf[k]? with
  | none => rfl
  | some t =>
    simp only [Option.map_some']
    split <;> rfl

theorem sameLines_spansOk {b1 b2 : List Line} (h : sameLines b1 b2)
    (h2 : ∀ ln ∈ b2, ln.spansOk) : ∀ ln ∈ b1, ln.spansOk := by
  intro ln hln
  obtain ⟨k, hk⟩ := List.getElem?_of_mem hln
  have e := congrArg (fun b => b[k]?) h
  simp only [List.getElem?_map, hk, Option.map_some'] at e
  cases h2k : b2[k]? with
  | none => rw [h2k] at e; cases e
  | some t =>
    rw [h2k] at e
    simp only [Option.map_some', Option.some.injEq] at e
    have ht := h2 t (List.getElem?_mem h2k)
    have e1 : ln.indices = t.indices := by injection e
    have e2 : ln.displayString = t.displayString := by injection e
    unfold Line.spansOk at ht ⊢
    rw [e1, e2]
    exact ht

/-! ### The row loop -/

/-- What a written slot leaves behind. -/
theorem writeRow_facts (rw : Rune → Int) (start n i : Int) (target : Line) (l : ListArea)
    (state : Peco) (w : ListArea × Peco × List ScreenOp)
    (h : writeRow rw start n i target l state = .ok w) :
    w.1 = { l with displayCache := l.displayCache.set n.toNat (some target.id) }
    ∧ w.2.1 = (if l.dirty || target.dirty then
        { state with buf := setDirtyAt state.buf i false } else state)
    ∧ drawRow rw { l with displayCache := l.displayCache.set n.toNat (some target.id) }
        (if l.dirty || target.dirty then
          { state with buf := setDirtyAt state.buf i false } else state)
        n (rowY l start n) (rowStyle l state n) target = .ok w.2.2 := by
  unfold writeRow at h
  simp only [] at h
  split at h
  · cases h
  · rename_i ops hops
    cases h
    exact ⟨rfl, rfl, hops⟩

theorem rowLoop_onRows (rw : Rune → Int) (crop : List Int) (start perPage : Int) (sortTopDown : Bool) :
    ∀ (fuel : Nat) (n : Int) (l : ListArea) (state : Peco)
      (r : ListArea × Peco × List ScreenOp),
      l.sortTopDown = sortTopDown →
      rowLoop rw crop start perPage fuel n l state = .ok r →
      opsOnRows (fun y => ∃ m, n ≤ m ∧ m < perPage ∧ (m : Int) < crop.length
        ∧ y = (if sortTopDown then m + start else start - m)) r.2.2 := by
  intro fuel
  induction fuel with
  | zero =>
    intro n l state r _ h
    cases h
    exact opsOnRows_nil _
  | succ f ih =>
    intro n l state r hl h
    unfold rowLoop at h
    split at h
    · cases h; exact opsOnRows_nil _
    · rename_i hn
      split at h
      · cases h; exact opsOnRows_nil _
      · rename_i hc
        split at h
        · cases h; exact opsOnRows_nil _
        · rename_i i target hct
          split at h
          · refine opsOnRows_mono ?_ (ih _ _ _ _ hl h)
            rintro y ⟨m, h1, h2⟩
            exact ⟨m, by omega, h2⟩
          · split at h
            · cases h
            · rename_i w hw
              split at h
              · cases h
              · rename_i r2 hr2
                cases h
                obtain ⟨hw1, -, hw3⟩ := writeRow_facts _ _ _ _ _ _ _ _ hw
                have hl2 : w.1.sortTopDown = sortTopDown := by rw [hw1]; exact hl
                refine opsOnRows_append ?_ ?_
                · refine opsOnRows_mono ?_ (drawRow_onRow _ _ _ _ _ _ _ _ hw3)
                  intro y hy
                  refine ⟨n, le_refl _, by omega, by omega, ?_⟩
                  rw [hy]
                  unfold rowY
                  rw [hl]
                · refine opsOnRows_mono ?_ (ih _ _ _ _ hl2 hr2)
                  rintro y ⟨m, h1, h2⟩
                  exact ⟨m, by omega, h2⟩

/-! ### The row loop returns on well-formed lines -/

theorem sliceStr_ok (s : Str) (a b : Int) (h0 : 0 ≤ a) (h1 : a ≤ b) (h2 : b ≤ (s.length : Int)) :
    ∃ c, sliceStr s a b = .ok c := by
  unfold sliceStr
  rw [if_pos ⟨h0, h1, h2⟩]
  exact ⟨_, rfl⟩

theorem leadSegment_ok (rw : Rune → Int) (scr : Screen) (y xOffset : Int) (st : Style)
    (line : Str) (m : Int × Int) (prev index : Int) (hi : 0 ≤ index)
    (hm : m.1 ≤ (line.length : Int)) :
    ∃ r, leadSegment rw scr y xOffset st line m prev index = .ok r ∧ 0 ≤ r.2.1 := by
  unfold leadSegment
  split
  · rename_i hgt
    obtain ⟨c, hc⟩ := sliceStr_ok line index m.1 hi (by omega) hm
    rw [hc]
    exact ⟨_, rfl, by simp only []; omega⟩
  · exact ⟨_, rfl, hi⟩

theorem matchLoop_ok (rw : Rune → Int) (styles : StyleSet) (scr : Screen) (y xOffset : Int)
    (st : Style) (line : Str) (spans : List (Int × Int)) :
    ∀ (prev index : Int), 0 ≤ index →
      (∀ m ∈ spans, 0 ≤ m.1 ∧ m.1 ≤ m.2 ∧ m.2 ≤ (line.length : Int)) →
      ∃ r, matchLoop rw styles scr y xOffset st line spans prev index = .ok r := by
  induction spans with
  | nil =>
    intro prev index _ _
    exact ⟨_, rfl⟩
  | cons m ms ih =>
    intro prev index hi hall
    obtain ⟨hm0, hm1, hm2⟩ := hall m (List.mem_cons_self _ _)
    obtain ⟨lead, hlead, hl0⟩ := leadSegment_ok rw scr y xOffset st line m prev index hi
      (by omega)
    obtain ⟨c, hc⟩ := sliceStr_ok line m.1 m.2 hm0 hm1 hm2
    unfold matchLoop
    rw [hlead]
    simp only [hc]
    have hidx : 0 ≤ lead.2.1 + (c.length : Int) := by omega
    obtain ⟨r, hr⟩ := ih _ _ hidx (fun m' hm' => hall m' (List.mem_cons_of_mem _ hm'))
    rw [hr]
    exact ⟨_, rfl⟩

theorem tailSegment_ok (rw : Rune → Int) (styles : StyleSet) (scr : Screen) (y xOffset : Int)
    (st : Style) (line : Str) (spans : List (Int × Int)) (prev index : Int)
    (hne : spans ≠ [])
    (hall : ∀ m ∈ spans, 0 ≤ m.1 ∧ m.1 ≤ m.2 ∧ m.2 ≤ (line.length : Int)) :
    ∃ t, tailSegment rw styles scr y xOffset st line spans prev index = .ok t := by
  unfold tailSegment
  cases hlast : spans.getLast? with
  | none => exact absurd (List.getLast?_eq_none_iff.1 hlast) hne
  | some m =>
    obtain ⟨hm0, hm1, hm2⟩ := hall m (List.mem_of_getLast?_eq_some hlast)
    simp only []
    split
    · obtain ⟨c, hc⟩ := sliceStr_ok line m.1 m.2 hm0 hm1 hm2
      rw [hc]
      exact ⟨_, rfl⟩
    · split
      · obtain ⟨c, hc⟩ := sliceStr_ok line m.2 (line.length : Int) (by omega) hm2 (le_refl _)
        rw [hc]
        exact ⟨_, rfl⟩
      · exact ⟨_, rfl⟩

theorem drawRow_ok (rw : Rune → Int) (l : ListArea) (state : Peco) (n y : Int) (st : Style)
    (target : Line) (h : target.spansOk) :
    ∃ ops, drawRow rw l state n y st target = .ok ops := by
  unfold drawRow
  unfold Line.spansOk at h
  simp only []
  cases hidx : target.indices with
  | none => exact ⟨_, rfl⟩
  | some spans =>
    rw [hidx] at h
    simp only [spansFit] at h ⊢
    obtain ⟨r, hr⟩ := matchLoop_ok rw l.styles state.screen y state.loc.column st target.displayString
      spans (jumpPrefix rw state n y st).1 0 (le_refl _) h.2
    rw [hr]
    obtain ⟨t, ht⟩ := tailSegment_ok rw l.styles state.screen y state.loc.column st target.displayString
      spans r.1 r.2.1 h.1 h.2
    simp only [ht]
    exact ⟨_, rfl⟩

theorem cropLineAt_mem (buf : List Line) (crop : List Int) (n i : Int) (t : Line)
    (h : cropLineAt buf crop n = some (i, t)) : LineAt buf i = some t := by
  unfold cropLineAt at h
  split at h
  · split at h
    · rename_i j hj
      cases hl : LineAt buf j with
      | none => rw [hl] at h; cases h
      | some t' =>
        rw [hl] at h
        simp only [Option.map_some', Option.some.injEq, Prod.mk.injEq] at h
        rw [← h.1, ← h.2]
        exact hl
    · cases h
  · cases h

theorem writeRow_ok (rw : Rune → Int) (start n i : Int) (target : Line) (l : ListArea)
    (state : Peco) (h : target.spansOk) :
    ∃ w, writeRow rw start n i target l state = .ok w := by
  unfold writeRow
  simp only []
  obtain ⟨ops, hops⟩ := drawRow_ok rw
    { l with displayCache := l.displayCache.set n.toNat (some target.id) }
    (if l.dirty || target.dirty then { state with buf := setDirtyAt state.buf i false }
      else state) n (rowY l start n) (rowStyle l state n) target h
  rw [hops]
  exact ⟨_, rfl⟩

theorem rowLoop_ok (rw : Rune → Int) (crop : List Int) (start perPage : Int) :
    ∀ (fuel : Nat) (n : Int) (l : ListArea) (state : Peco),
      (∀ ln ∈ state.buf, ln.spansOk) →
      ∃ r, rowLoop rw crop start perPage fuel n l state = .ok r := by
  intro fuel
  induction fuel with
  | zero =>
    intro n l state _
    exact ⟨_, rfl⟩
  | succ f ih =>
    intro n l state hok
    unfold rowLoop
    split
    · exact ⟨_, rfl⟩
    · split
      · exact ⟨_, rfl⟩
      · split
        · exact ⟨_, rfl⟩
        · rename_i i target hct
          split
          · exact ih _ _ _ hok
          · have ht : target.spansOk :=
              hok target (LineAt_mem _ _ _ (cropLineAt_mem _ _ _ _ _ hct))
            obtain ⟨w, hw⟩ := writeRow_ok rw start n i target l state ht
            obtain ⟨-, hw2, -⟩ := writeRow_facts _ _ _ _ _ _ _ _ hw
            have hok2 : ∀ ln ∈ w.2.1.buf, ln.spansOk := by
              rw [hw2]
              split
              · exact setDirtyAt_spansOk _ _ _ hok
              · exact hok
            obtain ⟨r, hr⟩ := ih (n + 1) w.1 w.2.1 hok2
            rw [hw]
            simp only [hr]
            exact ⟨_, rfl⟩

theorem clampLineNumber_facts (state : Peco) :
    (clampLineNumber state).buf = state.buf
    ∧ (clampLineNumber state).screen = state.screen
    ∧ (clampLineNumber state).loc.page = state.loc.page
    ∧ (clampLineNumber state).loc.perPage = state.loc.perPage
    ∧ (clampLineNumber state).loc.lineNumber =
        (if (state.buf.length : Int) > 0 ∧ state.loc.lineNumber ≥ (state.buf.length : Int)
          then (state.buf.length : Int) - 1 else state.loc.lineNumber) := by
  unfold clampLineNumber
  simp only []
  split <;> exact ⟨rfl, rfl, rfl, rfl, rfl⟩

/-- The form of the result of `ListArea.Draw`, given the result of its row loop. -/
theorem Draw_eq (rw : Rune → Int) (l : ListArea) (state : Peco) (parent : BasicLayout)
    (perPage : Int) (rq : Bool) (hpp : 1 ≤ perPage) (r : ListArea × Peco × List ScreenOp)
    (h : rowLoop rw (drawSetup rw l state parent perPage rq).crop
        (drawSetup rw l state parent perPage rq).start perPage perPage.toNat 0
        (drawSetup rw l state parent perPage rq).list
        (drawSetup rw l state parent perPage rq).state = .ok r) :
    l.Draw rw state parent perPage rq =
      .ok ({ r.1 with dirty := false }, r.2.1,
        (drawSetup rw l state parent perPage rq).ops ++ r.2.2) := by
  unfold ListArea.Draw
  rw [if_neg (by omega)]
  simp only []
  rw [h]

/-- A result of `ListArea.Draw` comes from a result of its row loop. -/
theorem Draw_inv (rw : Rune → Int) (l : ListArea) (state : Peco) (parent : BasicLayout)
    (perPage : Int) (rq : Bool) (d : ListArea × Peco × List ScreenOp)
    (h : l.Draw rw state parent perPage rq = .ok d) :
    1 ≤ perPage ∧ ∃ r, rowLoop rw (drawSetup rw l state parent perPage rq).crop
        (drawSetup rw l state parent perPage rq).start perPage perPage.toNat 0
        (drawSetup rw l state parent perPage rq).list
        (drawSetup rw l state parent perPage rq).state = .ok r
      ∧ d = ({ r.1 with dirty := false }, r.2.1,
        (drawSetup rw l state parent perPage rq).ops ++ r.2.2) := by
  unfold ListArea.Draw at h
  split at h
  · cases h
  · rename_i hpp
    simp only [] at h
    split at h
    · cases h
    · rename_i r hr
      cases h
      exact ⟨by omega, r, hr, rfl⟩

/-- The state with which `ListArea.Draw` enters its row loop. -/
theorem drawSetup_state (rw : Rune → Int) (l : ListArea) (state : Peco) (parent : BasicLayout)
    (perPage : Int) (rq : Bool) :
    (drawSetup rw l state parent perPage rq).state
      = clampLineNumber (adjustPage rw parent state rq).1 := rfl

theorem Draw_ok (rw : Rune → Int) (l : ListArea) (state : Peco) (parent : BasicLayout)
    (perPage : Int) (rq : Bool) (hpp : 1 ≤ perPage) (hok : ∀ ln ∈ state.buf, ln.spansOk) :
    ∃ d, l.Draw rw state parent perPage rq = .ok d := by
  have hok2 : ∀ ln ∈ (drawSetup rw l state parent perPage rq).state.buf, ln.spansOk := by
    rw [drawSetup_state, (clampLineNumber_facts _).1, adjustPage_buf]
    exact hok
  obtain ⟨r, hr⟩ := rowLoop_ok rw _ _ perPage perPage.toNat 0 _ _ hok2
  exact ⟨_, Draw_eq rw l state parent perPage rq hpp r hr⟩

/-- The row loop changes nothing but cache entries and dirty flags. -/
theorem rowLoop_frame (rw : Rune → Int) (crop : List Int) (start perPage : Int) :
    ∀ (fuel : Nat) (n : Int) (l : ListArea) (state : Peco)
      (r : ListArea × Peco × List ScreenOp),
      rowLoop rw crop start perPage fuel n l state = .ok r →
      ∃ C B, r.1 = { l with displayCache := C } ∧ r.2.1 = { state with buf := B }
        ∧ C.length = l.displayCache.length ∧ sameLines B state.buf := by
  intro fuel
  induction fuel with
  | zero =>
    intro n l state r h
    cases h
    exact ⟨_, _, rfl, rfl, rfl, rfl⟩
  | succ f ih =>
    intro n l state r h
    unfold rowLoop at h
    split at h
    · cases h; exact ⟨_, _, rfl, rfl, rfl, rfl⟩
    · split at h
      · cases h; exact ⟨_, _, rfl, rfl, rfl, rfl⟩
      · split at h
        · cases h; exact ⟨_, _, rfl, rfl, rfl, rfl⟩
        · rename_i i target hct
          split at h
          · exact ih _ _ _ _ h
          · split at h
            · cases h
            · rename_i w hw
              split at h
              · cases h
              · rename_i r2 hr2
                cases h
                obtain ⟨hw1, hw2, -⟩ := writeRow_facts _ _ _ _ _ _ _ _ hw
                obtain ⟨C, B, h1, h2, h3, h4⟩ := ih _ _ _ _ hr2
                refine ⟨C, B, ?_, ?_, ?_, ?_⟩
                · show r2.1 = _
                  rw [h1, hw1]
                · show r2.2.1 = _
                  rw [h2, hw2]
                  split <;> rfl
                · rw [h3, hw1]
                  simp
                · rw [hw2] at h4
                  split at h4
                  · exact h4.trans (sameLines_setDirtyAt _ _ _)
                  · exact h4

theorem adjustPage_facts (rw : Rune → Int) (parent : BasicLayout) (state : Peco) (rq : Bool) :
    (adjustPage rw parent state rq).1.buf = state.buf
    ∧ (adjustPage rw parent state rq).1.screen = state.screen
    ∧ (adjustPage rw parent state rq).1.loc.lineNumber = state.loc.lineNumber
    ∧ (adjustPage rw parent state rq).1.loc.perPage = state.loc.perPage := by
  unfold adjustPage
  split
  · simp only []
    split <;> exact ⟨rfl, rfl, rfl, rfl⟩
  · exact ⟨rfl, rfl, rfl, rfl⟩

/-- The line number that `ListArea.Draw` leaves. -/
theorem Draw_lineNumber (rw : Rune → Int) (l : ListArea) (state : Peco) (parent : BasicLayout)
    (perPage : Int) (rq : Bool) (d : ListArea × Peco × List ScreenOp)
    (h : l.Draw rw state parent perPage rq = .ok d) :
    d.2.1.loc.lineNumber =
      (if (state.buf.length : Int) > 0 ∧ state.loc.lineNumber ≥ (state.buf.length : Int)
        then (state.buf.length : Int) - 1 else state.loc.lineNumber)
    ∧ d.2.1.buf.length = state.buf.length := by
  obtain ⟨-, r, hr, hd⟩ := Draw_inv rw l state parent perPage rq d h
  obtain ⟨C, B, -, h2, -, h4⟩ := rowLoop_frame _ _ _ _ _ _ _ _ _ hr
  obtain ⟨c1, -, -, -, c5⟩ := clampLineNumber_facts (adjustPage rw parent state rq).1
  obtain ⟨a1, -, a3, -⟩ := adjustPage_facts rw parent state rq
  rw [drawSetup_state] at h2 h4
  rw [hd]
  constructor
  · show r.2.1.loc.lineNumber = _
    rw [h2]
    show (clampLineNumber (adjustPage rw parent state rq).1).loc.lineNumber = _
    rw [c5, a1, a3]
  · show r.2.1.buf.length = _
    rw [h2]
    show B.length = _
    rw [sameLines_length h4, c1, a1]

/-- C7, as stated, fails in its last part: the arithmetic of `CalculatePage` is
that of Go's 64-bit `int`.  With 4 lines, the cursor on line 1 (inside the
buffer) and `perPage = 2^63 - 3`, `total + perPage - 1` wraps around,
`CalculatePage` stores `maxPage = -1 < page = 1` and moves the line number to
`offset = 0`. -/
theorem C7_calculatePage_moves_line_number :
    (1 : Int) ≤ 9223372036854775805
    ∧ (0 : Int) ≤ (sampleState 4 1).loc.lineNumber
    ∧ (sampleState 4 1).loc.lineNumber < ((sampleState 4 1).buf.length : Int)
    ∧ ∃ st, CalculatePage (sampleState 4 1) 9223372036854775805 = .ok (st, none)
        ∧ st.loc.page = 1 ∧ st.loc.maxPage = -1 ∧ st.loc.lineNumber = 0
        ∧ st.loc.lineNumber ≠ (sampleState 4 1).loc.lineNumber :=
  ⟨by decide, by decide, by decide, _, rfl, by decide, by decide, by decide, by decide⟩

/-- C7, amended: whenever the buffer is non-empty, `0 <= lineNumber < bufferSize`
holds after `verticalScroll` (any request, either direction, any prior line
number; the call returns on a terminal of at least three rows), and after
`ListArea.Draw` for a prior line number `>= 0` (the call returns when
`perPage >= 1` and the match spans of the lines can be sliced); and
`CalculatePage` with `perPage >= 1` leaves a line number that satisfies the
invariant unchanged when `total + perPage - 1` does not exceed `2^63 - 1`
(Go's 64-bit `int` does not overflow). -/
theorem C7_line_number_in_range (rw : Rune → Int) (state : Peco) (l : BasicLayout)
    (la : ListArea) (p : PagingRequest) (perPage : Int) (rq : Bool)
    (hN : state.buf ≠ []) :
    (3 ≤ state.screen.height →
      ∃ st, verticalScroll state l p = .ok (st, true)
        ∧ 0 ≤ st.loc.lineNumber ∧ st.loc.lineNumber < (st.buf.length : Int)
        ∧ st.buf.length = state.buf.length)
    ∧ (0 ≤ state.loc.lineNumber →
        (∀ d, la.Draw rw state l perPage rq = .ok d →
          0 ≤ d.2.1.loc.lineNumber ∧ d.2.1.loc.lineNumber < (d.2.1.buf.length : Int)
          ∧ d.2.1.buf.length = state.buf.length)
        ∧ (1 ≤ perPage → (∀ ln ∈ state.buf, ln.spansOk) →
            ∃ d, la.Draw rw state l perPage rq = .ok d
              ∧ 0 ≤ d.2.1.loc.lineNumber ∧ d.2.1.loc.lineNumber < (d.2.1.buf.length : Int)))
    ∧ (1 ≤ perPage → 0 ≤ state.loc.lineNumber →
        state.loc.lineNumber < (state.buf.length : Int) →
        (state.buf.length : Int) + perPage - 1 ≤ maxInt →
        ∃ st, CalculatePage state perPage = .ok (st, none)
          ∧ st.loc.lineNumber = state.loc.lineNumber ∧ st.buf = state.buf) := by
  have hpos : 0 < (state.buf.length : Int) := by
    have := List.length_pos.2 hN
    omega
  have hdraw : 0 ≤ state.loc.lineNumber → ∀ d, la.Draw rw state l perPage rq = .ok d →
      0 ≤ d.2.1.loc.lineNumber ∧ d.2.1.loc.lineNumber < (d.2.1.buf.length : Int)
      ∧ d.2.1.buf.length = state.buf.length := by
    intro hL d hd
    obtain ⟨h1, h2⟩ := Draw_lineNumber rw la state l perPage rq d hd
    rw [h1, h2]
    refine ⟨?_, ?_, rfl⟩
    · split <;> omega
    · split <;> omega
  refine ⟨?_, ?_, ?_⟩
  · intro hh
    refine ⟨_, verticalScroll_eq state l p _ (linesPerPage_eq _ hh), ?_, ?_, ?_⟩
    · show 0 ≤ clampLine _ _
      unfold clampLine
      split_ifs <;> omega
    · show clampLine _ _ < ((setDirtyAt (setDirtyAt state.buf _ true) _ true).length : Int)
      rw [setDirtyAt_length, setDirtyAt_length]
      unfold clampLine
      split_ifs <;> omega
    · show (setDirtyAt (setDirtyAt state.buf _ true) _ true).length = _
      rw [setDirtyAt_length, setDirtyAt_length]
  · intro hL
    refine ⟨hdraw hL, ?_⟩
    intro hpp hok
    obtain ⟨d, hd⟩ := Draw_ok rw la state l perPage rq hpp hok
    obtain ⟨h1, h2, -⟩ := hdraw hL d hd
    exact ⟨d, hd, h1, h2⟩
  · intro hpp hL hlt hfit
    have hne : perPage ≠ 0 := by omega
    have hq1 : state.loc.lineNumber / perPage ≤ state.loc.lineNumber :=
      Int.ediv_le_self _ hL
    have hfit2 : Int.tdiv state.loc.lineNumber perPage < maxInt := by
      rw [Int.tdiv_eq_ediv hL (by omega)]
      omega
    have hle : ¬ (pageCount (state.buf.length : Int) perPage
        < pageNumber state.loc.lineNumber perPage) := by
      rw [pageNumber_eq _ _ hL hpp hfit2, pageCount_eq _ _ (by omega) hpp hfit,
        Int.tdiv_eq_ediv hL (by omega), Int.tdiv_eq_ediv (by omega) (by omega)]
      have e : (state.buf.length : Int) + perPage - 1
          = ((state.buf.length : Int) - 1) + 1 * perPage := by ring
      rw [e, Int.add_mul_ediv_right _ _ hne]
      have := Int.ediv_le_ediv (show 0 < perPage by omega)
        (show state.loc.lineNumber ≤ (state.buf.length : Int) - 1 by omega)
      omega
    have h0 : ¬ (state.buf.length : Int) = 0 := by omega
    have hcp := CalculatePage_eq state perPage hne
    rw [if_neg h0] at hcp
    rw [if_neg (fun hh => hle hh.1), if_neg (fun hh => hle hh.1)] at hcp
    exact ⟨_, hcp, rfl, rfl⟩

/-- The hypotheses of `C7_line_number_in_range` hold for the buffer of 3
lines with the cursor on line 7: `ListArea.Draw` brings the line number to 2. -/
theorem C7_line_number_in_range_witness :
    (sampleState 3 7).buf ≠ []
    ∧ ∃ d, topDownLayout.list.Draw sampleWidth (sampleState 3 7) topDownLayout 10 false = .ok d
        ∧ 0 ≤ d.2.1.loc.lineNumber ∧ d.2.1.loc.lineNumber < (d.2.1.buf.length : Int) :=
  ⟨by decide,
    ((C7_line_number_in_range sampleWidth (sampleState 3 7) topDownLayout topDownLayout.list
      .ToLineAbove 10 false (by decide)).2.1 (by decide)).2 (by decide) (by decide)⟩

/-! ### The trace of a frame -/

theorem promptRunes_onRow (rw : Rune → Int) (u : UserPrompt) (location caret : Int)
    (rs : List Rune) :
    ∀ (i prev : Int),
      opsOnRows (fun y => y = location) (promptRunes rw u location caret rs i prev).2 := by
  induction rs with
  | nil =>
    intro i prev
    exact opsOnRows_nil _
  | cons r rs ih =>
    intro i prev
    unfold promptRunes
    exact opsOnRows_cons _ (Or.inr ⟨location, rfl, rfl⟩) (ih _ _)

theorem AnchorPosition_onRows (P : Int → Prop) (as : AnchorSettings) (scr : Screen) :
    opsOnRows P (as.AnchorPosition scr).2 := by
  unfold AnchorSettings.AnchorPosition
  split
  · exact opsOnRows_nil _
  · exact opsOnRows_cons _ (Or.inl rfl) (opsOnRows_nil _)

/-- The prompt's draw writes to the prompt row only and ends with its one
`Flush`. -/
theorem prompt_Draw_trace (rw : Rune → Int) (u : UserPrompt) (state : Peco) :
    ∃ pre, (u.Draw rw state).2 = pre ++ [ScreenOp.flush]
      ∧ opsOnRows (fun y => y = (u.as.AnchorPosition state.screen).1) pre := by
  unfold UserPrompt.Draw
  simp only []
  refine ⟨_, rfl, ?_⟩
  refine opsOnRows_append (opsOnRows_append (opsOnRows_append (opsOnRows_append
    (AnchorPosition_onRows _ _ _) (Print_onRow _ _ _)) ?_)
    (opsOnRows_cons _ (Or.inl rfl) (opsOnRows_nil _))) (Print_onRow _ _ _)
  split_ifs
  all_goals first
    | exact opsOnRows_append (Print_onRow _ _ _) (Print_onRow _ _ _)
    | exact opsOnRows_append (opsOnRows_append (Print_onRow _ _ _) (Print_onRow _ _ _))
        (Print_onRow _ _ _)
    | exact opsOnRows_append (promptRunes_onRow _ _ _ _ _ _ _) (Print_onRow _ _ _)

theorem count_flush_of_onRows {P : Int → Prop} {a : List ScreenOp} (h : opsOnRows P a) :
    a.count ScreenOp.flush = 0 :=
  List.count_eq_zero.2 (opsOnRows_no_flush h)

theorem drawSetup_ops (rw : Rune → Int) (l : ListArea) (state : Peco) (parent : BasicLayout)
    (perPage : Int) (rq : Bool) :
    ∃ R0, (drawSetup rw l state parent perPage rq).ops = (adjustPage rw parent state rq).2 ++ R0
      ∧ opsOnRows (fun y => ∃ m,
          ((drawSetup rw l state parent perPage rq).crop.length : Int) ≤ m ∧ m < perPage
          ∧ y = rowY l (l.as.AnchorPosition state.screen).1 m) R0
      ∧ (drawSetup rw l state parent perPage rq).start = (l.as.AnchorPosition state.screen).1
      ∧ (drawSetup rw l state parent perPage rq).list.sortTopDown = l.sortTopDown := by
  have hscr : (clampLineNumber (adjustPage rw parent state rq).1).screen = state.screen := by
    rw [(clampLineNumber_facts _).2.1, (adjustPage_facts rw parent state rq).2.1]
  unfold drawSetup
  simp only [hscr]
  refine ⟨_, List.append_assoc _ _ _, ?_, trivial, trivial⟩
  refine opsOnRows_append (AnchorPosition_onRows _ _ _) ?_
  refine opsOnRows_mono ?_ (clearLoop_onRows _ _ _ _ _ _)
  rintro y ⟨m, hm, rfl⟩
  rw [mem_intRange] at hm
  exact ⟨m, hm.1, hm.2, rfl⟩

theorem adjustPage_ops (rw : Rune → Int) (parent : BasicLayout) (state : Peco) (rq : Bool) :
    (adjustPage rw parent state rq).2 = []
    ∨ (rq = true ∧ ∃ s2, (adjustPage rw parent state rq).2 = (DrawPrompt rw parent s2).2) := by
  unfold adjustPage
  split
  · rename_i hrq
    simp only []
    split
    · exact Or.inr ⟨hrq, _, rfl⟩
    · exact Or.inl rfl
  · exact Or.inl rfl

/-- The trace of `ListArea.Draw`: an optional redraw of the prompt (when a running
query moved the page), then writes to list rows only. -/
theorem Draw_trace (rw : Rune → Int) (l : ListArea) (state : Peco) (parent : BasicLayout)
    (perPage : Int) (rq : Bool) (d : ListArea × Peco × List ScreenOp)
    (h : l.Draw rw state parent perPage rq = .ok d) :
    ∃ P2 R, d.2.2 = P2 ++ R
      ∧ (P2 = [] ∨ (rq = true ∧ ∃ s2, P2 = (DrawPrompt rw parent s2).2))
      ∧ opsOnRows (fun y => ∃ m, 0 ≤ m ∧ m < perPage ∧ y = rowY l
          (l.as.AnchorPosition state.screen).1 m) R := by
  obtain ⟨-, r, hr, hd⟩ := Draw_inv rw l state parent perPage rq d h
  obtain ⟨R0, hops, hR0, hstart, hsort⟩ := drawSetup_ops rw l state parent perPage rq
  have h1 : d.2.2 = (adjustPage rw parent state rq).2 ++ (R0 ++ r.2.2) := by
    rw [hd]
    show (drawSetup rw l state parent perPage rq).ops ++ r.2.2 = _
    rw [hops, List.append_assoc]
  have h2 : opsOnRows (fun y => ∃ m, 0 ≤ m ∧ m < perPage ∧ y = rowY l
      (l.as.AnchorPosition state.screen).1 m) R0 := by
    refine opsOnRows_mono ?_ hR0
    rintro y ⟨m, h1, h2, h3⟩
    exact ⟨m, by omega, h2, h3⟩
  have h3 : opsOnRows (fun y => ∃ m, 0 ≤ m ∧ m < perPage ∧ y = rowY l
      (l.as.AnchorPosition state.screen).1 m) r.2.2 := by
    refine opsOnRows_mono ?_ (rowLoop_onRows rw _ _ perPage l.sortTopDown _ _ _ _ _ hsort hr)
    rintro y ⟨m, h1, h2, -, rfl⟩
    refine ⟨m, h1, h2, ?_⟩
    rw [hstart]
    rfl
  exact ⟨_, _, h1, adjustPage_ops rw parent state rq, opsOnRows_append h2 h3⟩

set_option maxRecDepth 100000 in
/-- C9, as stated, fails: on the buffer of three lines (top-down, cursor on
line 0, no running query) `CalculatePage` succeeds and `DrawScreen` issues two
`Flush` calls; the first comes after the first cell of the prompt has been
written and before the first cell of the list is written. -/
theorem C9_prompt_flushes_mid_frame :
    (∃ st, CalculatePage (sampleState 3 0) 10 = .ok (st, none))
    ∧ ∃ l st ops, DrawScreen sampleWidth topDownLayout (sampleState 3 0) false = .ok (l, st, ops)
        ∧ ops.count ScreenOp.flush = 2
        ∧ ops.indexOf (ScreenOp.setCell 0 0 81 1 0) < ops.indexOf ScreenOp.flush
        ∧ ops.indexOf ScreenOp.flush < ops.indexOf (ScreenOp.setCell 0 1 97 5 6)
        ∧ ops.indexOf (ScreenOp.setCell 0 1 97 5 6) < ops.length :=
  ⟨⟨_, rfl⟩, _, _, _, rfl, by decide, by decide, by decide, by decide⟩

/-- C9, amended: for every state in which `CalculatePage` succeeds (on a
terminal of at least three rows, with lines whose match spans can be sliced),
a single `DrawScreen` call returns and its trace is: the `Size` call of
`linesPerPage`, the prompt's draw, the list's draw, one final `Flush`.  The
prompt's draw ends with a `Flush` of its own, its only one.  The list's draw
is an optional second draw of the prompt (only while a query is running),
followed by operations that are `Size` calls or writes to list rows, with no
`Flush` among them.  So the frame holds two `Flush` calls, or three, the last
one being the final screen operation, and none between the first cell write of
the list rows and that last one. -/
theorem C9_draw_order_amended (rw : Rune → Int) (l : BasicLayout) (state : Peco) (rq : Bool)
    (cp : Peco × Option String)
    (hh : 3 ≤ state.screen.height) (hok : ∀ ln ∈ state.buf, ln.spansOk)
    (hcp : CalculatePage state (state.screen.height - 2) = .ok cp) (hnone : cp.2 = none) :
    ∃ l1 st P2 R,
      DrawScreen rw l state rq
        = .ok (l1, st, [ScreenOp.size] ++ (DrawPrompt rw l cp.1).2 ++ (P2 ++ R) ++ [ScreenOp.flush])
      ∧ l.list.Draw rw (DrawPrompt rw l cp.1).1 l (state.screen.height - 2) rq
          = .ok (l1.list, st, P2 ++ R)
      ∧ (DrawPrompt rw l cp.1).2.getLast? = some ScreenOp.flush
      ∧ (DrawPrompt rw l cp.1).2.count ScreenOp.flush = 1
      ∧ ((P2 = [] ∧
            ([ScreenOp.size] ++ (DrawPrompt rw l cp.1).2 ++ (P2 ++ R) ++ [ScreenOp.flush]).count
              ScreenOp.flush = 2)
          ∨ (rq = true ∧ (∃ s2, P2 = (DrawPrompt rw l s2).2) ∧
            ([ScreenOp.size] ++ (DrawPrompt rw l cp.1).2 ++ (P2 ++ R) ++ [ScreenOp.flush]).count
              ScreenOp.flush = 3))
      ∧ ScreenOp.flush ∉ R
      ∧ opsOnRows (fun y => ∃ m, 0 ≤ m ∧ m < state.screen.height - 2 ∧ y = rowY l.list
          (l.list.as.AnchorPosition state.screen).1 m) R := by
  have hlpp := linesPerPage_eq _ hh
  obtain ⟨cp', hcp', hbuf, hscr, -⟩ := CalculatePage_facts state (state.screen.height - 2)
    (by omega)
  have hceq : cp' = cp := by
    rw [hcp'] at hcp
    injection hcp
  rw [hceq] at hbuf hscr
  have hok1 : ∀ ln ∈ (DrawPrompt rw l cp.1).1.buf, ln.spansOk := by
    show ∀ ln ∈ cp.1.buf, ln.spansOk
    rw [hbuf]
    exact hok
  obtain ⟨d, hd⟩ := Draw_ok rw l.list (DrawPrompt rw l cp.1).1 l (state.screen.height - 2) rq
    (by omega) hok1
  obtain ⟨P2, R, hsplit, hP2, hR⟩ := Draw_trace rw l.list _ l _ rq d hd
  have hscr1 : (DrawPrompt rw l cp.1).1.screen = state.screen := hscr
  rw [hscr1] at hR
  obtain ⟨pre, hpre, hpre2⟩ := prompt_Draw_trace rw l.prompt cp.1
  have hpre' : (DrawPrompt rw l cp.1).2 = pre ++ [ScreenOp.flush] := hpre
  have hdraw := DrawScreen_eq rw l state rq _ cp d hlpp hcp hnone hd
  rw [hsplit] at hdraw
  have hd' : l.list.Draw rw (DrawPrompt rw l cp.1).1 l (state.screen.height - 2) rq
      = .ok (d.1, d.2.1, P2 ++ R) := by
    rw [hd, ← hsplit]
  have cpre : pre.count ScreenOp.flush = 0 := count_flush_of_onRows hpre2
  have cR : R.count ScreenOp.flush = 0 := count_flush_of_onRows hR
  refine ⟨_, _, P2, R, hdraw, hd', ?_, ?_, ?_, opsOnRows_no_flush hR, hR⟩
  · rw [hpre']
    exact List.getLast?_concat _
  · rw [hpre']
    simp [List.count_append, cpre]
  · rcases hP2 with h0 | ⟨hrq, s2, hs2⟩
    · left
      refine ⟨h0, ?_⟩
      rw [h0, hpre']
      simp [List.count_append, cpre, cR]
    · right
      refine ⟨hrq, ⟨s2, hs2⟩, ?_⟩
      obtain ⟨pre2, hpre2a, hpre2b⟩ := prompt_Draw_trace rw l.prompt s2
      have c2 : pre2.count ScreenOp.flush = 0 := count_flush_of_onRows hpre2b
      have hs2' : P2 = pre2 ++ [ScreenOp.flush] := by
        rw [hs2]
        exact hpre2a
      rw [hs2', hpre']
      simp [List.count_append, cpre, cR, c2]

/-- The hypotheses of `C9_draw_order_amended` hold for the buffer of three
lines: `CalculatePage` succeeds and the frame holds two `Flush` calls. -/
theorem C9_draw_order_amended_witness :
    (3 : Int) ≤ (sampleState 3 0).screen.height
    ∧ (∀ ln ∈ (sampleState 3 0).buf, ln.spansOk)
    ∧ ∃ l1 st ops, DrawScreen sampleWidth topDownLayout (sampleState 3 0) false
        = .ok (l1, st, ops) ∧ ops.getLast? = some ScreenOp.flush := by
  refine ⟨by decide, by decide, ?_⟩
  obtain ⟨l1, st, P2, R, h, -⟩ := C9_draw_order_amended sampleWidth topDownLayout
    (sampleState 3 0) false ({ sampleState 3 0 with loc := ⟨1, 10, 0, 3, 1, 0, 0⟩ }, none)
    (by decide) (by decide) rfl rfl
  exact ⟨l1, st, _, h, List.getLast?_concat _⟩

/-! ### The display cache -/

theorem walkBackPage_fixed (perPage bufsiz : Int) (fuel : Nat) (page : Int)
    (h : page ≤ 1 ∨ (perPage * (page - 1) < bufsiz ∧ perPage * page ≥ bufsiz)) :
    walkBackPage perPage bufsiz fuel page = page := by
  cases fuel with
  | zero => rfl
  | succ f =>
    unfold walkBackPage
    split
    · rename_i hgt
      rcases h with h | h
      · omega
      · rw [if_pos h]
    · rfl

theorem walkBackPage_stops (perPage bufsiz : Int) :
    ∀ (fuel : Nat) (page : Int), page.toNat ≤ fuel →
      walkBackPage perPage bufsiz fuel page ≤ 1
      ∨ (perPage * (walkBackPage perPage bufsiz fuel page - 1) < bufsiz
          ∧ perPage * walkBackPage perPage bufsiz fuel page ≥ bufsiz) := by
  intro fuel
  induction fuel with
  | zero =>
    intro page h
    left
    show page ≤ 1
    omega
  | succ f ih =>
    intro page h
    unfold walkBackPage
    split
    · rename_i hgt
      split
      · rename_i hc
        exact Or.inr hc
      · exact ih (page - 1) (by omega)
    · left
      omega

/-- After the running-query block, the block finds nothing more to do. -/
theorem adjustPage_stable (rw : Rune → Int) (parent : BasicLayout) (state : Peco) (rq : Bool) :
    adjustPage rw parent (adjustPage rw parent state rq).1 rq
      = ((adjustPage rw parent state rq).1, []) := by
  cases rq with
  | false => rfl
  | true =>
    have hstop := walkBackPage_stops state.loc.perPage (state.buf.length : Int)
      state.loc.page.toNat state.loc.page (le_refl _)
    by_cases hp : state.loc.page ≠ walkBackPage state.loc.perPage (state.buf.length : Int)
        state.loc.page.toNat state.loc.page
    · have e1 : (adjustPage rw parent state true).1
          = (parent.prompt.Draw rw { state with loc := { state.loc with
              page := walkBackPage state.loc.perPage (state.buf.length : Int)
                state.loc.page.toNat state.loc.page } }).1 := by
        unfold adjustPage
        simp only [if_true]
        rw [if_pos hp]
      rw [e1]
      unfold adjustPage
      simp only [if_true]
      have e2 := walkBackPage_fixed state.loc.perPage (state.buf.length : Int)
        (walkBackPage state.loc.perPage (state.buf.length : Int)
          state.loc.page.toNat state.loc.page).toNat _ hstop
      rw [if_neg]
      intro hne
      exact hne e2.symm
    · have hp' : state.loc.page = walkBackPage state.loc.perPage (state.buf.length : Int)
          state.loc.page.toNat state.loc.page := not_not.1 hp
      have e1 : (adjustPage rw parent state true) = (state, []) := by
        unfold adjustPage
        simp only [if_true]
        rw [if_neg hp]
      rw [e1]
      exact e1

theorem resizeCache_length (cache : List (Option Nat)) (perPage : Int) (hpp : 0 ≤ perPage) :
    ((resizeCache cache perPage).length : Int) = perPage := by
  unfold resizeCache
  split
  · simp only [List.length_append, List.length_take, List.length_replicate]
    omega
  · rename_i h
    exact not_not.1 h

theorem resizeCache_same (cache : List (Option Nat)) (perPage : Int)
    (h : (cache.length : Int) = perPage) : resizeCache cache perPage = cache := by
  unfold resizeCache
  rw [if_neg (not_not.2 h)]

theorem clearLoop_cache (rw : Rune → Int) (l : ListArea) (scr : Screen) (start : Int)
    (ns : List Int) :
    ∀ cache : List (Option Nat),
      (clearLoop rw l scr start ns cache).1.length = cache.length
      ∧ ∀ k : Nat, (∀ n ∈ ns, n.toNat ≠ k) →
          (clearLoop rw l scr start ns cache).1.getD k none = cache.getD k none := by
  induction ns with
  | nil =>
    intro cache
    exact ⟨rfl, fun _ _ => rfl⟩
  | cons n ns ih =>
    intro cache
    unfold clearLoop
    simp only []
    obtain ⟨h1, h2⟩ := ih (cache.set n.toNat none)
    refine ⟨by rw [h1, List.length_set], ?_⟩
    intro k hk
    rw [h2 k (fun m hm => hk m (List.mem_cons_of_mem _ hm))]
    have hne : n.toNat ≠ k := hk n (List.mem_cons_self _ _)
    rw [List.getD_eq_getElem?_getD, List.getD_eq_getElem?_getD, List.getElem?_set_ne hne]

theorem cropLineAt_intRange_some (buf : List Line) (s e m i : Int) (t : Line)
    (h : cropLineAt buf (intRange s e) m = some (i, t)) :
    i = s + m ∧ 0 ≤ m ∧ m < e - s ∧ LineAt buf (s + m) = some t := by
  rw [cropLineAt_intRange] at h
  split at h
  · rename_i hm
    cases hl : LineAt buf (s + m) with
    | none => rw [hl] at h; cases h
    | some t' =>
      rw [hl] at h
      simp only [Option.map_some', Option.some.injEq, Prod.mk.injEq] at h
      exact ⟨h.1.symm, hm.1, hm.2, by rw [h.2]⟩
  · cases h

theorem cropLineAt_intRange_of (buf : List Line) (s e m : Int) (t : Line)
    (h0 : 0 ≤ m) (h1 : m < e - s) (h : LineAt buf (s + m) = some t) :
    cropLineAt buf (intRange s e) m = some (s + m, t) := by
  rw [cropLineAt_intRange, if_pos ⟨h0, h1⟩, h]
  rfl

/-- With a crop that starts inside the buffer, the slots that show a line are
an initial segment. -/
theorem cropLineAt_downward (buf : List Line) (s e n m i : Int) (t : Line) (hs : 0 ≤ s)
    (hn : 0 ≤ n) (hnm : n ≤ m) (h : cropLineAt buf (intRange s e) m = some (i, t)) :
    ∃ t', cropLineAt buf (intRange s e) n = some (s + n, t') := by
  obtain ⟨-, h0, h1, h2⟩ := cropLineAt_intRange_some buf s e m i t h
  obtain ⟨-, h3, -⟩ := LineAt_eq_some buf _ t h2
  obtain ⟨t', ht'⟩ := LineAt_of_lt buf (s + n) (by omega) (by omega)
  exact ⟨t', cropLineAt_intRange_of buf s e n t' hn (by omega) ht'⟩

/-- A row loop that finds every slot clean and cached writes nothing and
changes nothing. -/
theorem rowLoop_idle (rw : Rune → Int) (crop : List Int) (start perPage : Int) :
    ∀ (fuel : Nat) (n : Int) (l : ListArea) (state : Peco), l.dirty = false →
      (∀ m i t, n ≤ m → m < perPage → cropLineAt state.buf crop m = some (i, t) →
        t.dirty = false ∧ l.displayCache.getD m.toNat none = some t.id) →
      rowLoop rw crop start perPage fuel n l state = .ok (l, state, []) := by
  intro fuel
  induction fuel with
  | zero =>
    intro n l state _ _
    rfl
  | succ f ih =>
    intro n l state hd hset
    unfold rowLoop
    split
    · rfl
    · rename_i hn
      split
      · rfl
      · split
        · rfl
        · rename_i i target hct
          obtain ⟨h1, h2⟩ := hset n i target (le_refl _) (not_not.1 hn) hct
          rw [if_pos ⟨by rw [hd, h1]; decide, h2⟩]
          exact ih (n + 1) l state hd (fun m i t hm => hset m i t (by omega))

theorem getD_set_self (cache : List (Option Nat)) (k : Nat) (v : Option Nat)
    (h : k < cache.length) : (cache.set k v).getD k none = v := by
  rw [List.getD_eq_getElem?_getD, List.getElem?_set_self h]
  rfl

theorem getD_set_ne (cache : List (Option Nat)) (k j : Nat) (v : Option Nat) (h : k ≠ j) :
    (cache.set k v).getD j none = cache.getD j none := by
  rw [List.getD_eq_getElem?_getD, List.getD_eq_getElem?_getD, List.getElem?_set_ne h]

/-- The buffer after a written slot, line by line. -/
theorem writeRow_LineAt (l : ListArea) (state : Peco) (target : Line) (i j : Int) :
    LineAt (if (l.dirty || target.dirty) = true then
        { state with buf := setDirtyAt state.buf i false } else state).buf j
      = (LineAt state.buf j).map (fun t =>
          if j = i ∧ (l.dirty || target.dirty) = true then { t with dirty := false } else t) := by
  split
  · rename_i hd
    show LineAt (setDirtyAt state.buf i false) j = _
    rw [LineAt_setDirtyAt]
    cases LineAt state.buf j with
    | none => rfl
    | some t =>
      simp only [Option.map_some', hd, and_true]
  · rename_i hd
    cases LineAt state.buf j with
    | none => rfl
    | some t =>
      simp only [Option.map_some', hd, Bool.false_eq_true, and_false, if_false]

/-- What the row loop leaves behind: the slots before `n` are untouched, and
every slot from `n` on that shows a line holds it clean and cached. -/
theorem rowLoop_post (rw : Rune → Int) (s e start perPage : Int) (hs : 0 ≤ s) :
    ∀ (fuel : Nat) (n : Int) (l : ListArea) (state : Peco)
      (r : ListArea × Peco × List ScreenOp),
      0 ≤ n → perPage - n ≤ (fuel : Int) → (l.displayCache.length : Int) = perPage →
      rowLoop rw (intRange s e) start perPage fuel n l state = .ok r →
      (∀ m, 0 ≤ m → m < n →
        r.1.displayCache.getD m.toNat none = l.displayCache.getD m.toNat none
        ∧ LineAt r.2.1.buf (s + m) = LineAt state.buf (s + m))
      ∧ (∀ m i t, n ≤ m → m < perPage →
          cropLineAt r.2.1.buf (intRange s e) m = some (i, t) →
          t.dirty = false ∧ r.1.displayCache.getD m.toNat none = some t.id) := by
  intro fuel
  induction fuel with
  | zero =>
    intro n l state r hn hf _ h
    cases h
    exact ⟨fun m _ _ => ⟨rfl, rfl⟩, fun m i t h1 h2 _ => by omega⟩
  | succ f ih =>
    intro n l state r hn hf hlen h
    unfold rowLoop at h
    split at h
    · cases h
      exact ⟨fun m _ _ => ⟨rfl, rfl⟩, fun m i t h1 h2 _ => by omega⟩
    · rename_i hnp
      split at h
      · rename_i hc
        cases h
        refine ⟨fun m _ _ => ⟨rfl, rfl⟩, fun m i t h1 h2 h3 => ?_⟩
        obtain ⟨-, -, h4, -⟩ := cropLineAt_intRange_some _ _ _ _ _ _ h3
        rw [intRange_length] at hc
        omega
      · split at h
        · rename_i hnone
          cases h
          refine ⟨fun m _ _ => ⟨rfl, rfl⟩, fun m i t h1 h2 h3 => ?_⟩
          obtain ⟨t', ht'⟩ := cropLineAt_downward _ s e n m i t hs hn h1 h3
          rw [hnone] at ht'
          cases ht'
        · rename_i i target hct
          obtain ⟨hi, -, hne, hla⟩ := cropLineAt_intRange_some _ _ _ _ _ _ hct
          split at h
          · rename_i hhit
            obtain ⟨ih1, ih2⟩ := ih (n + 1) l state r (by omega) (by omega) hlen h
            refine ⟨fun m h0 h1 => ih1 m h0 (by omega), fun m i' t h1 h2 h3 => ?_⟩
            rcases eq_or_lt_of_le h1 with heq | hlt
            · subst heq
              obtain ⟨ha, hb⟩ := ih1 n hn (by omega)
              obtain ⟨-, -, -, hla'⟩ := cropLineAt_intRange_some _ _ _ _ _ _ h3
              rw [hb, hla] at hla'
              injection hla' with hla'
              subst hla'
              refine ⟨?_, by rw [ha]; exact hhit.2⟩
              have := hhit.1
              simp only [Bool.or_eq_true, not_or, Bool.not_eq_true] at this
              exact this.2
            · exact ih2 m i' t (by omega) h2 h3
          · rename_i hmiss
            split at h
            · cases h
            · rename_i w hw
              split at h
              · cases h
              · rename_i r2 hr2
                cases h
                obtain ⟨hw1, hw2, -⟩ := writeRow_facts _ _ _ _ _ _ _ _ hw
                have hlen2 : (w.1.displayCache.length : Int) = perPage := by
                  rw [hw1]
                  simp only [List.length_set]
                  exact hlen
                obtain ⟨ih1, ih2⟩ := ih (n + 1) w.1 w.2.1 r2 (by omega) (by omega) hlen2 hr2
                have hwl : ∀ j, LineAt w.2.1.buf j = (LineAt state.buf j).map (fun t =>
                    if j = i ∧ (l.dirty || target.dirty) = true then { t with dirty := false }
                    else t) := by
                  intro j
                  rw [hw2]
                  exact writeRow_LineAt l state target i j
                refine ⟨fun m h0 h1 => ?_, fun m i' t h1 h2 h3 => ?_⟩
                · obtain ⟨ha, hb⟩ := ih1 m h0 (by omega)
                  refine ⟨?_, ?_⟩
                  · show r2.1.displayCache.getD m.toNat none = _
                    rw [ha, hw1]
                    exact getD_set_ne _ _ _ _ (by omega)
                  · show LineAt r2.2.1.buf (s + m) = _
                    rw [hb, hwl]
                    cases LineAt state.buf (s + m) with
                    | none => rfl
                    | some t' =>
                      have : ¬ (s + m = i ∧ (l.dirty || target.dirty) = true) := by
                        intro hh
                        omega
                      simp only [Option.map_some', this, if_false]
                · rcases eq_or_lt_of_le h1 with heq | hlt
                  · subst heq
                    obtain ⟨ha, hb⟩ := ih1 n hn (by omega)
                    obtain ⟨-, -, -, hla'⟩ := cropLineAt_intRange_some _ _ _ _ _ _ h3
                    have hla2 : LineAt r2.2.1.buf (s + n) = some t := hla'
                    rw [hb, hwl, hla] at hla2
                    simp only [Option.map_some', Option.some.injEq] at hla2
                    have hcache : r2.1.displayCache.getD n.toNat none = some target.id := by
                      rw [ha, hw1]
                      exact getD_set_self _ _ _ (by omega)
                    by_cases hd : (l.dirty || target.dirty) = true
                    · rw [if_pos ⟨hi.symm, hd⟩] at hla2
                      rw [← hla2]
                      exact ⟨rfl, hcache⟩
                    · rw [if_neg (fun hh => hd hh.2)] at hla2
                      rw [← hla2]
                      refine ⟨?_, hcache⟩
                      simp only [Bool.or_eq_true, not_or, Bool.not_eq_true] at hd
                      exact hd.2
                  · exact ih2 m i' t (by omega) h2 h3

/-- A row loop that finds exactly one slot `k` dirty, and every other slot
clean and cached, does what writing that one slot does. -/
theorem rowLoop_single (rw : Rune → Int) (s e start perPage : Int) (hs : 0 ≤ s) (k i : Int)
    (t : Line) (hk : k < perPage) :
    ∀ (fuel : Nat) (n : Int) (l : ListArea) (state : Peco) (w : ListArea × Peco × List ScreenOp),
      0 ≤ n → n ≤ k → perPage - n ≤ (fuel : Int) → l.dirty = false →
      cropLineAt state.buf (intRange s e) k = some (i, t) → t.dirty = true →
      (∀ m i' t', n ≤ m → m < perPage → m ≠ k →
        cropLineAt state.buf (intRange s e) m = some (i', t') →
        t'.dirty = false ∧ l.displayCache.getD m.toNat none = some t'.id) →
      writeRow rw start k i t l state = .ok w →
      rowLoop rw (intRange s e) start perPage fuel n l state = .ok w := by
  intro fuel
  induction fuel with
  | zero =>
    intro n l state w hn hnk hf
    omega
  | succ f ih =>
    intro n l state w hn hnk hf hd hct hdirty hset hw
    obtain ⟨t', ht'⟩ := cropLineAt_downward _ s e n k i t hs hn hnk hct
    obtain ⟨-, -, hne, -⟩ := cropLineAt_intRange_some _ _ _ _ _ _ ht'
    unfold rowLoop
    rw [if_neg (by omega), if_neg (by rw [intRange_length]; omega), ht']
    simp only []
    rcases eq_or_lt_of_le hnk with heq | hlt
    · subst heq
      rw [ht'] at hct
      simp only [Option.some.injEq, Prod.mk.injEq] at hct
      obtain ⟨hi, htt⟩ := hct
      subst hi
      subst htt
      rw [if_neg (by rw [hdirty]; simp), hw]
      simp only []
      obtain ⟨hw1, hw2, -⟩ := writeRow_facts _ _ _ _ _ _ _ _ hw
      have hidle := rowLoop_idle rw (intRange s e) start perPage f (n + 1) w.1 w.2.1
        (by rw [hw1]; exact hd) (by
          intro m i' t'' h1 h2 h3
          obtain ⟨hi', h0, h4, h5⟩ := cropLineAt_intRange_some _ _ _ _ _ _ h3
          rw [hw2, writeRow_LineAt] at h5
          cases hl : LineAt state.buf (s + m) with
          | none => rw [hl] at h5; cases h5
          | some t0 =>
            rw [hl] at h5
            have hne2 : ¬ (s + m = s + n ∧ (l.dirty || t'.dirty) = true) := by
              intro hh
              omega
            simp only [Option.map_some', hne2, if_false, Option.some.injEq] at h5
            subst h5
            obtain ⟨ha, hb⟩ := hset m (s + m) t0 (by omega) h2 (by omega)
              (cropLineAt_intRange_of _ s e m t0 h0 h4 hl)
            refine ⟨ha, ?_⟩
            rw [hw1]
            show (l.displayCache.set n.toNat (some t'.id)).getD m.toNat none = _
            rw [getD_set_ne _ _ _ _ (by omega)]
            exact hb)
      rw [hidle]
      simp only [List.append_nil]
    · obtain ⟨ha, hb⟩ := hset n (s + n) t' (le_refl _) (by omega) (by omega) ht'
      rw [if_pos ⟨by rw [hd, ha]; decide, hb⟩]
      exact ih (n + 1) l state w (by omega) (by omega) (by omega) hd hct hdirty
        (fun m i' t'' h1 h2 h3 h4 => hset m i' t'' (by omega) h2 h3 h4) hw

theorem sameView_refl (a : Peco) : sameView a a := ⟨rfl, rfl, rfl, rfl, rfl⟩

theorem sameView_trans {a b c : Peco} (h1 : sameView a b) (h2 : sameView b c) : sameView a c :=
  ⟨h1.1.trans h2.1, h1.2.1.trans h2.2.1, h1.2.2.1.trans h2.2.2.1,
    h1.2.2.2.1.trans h2.2.2.2.1, h1.2.2.2.2.trans h2.2.2.2.2⟩

theorem sameView_symm {a b : Peco} (h : sameView a b) : sameView b a :=
  ⟨h.1.symm, h.2.1.symm, h.2.2.1.symm, h.2.2.2.1.symm, h.2.2.2.2.symm⟩

theorem sameView_setBuf (a : Peco) (B : List Line) : sameView { a with buf := B } a :=
  ⟨rfl, rfl, rfl, rfl, rfl⟩

theorem adjustPage_sameView (rw : Rune → Int) (parent : BasicLayout) (state : Peco) (rq : Bool) :
    sameView (adjustPage rw parent state rq).1 state := by
  unfold adjustPage
  split
  · simp only []
    split
    · exact ⟨rfl, rfl, rfl, rfl, rfl⟩
    · exact sameView_refl _
  · exact sameView_refl _

theorem clampLineNumber_sameView (state : Peco) : sameView (clampLineNumber state) state := by
  unfold clampLineNumber
  simp only []
  split
  · exact ⟨rfl, rfl, rfl, rfl, rfl⟩
  · exact sameView_refl _

/-- The drawing of a row reads the styles of the area, the view of the state
and the text and spans of the line, nothing else. -/
theorem drawRow_congr (rw : Rune → Int) (l l' : ListArea) (state state' : Peco) (n y : Int)
    (st : Style) (target target' : Line) (hl : l.styles = l'.styles)
    (hv : sameView state state') (h1 : target.displayString = target'.displayString)
    (h2 : target.indices = target'.indices) :
    drawRow rw l state n y st target = drawRow rw l' state' n y st target' := by
  obtain ⟨v1, v2, v3, v4, v5⟩ := hv
  unfold drawRow jumpPrefix
  simp only [hl, v1, v2, v3, v4, v5, h1, h2]

/-- The page with which `ListArea.Draw` goes on after its running-query block
is one that the block would keep. -/
theorem adjustPage_walk (rw : Rune → Int) (parent : BasicLayout) (state : Peco) (rq : Bool)
    (hrq : rq = true) :
    (adjustPage rw parent state rq).1.loc.page
      = walkBackPage (adjustPage rw parent state rq).1.loc.perPage
          ((adjustPage rw parent state rq).1.buf.length : Int)
          (adjustPage rw parent state rq).1.loc.page.toNat
          (adjustPage rw parent state rq).1.loc.page := by
  subst hrq
  have hstop := walkBackPage_stops state.loc.perPage (state.buf.length : Int)
    state.loc.page.toNat state.loc.page (le_refl _)
  by_cases hp : state.loc.page ≠ walkBackPage state.loc.perPage (state.buf.length : Int)
      state.loc.page.toNat state.loc.page
  · have e1 : (adjustPage rw parent state true).1
        = (parent.prompt.Draw rw { state with loc := { state.loc with
            page := walkBackPage state.loc.perPage (state.buf.length : Int)
              state.loc.page.toNat state.loc.page } }).1 := by
      unfold adjustPage
      simp only [if_true]
      rw [if_pos hp]
    rw [e1]
    exact (walkBackPage_fixed state.loc.perPage (state.buf.length : Int) _ _ hstop).symm
  · have hp' : state.loc.page = walkBackPage state.loc.perPage (state.buf.length : Int)
        state.loc.page.toNat state.loc.page := not_not.1 hp
    have e1 : (adjustPage rw parent state true) = (state, []) := by
      unfold adjustPage
      simp only [if_true]
      rw [if_neg hp]
    rw [e1]
    exact hp'

theorem adjustPage_noop (rw : Rune → Int) (parent : BasicLayout) (state : Peco) (rq : Bool)
    (h : rq = true → state.loc.page = walkBackPage state.loc.perPage (state.buf.length : Int)
      state.loc.page.toNat state.loc.page) :
    adjustPage rw parent state rq = (state, []) := by
  unfold adjustPage
  split
  · rename_i hrq
    simp only []
    rw [if_neg (not_not.2 (h hrq))]
  · rfl

/-- The list area and the state with which `ListArea.Draw` enters its row
loop. -/
theorem drawSetup_facts (rw : Rune → Int) (l : ListArea) (state : Peco) (parent : BasicLayout)
    (perPage : Int) (rq : Bool) (hpp : 0 ≤ perPage) :
    (drawSetup rw l state parent perPage rq).crop
        = Crop (adjustPage rw parent state rq).1.loc.perPage
            (adjustPage rw parent state rq).1.loc.page
            ((adjustPage rw parent state rq).1.buf.length : Int)
    ∧ (drawSetup rw l state parent perPage rq).list.dirty = l.dirty
    ∧ (drawSetup rw l state parent perPage rq).list.styles = l.styles
    ∧ (drawSetup rw l state parent perPage rq).list.as = l.as
    ∧ ((drawSetup rw l state parent perPage rq).list.displayCache.length : Int) = perPage
    ∧ ∀ k : Nat, (k : Int) < ((drawSetup rw l state parent perPage rq).crop.length : Int) →
        (drawSetup rw l state parent perPage rq).list.displayCache.getD k none
          = (resizeCache l.displayCache perPage).getD k none := by
  refine ⟨rfl, rfl, rfl, rfl, ?_, ?_⟩
  · show ((clearLoop rw l _ _ _ (resizeCache l.displayCache perPage)).1.length : Int) = perPage
    rw [(clearLoop_cache rw l _ _ _ _).1]
    exact resizeCache_length _ _ hpp
  · intro k hk
    show (clearLoop rw l _ _ _ (resizeCache l.displayCache perPage)).1.getD k none = _
    refine (clearLoop_cache rw l _ _ _ _).2 k ?_
    intro n hn
    rw [mem_intRange] at hn
    have : ((drawSetup rw l state parent perPage rq).crop.length : Int) ≤ n := hn.1
    omega

/-- What `ListArea.Draw` keeps. -/
theorem Draw_frame (rw : Rune → Int) (l : ListArea) (state : Peco) (parent : BasicLayout)
    (perPage : Int) (rq : Bool) (d : ListArea × Peco × List ScreenOp)
    (h : l.Draw rw state parent perPage rq = .ok d) :
    d.1.as = l.as ∧ d.1.sortTopDown = l.sortTopDown ∧ d.1.styles = l.styles
    ∧ sameView d.2.1 state ∧ sameLines d.2.1.buf state.buf := by
  obtain ⟨hpp, r, hr, hd⟩ := Draw_inv rw l state parent perPage rq d h
  obtain ⟨C, B, hr1, hr2, -, hsame⟩ := rowLoop_frame _ _ _ _ _ _ _ _ _ hr
  rw [hd]
  refine ⟨?_, ?_, ?_, ?_, ?_⟩
  · show r.1.as = _
    rw [hr1]
    rfl
  · show r.1.sortTopDown = _
    rw [hr1]
    rfl
  · show r.1.styles = _
    rw [hr1]
    rfl
  · show sameView r.2.1 state
    rw [hr2]
    exact sameView_trans (sameView_setBuf _ _)
      (sameView_trans (clampLineNumber_sameView _) (adjustPage_sameView rw parent state rq))
  · show sameLines r.2.1.buf state.buf
    rw [hr2]
    show sameLines B state.buf
    have e : (drawSetup rw l state parent perPage rq).state.buf = state.buf := by
      rw [drawSetup_state, (clampLineNumber_facts _).1, adjustPage_buf]
    rw [e] at hsame
    exact hsame

/-- After `ListArea.Draw` the list area is `Drawn`. -/
theorem Draw_post (rw : Rune → Int) (l : ListArea) (state : Peco) (parent : BasicLayout)
    (perPage : Int) (rq : Bool) (d : ListArea × Peco × List ScreenOp)
    (h : l.Draw rw state parent perPage rq = .ok d) :
    Drawn perPage rq d.1 d.2.1 := by
  obtain ⟨hpp, r, hr, hd⟩ := Draw_inv rw l state parent perPage rq d h
  obtain ⟨C, B, hr1, hr2, hlenC, hsame⟩ := rowLoop_frame _ _ _ _ _ _ _ _ _ hr
  obtain ⟨f1, -, -, -, f5, -⟩ := drawSetup_facts rw l state parent perPage rq (by omega)
  obtain ⟨c1, -, c3, c4, -⟩ := clampLineNumber_facts (adjustPage rw parent state rq).1
  have hst := drawSetup_state rw l state parent perPage rq
  have e1 : r.2.1.loc = (clampLineNumber (adjustPage rw parent state rq).1).loc := by
    rw [hr2, hst]
  have e2 : r.2.1.buf.length = (adjustPage rw parent state rq).1.buf.length := by
    rw [hr2]
    show B.length = _
    rw [sameLines_length hsame, hst, c1]
  have e3 : r.1.displayCache = C := by rw [hr1]
  have hcrop : Crop r.2.1.loc.perPage r.2.1.loc.page (r.2.1.buf.length : Int)
      = (drawSetup rw l state parent perPage rq).crop := by
    rw [f1, e1, e2, c3, c4]
  rw [hd]
  refine ⟨rfl, ?_, ?_, ?_⟩
  · show (r.1.displayCache.length : Int) = perPage
    rw [e3, hlenC]
    exact f5
  · intro hrq
    show r.2.1.loc.page = walkBackPage r.2.1.loc.perPage (r.2.1.buf.length : Int)
      r.2.1.loc.page.toNat r.2.1.loc.page
    rw [e1, e2, c3, c4]
    exact adjustPage_walk rw parent state rq hrq
  · intro m i t h0 h1 hc
    show t.dirty = false ∧ r.1.displayCache.getD m.toNat none = some t.id
    have hc' : cropLineAt r.2.1.buf (drawSetup rw l state parent perPage rq).crop m
        = some (i, t) := by
      rw [← hcrop]
      exact hc
    obtain ⟨e, he, -, he2⟩ := Crop_shape (adjustPage rw parent state rq).1.loc.perPage
      (adjustPage rw parent state rq).1.loc.page
      ((adjustPage rw parent state rq).1.buf.length : Int)
    rw [← f1] at he
    rw [he] at hc' hr
    obtain ⟨-, -, g3, g4⟩ := cropLineAt_intRange_some _ _ _ _ _ _ hc'
    obtain ⟨g5, -, -⟩ := LineAt_eq_some _ _ _ g4
    have hs := Crop_start_nonneg _ _ _ e m rfl he2 h0 g3 g5
    have hlen0 : ((drawSetup rw l state parent perPage rq).list.displayCache.length : Int)
        = perPage := f5
    exact (rowLoop_post rw _ e _ perPage hs perPage.toNat 0 _ _ r (le_refl _) (by omega) hlen0
      hr).2 m i t h0 h1 hc'

theorem cropLineAt_lt (buf : List Line) (crop : List Int) (m i : Int) (t : Line)
    (h : cropLineAt buf crop m = some (i, t)) : 0 ≤ m ∧ m < (crop.length : Int) := by
  unfold cropLineAt at h
  split at h
  · rename_i h0
    split at h
    · rename_i j hj
      have := (List.getElem?_eq_some_iff.1 hj).1
      exact ⟨h0, by omega⟩
    · cases h
  · cases h

theorem rowY_inj (l : ListArea) (start m k : Int) (h : rowY l start m = rowY l start k) :
    m = k := by
  unfold rowY at h
  split at h <;> omega

theorem rowY_frame (l l' : ListArea) (s s' : Peco) (m : Int) (h1 : l'.as = l.as)
    (h2 : l'.sortTopDown = l.sortTopDown) (h3 : sameView s' s) :
    rowY l' (l'.as.AnchorPosition s'.screen).1 m = rowY l (l.as.AnchorPosition s.screen).1 m := by
  unfold rowY
  rw [h1, h2, h3.1]

/-- Drawing a list area that is `Drawn` writes no row that shows a line: it
only clears the rows past the page's buffer. -/
theorem Draw_idle (rw : Rune → Int) (l : ListArea) (state : Peco) (parent : BasicLayout)
    (perPage : Int) (rq : Bool) (hpp : 1 ≤ perPage) (hD : Drawn perPage rq l state) :
    ∃ d, l.Draw rw state parent perPage rq = .ok d
      ∧ d.2.1.buf = state.buf ∧ d.2.1.loc.page = state.loc.page
      ∧ d.2.1.loc.perPage = state.loc.perPage
      ∧ opsOnRows (fun y => ∃ m,
          ((Crop state.loc.perPage state.loc.page (state.buf.length : Int)).length : Int) ≤ m
          ∧ m < perPage ∧ y = rowY l (l.as.AnchorPosition state.screen).1 m) d.2.2 := by
  obtain ⟨hd0, hlen, hwalk, hset⟩ := hD
  have hadj := adjustPage_noop rw parent state rq hwalk
  obtain ⟨f1, f2, -, -, -, f6⟩ := drawSetup_facts rw l state parent perPage rq (by omega)
  obtain ⟨R0, hops, hR0, -, -⟩ := drawSetup_ops rw l state parent perPage rq
  have hst := drawSetup_state rw l state parent perPage rq
  rw [hadj] at f1 hst hops
  obtain ⟨c1, -, c3, c4, -⟩ := clampLineNumber_facts state
  have hidle := rowLoop_idle rw (drawSetup rw l state parent perPage rq).crop
    (drawSetup rw l state parent perPage rq).start perPage perPage.toNat 0
    (drawSetup rw l state parent perPage rq).list (drawSetup rw l state parent perPage rq).state
    (by rw [f2]; exact hd0) (by
      intro m i t h0 h1 hc
      have hlt := cropLineAt_lt _ _ _ _ _ hc
      rw [hst, c1, f1] at hc
      obtain ⟨ha, hb⟩ := hset m i t h0 h1 hc
      refine ⟨ha, ?_⟩
      rw [f6 m.toNat (by omega), resizeCache_same _ _ hlen]
      exact hb)
  refine ⟨_, Draw_eq rw l state parent perPage rq hpp _ hidle, ?_, ?_, ?_, ?_⟩
  · show (drawSetup rw l state parent perPage rq).state.buf = _
    rw [hst, c1]
  · show (drawSetup rw l state parent perPage rq).state.loc.page = _
    rw [hst, c3]
  · show (drawSetup rw l state parent perPage rq).state.loc.perPage = _
    rw [hst, c4]
  · show opsOnRows _ ((drawSetup rw l state parent perPage rq).ops ++ [])
    rw [List.append_nil, hops, ← f1]
    exact hR0

/-- Drawing a list area that is `Drawn`, after the dirty flag of the line in
slot `k` has been set: the trace is the clearing of the rows past the page's
buffer followed by one drawing of the row of slot `k`, and the line is clean
afterwards. -/
theorem Draw_single (rw : Rune → Int) (l : ListArea) (state : Peco) (parent : BasicLayout)
    (perPage : Int) (rq : Bool) (hpp : 1 ≤ perPage) (hD : Drawn perPage rq l state)
    (k i : Int) (t : Line) (hk : k < perPage)
    (hc : cropLineAt state.buf (Crop state.loc.perPage state.loc.page (state.buf.length : Int))
      k = some (i, t))
    (ht : t.spansOk) :
    ∃ d pre row st,
      l.Draw rw { state with buf := setDirtyAt state.buf i true } parent perPage rq = .ok d
      ∧ d.2.2 = pre ++ row
      ∧ opsOnRows (fun y => ∃ m,
          ((Crop state.loc.perPage state.loc.page (state.buf.length : Int)).length : Int) ≤ m
          ∧ m < perPage ∧ y = rowY l (l.as.AnchorPosition state.screen).1 m) pre
      ∧ drawRow rw l state k (rowY l (l.as.AnchorPosition state.screen).1 k) st t = .ok row
      ∧ (∃ t3, LineAt d.2.1.buf i = some t3 ∧ t3.dirty = false)
      ∧ d.2.1.loc.page = state.loc.page ∧ d.2.1.loc.perPage = state.loc.perPage := by
  obtain ⟨hd0, hlen, hwalk, hset⟩ := hD
  have hlen' : (setDirtyAt state.buf i true).length = state.buf.length := setDirtyAt_length _ _ _
  have hadj := adjustPage_noop rw parent { state with buf := setDirtyAt state.buf i true } rq
    (by
      intro hrq
      show state.loc.page = walkBackPage state.loc.perPage
        ((setDirtyAt state.buf i true).length : Int) state.loc.page.toNat state.loc.page
      rw [hlen']
      exact hwalk hrq)
  obtain ⟨f1, f2, f3, -, f5, f6⟩ := drawSetup_facts rw l
    { state with buf := setDirtyAt state.buf i true } parent perPage rq (by omega)
  obtain ⟨R0, hops, hR0, hstart, hsort⟩ := drawSetup_ops rw l
    { state with buf := setDirtyAt state.buf i true } parent perPage rq
  have hst := drawSetup_state rw l { state with buf := setDirtyAt state.buf i true } parent
    perPage rq
  rw [hadj] at f1 hst hops
  have f1' : (drawSetup rw l { state with buf := setDirtyAt state.buf i true } parent perPage
      rq).crop = Crop state.loc.perPage state.loc.page (state.buf.length : Int) := by
    rw [f1]
    show Crop state.loc.perPage state.loc.page ((setDirtyAt state.buf i true).length : Int) = _
    rw [hlen']
  obtain ⟨c1, -, c3, c4, -⟩ := clampLineNumber_facts
    { state with buf := setDirtyAt state.buf i true }
  have hbuf : (drawSetup rw l { state with buf := setDirtyAt state.buf i true } parent perPage
      rq).state.buf = setDirtyAt state.buf i true := by
    rw [hst, c1]
  obtain ⟨e, he, -, he2⟩ := Crop_shape state.loc.perPage state.loc.page (state.buf.length : Int)
  rw [he] at hc
  obtain ⟨hi, hk0, hke, hla⟩ := cropLineAt_intRange_some _ _ _ _ _ _ hc
  obtain ⟨hla0, -, -⟩ := LineAt_eq_some _ _ _ hla
  have hs := Crop_start_nonneg _ _ _ e k rfl he2 hk0 hke hla0
  have htd : t.dirty = false := by
    rw [← he] at hc
    exact (hset k i t hk0 hk hc).1
  have hck : cropLineAt (drawSetup rw l { state with buf := setDirtyAt state.buf i true } parent
      perPage rq).state.buf (intRange (state.loc.perPage * (state.loc.page - 1)) e) k
      = some (i, { t with dirty := true }) := by
    rw [hbuf, hi]
    refine cropLineAt_intRange_of _ _ _ _ _ hk0 hke ?_
    rw [LineAt_setDirtyAt, hla]
    simp only [Option.map_some', hi, if_true]
  obtain ⟨w, hw⟩ := writeRow_ok rw
    (drawSetup rw l { state with buf := setDirtyAt state.buf i true } parent perPage rq).start
    k i { t with dirty := true }
    (drawSetup rw l { state with buf := setDirtyAt state.buf i true } parent perPage rq).list
    (drawSetup rw l { state with buf := setDirtyAt state.buf i true } parent perPage rq).state
    ht
  have hrow := rowLoop_single rw _ e
    (drawSetup rw l { state with buf := setDirtyAt state.buf i true } parent perPage rq).start
    perPage hs k i { t with dirty := true } hk perPage.toNat 0
    (drawSetup rw l { state with buf := setDirtyAt state.buf i true } parent perPage rq).list
    (drawSetup rw l { state with buf := setDirtyAt state.buf i true } parent perPage rq).state
    w (le_refl _) hk0 (by omega) (by rw [f2]; exact hd0) hck rfl (by
      intro m i' t' h0 h1 hne hcm
      obtain ⟨hi', g0, g1, g2⟩ := cropLineAt_intRange_some _ _ _ _ _ _ hcm
      rw [hbuf, LineAt_setDirtyAt] at g2
      cases hl : LineAt state.buf (state.loc.perPage * (state.loc.page - 1) + m) with
      | none => rw [hl] at g2; cases g2
      | some t0 =>
        rw [hl] at g2
        have hne2 : ¬ (state.loc.perPage * (state.loc.page - 1) + m = i) := by omega
        simp only [Option.map_some', hne2, if_false, Option.some.injEq] at g2
        subst g2
        have hcm0 : cropLineAt state.buf
            (Crop state.loc.perPage state.loc.page (state.buf.length : Int)) m
            = some (state.loc.perPage * (state.loc.page - 1) + m, t0) := by
          rw [he]
          exact cropLineAt_intRange_of _ _ _ _ _ g0 g1 hl
        obtain ⟨ha, hb⟩ := hset m _ t0 g0 h1 hcm0
        refine ⟨ha, ?_⟩
        rw [f6 m.toNat (by rw [f1', he, intRange_length]; omega), resizeCache_same _ _ hlen]
        exact hb) hw
  rw [← he, ← f1'] at hrow
  obtain ⟨hw1, hw2, hw3⟩ := writeRow_facts _ _ _ _ _ _ _ _ hw
  have hdirty : ((drawSetup rw l { state with buf := setDirtyAt state.buf i true } parent perPage
      rq).list.dirty || ({ t with dirty := true } : Line).dirty) = true := by
    rw [f2, hd0]
    rfl
  rw [if_pos hdirty] at hw2 hw3
  have hview : sameView (drawSetup rw l { state with buf := setDirtyAt state.buf i true } parent
      perPage rq).state state := by
    rw [hst]
    exact sameView_trans (clampLineNumber_sameView _) (sameView_setBuf state _)
  have hy : rowY (drawSetup rw l { state with buf := setDirtyAt state.buf i true } parent perPage
      rq).list (drawSetup rw l { state with buf := setDirtyAt state.buf i true } parent perPage
      rq).start k = rowY l (l.as.AnchorPosition state.screen).1 k := by
    rw [hstart]
    unfold rowY
    rw [hsort]
  rw [hy] at hw3
  have hw3' : drawRow rw l state k (rowY l (l.as.AnchorPosition state.screen).1 k)
      (rowStyle (drawSetup rw l { state with buf := setDirtyAt state.buf i true } parent perPage
        rq).list (drawSetup rw l { state with buf := setDirtyAt state.buf i true } parent perPage
        rq).state k) t = .ok w.2.2 :=
    (drawRow_congr rw l _ state _ k _ _ t _ f3.symm
      (sameView_symm (sameView_trans (sameView_setBuf _ _) hview)) rfl rfl).trans hw3
  refine ⟨_, (drawSetup rw l { state with buf := setDirtyAt state.buf i true } parent perPage
      rq).ops, w.2.2, _, Draw_eq rw l _ parent perPage rq hpp _ hrow, rfl, ?_, hw3', ?_, ?_, ?_⟩
  · rw [hops, ← f1', List.nil_append]
    exact hR0
  · show ∃ t3, LineAt w.2.1.buf i = some t3 ∧ t3.dirty = false
    rw [hw2]
    show ∃ t3, LineAt (setDirtyAt _ i false) i = some t3 ∧ t3.dirty = false
    have hla' : LineAt state.buf i = some t := by rw [hi]; exact hla
    rw [LineAt_setDirtyAt, hbuf, LineAt_setDirtyAt, hla']
    simp only [Option.map_some', if_true]
    exact ⟨_, rfl, rfl⟩
  · show w.2.1.loc.page = _
    rw [hw2]
    show (drawSetup rw l { state with buf := setDirtyAt state.buf i true } parent perPage
      rq).state.loc.page = _
    rw [hst, c3]
  · show w.2.1.loc.perPage = _
    rw [hw2]
    show (drawSetup rw l { state with buf := setDirtyAt state.buf i true } parent perPage
      rq).state.loc.perPage = _
    rw [hst, c4]

/-- C10: for `perPage >= 1` and lines whose match spans can be sliced,
`ListArea.Draw` returns, and for every row slot `n` of the page that shows a
line (buffer index `i`): the area and the line are clean after that draw; a
second `Draw` on the resulting state issues no `Print` and no `SetCell` on
the row of slot `n`, and leaves the same line in the slot; if the dirty flag of
that line is then set, the next `Draw` issues, after operations that do not
touch the row, exactly one drawing of the row (`drawRow`), and leaves the
line's dirty flag cleared; a further `Draw` again issues no write on the
row. -/
theorem C10_display_cache (rw : Rune → Int) (l : ListArea) (state : Peco) (parent : BasicLayout)
    (perPage : Int) (rq : Bool) (hpp : 1 ≤ perPage) (hok : ∀ ln ∈ state.buf, ln.spansOk) :
    ∃ l1 s1 ops1, l.Draw rw state parent perPage rq = .ok (l1, s1, ops1)
      ∧ ∀ n i target, 0 ≤ n → n < perPage →
        cropLineAt s1.buf (Crop s1.loc.perPage s1.loc.page (s1.buf.length : Int)) n
          = some (i, target) →
        l1.dirty = false ∧ target.dirty = false
        ∧ ∃ l2 s2 ops2, l1.Draw rw s1 parent perPage rq = .ok (l2, s2, ops2)
          ∧ noWriteOnRow (rowY l (l.as.AnchorPosition state.screen).1 n) ops2
          ∧ cropLineAt s2.buf (Crop s2.loc.perPage s2.loc.page (s2.buf.length : Int)) n
              = some (i, target)
          ∧ ∃ l3 s3 ops3,
              l2.Draw rw { s2 with buf := setDirtyAt s2.buf i true } parent perPage rq
                = .ok (l3, s3, ops3)
            ∧ (∃ pre row st, ops3 = pre ++ row
                ∧ noWriteOnRow (rowY l (l.as.AnchorPosition state.screen).1 n) pre
                ∧ drawRow rw l state n (rowY l (l.as.AnchorPosition state.screen).1 n) st target
                    = .ok row)
            ∧ (∃ t3, LineAt s3.buf i = some t3 ∧ t3.dirty = false)
            ∧ ∃ l4 s4 ops4, l3.Draw rw s3 parent perPage rq = .ok (l4, s4, ops4)
                ∧ noWriteOnRow (rowY l (l.as.AnchorPosition state.screen).1 n) ops4 := by
  obtain ⟨d1, h1⟩ := Draw_ok rw l state parent perPage rq hpp hok
  have D1 := Draw_post rw l state parent perPage rq d1 h1
  obtain ⟨a1, t1, y1, v1, q1⟩ := Draw_frame rw l state parent perPage rq d1 h1
  refine ⟨d1.1, d1.2.1, d1.2.2, h1, ?_⟩
  intro n i target hn0 hn hc
  have hok1 : ∀ ln ∈ d1.2.1.buf, ln.spansOk := sameLines_spansOk q1 hok
  have ht : target.spansOk := hok1 target (LineAt_mem _ _ _ (cropLineAt_mem _ _ _ _ _ hc))
  have hlt := (cropLineAt_lt _ _ _ _ _ hc).2
  have hy1 : ∀ m, rowY d1.1 (d1.1.as.AnchorPosition d1.2.1.screen).1 m
      = rowY l (l.as.AnchorPosition state.screen).1 m :=
    fun m => rowY_frame l d1.1 state d1.2.1 m a1 t1 v1
  -- the second draw
  obtain ⟨d2, h2, b2, p2, pp2, o2⟩ := Draw_idle rw d1.1 d1.2.1 parent perPage rq hpp D1
  have D2 := Draw_post rw d1.1 d1.2.1 parent perPage rq d2 h2
  obtain ⟨a2, t2, y2, v2, -⟩ := Draw_frame rw d1.1 d1.2.1 parent perPage rq d2 h2
  have hcrop2 : Crop d2.2.1.loc.perPage d2.2.1.loc.page (d2.2.1.buf.length : Int)
      = Crop d1.2.1.loc.perPage d1.2.1.loc.page (d1.2.1.buf.length : Int) := by
    rw [b2, p2, pp2]
  have hc2 : cropLineAt d2.2.1.buf
      (Crop d2.2.1.loc.perPage d2.2.1.loc.page (d2.2.1.buf.length : Int)) n
      = some (i, target) := by
    rw [hcrop2, b2]
    exact hc
  have hy2 : ∀ m, rowY d2.1 (d2.1.as.AnchorPosition d2.2.1.screen).1 m
      = rowY l (l.as.AnchorPosition state.screen).1 m :=
    fun m => (rowY_frame d1.1 d2.1 d1.2.1 d2.2.1 m a2 t2 v2).trans (hy1 m)
  have no2 : noWriteOnRow (rowY l (l.as.AnchorPosition state.screen).1 n) d2.2.2 := by
    refine opsOnRows_noWrite o2 ?_
    rintro ⟨m, hm1, -, hm3⟩
    rw [hy1 m] at hm3
    have := rowY_inj _ _ _ _ hm3
    omega
  -- the third draw, after the line's dirty flag is set
  obtain ⟨d3, pre, row, st, h3, hsplit, opre, hrow, hclean, p3, pp3⟩ :=
    Draw_single rw d2.1 d2.2.1 parent perPage rq hpp D2 n i target hn hc2 ht
  have D3 := Draw_post rw d2.1 _ parent perPage rq d3 h3
  obtain ⟨a3, t3, -, v3, q3⟩ := Draw_frame rw d2.1 _ parent perPage rq d3 h3
  have v3' : sameView d3.2.1 d2.2.1 := sameView_trans v3 (sameView_setBuf _ _)
  have nopre : noWriteOnRow (rowY l (l.as.AnchorPosition state.screen).1 n) pre := by
    refine opsOnRows_noWrite opre ?_
    rintro ⟨m, hm1, -, hm3⟩
    rw [hy2 m] at hm3
    have := rowY_inj _ _ _ _ hm3
    rw [hcrop2] at hm1
    omega
  have hrow' : drawRow rw l state n (rowY l (l.as.AnchorPosition state.screen).1 n) st target
      = .ok row := by
    rw [hy2 n] at hrow
    exact (drawRow_congr rw l d2.1 state d2.2.1 n _ st target target (y1.symm.trans y2.symm)
      (sameView_symm (sameView_trans v2 v1)) rfl rfl).trans hrow
  -- the fourth draw
  obtain ⟨d4, h4, -, -, -, o4⟩ := Draw_idle rw d3.1 d3.2.1 parent perPage rq hpp D3
  have hy3 : ∀ m, rowY d3.1 (d3.1.as.AnchorPosition d3.2.1.screen).1 m
      = rowY l (l.as.AnchorPosition state.screen).1 m :=
    fun m => (rowY_frame d2.1 d3.1 d2.2.1 d3.2.1 m a3 t3 v3').trans (hy2 m)
  have hcrop3 : Crop d3.2.1.loc.perPage d3.2.1.loc.page (d3.2.1.buf.length : Int)
      = Crop d1.2.1.loc.perPage d1.2.1.loc.page (d1.2.1.buf.length : Int) := by
    have e : d3.2.1.buf.length = d2.2.1.buf.length := by
      rw [sameLines_length q3]
      exact setDirtyAt_length _ _ _
    rw [p3, pp3, e]
    exact hcrop2
  have no4 : noWriteOnRow (rowY l (l.as.AnchorPosition state.screen).1 n) d4.2.2 := by
    refine opsOnRows_noWrite o4 ?_
    rintro ⟨m, hm1, -, hm3⟩
    rw [hy3 m] at hm3
    have := rowY_inj _ _ _ _ hm3
    rw [hcrop3] at hm1
    omega
  exact ⟨D1.1, (D1.2.2.2 n i target hn0 hn hc).1, d2.1, d2.2.1, d2.2.2, h2, no2, hc2,
    d3.1, d3.2.1, d3.2.2, h3, ⟨pre, row, st, hsplit, nopre, hrow'⟩, hclean,
    d4.1, d4.2.1, d4.2.2, h4, no4⟩

/-- The hypotheses of `C10_display_cache` hold for the buffer of three lines
on a page of ten rows; slot 1 shows line 1, and the second `Draw` issues no
write on its row, row 2. -/
theorem C10_display_cache_witness :
    (1 : Int) ≤ 10 ∧ (∀ ln ∈ (sampleState 3 0).buf, ln.spansOk)
    ∧ ∃ l1 s1 ops1, topDownLayout.list.Draw sampleWidth (sampleState 3 0) topDownLayout 10 false
        = .ok (l1, s1, ops1)
      ∧ cropLineAt s1.buf (Crop s1.loc.perPage s1.loc.page (s1.buf.length : Int)) 1
          = some (1, sampleLine 1)
      ∧ ∃ l2 s2 ops2, l1.Draw sampleWidth s1 topDownLayout 10 false = .ok (l2, s2, ops2)
          ∧ noWriteOnRow 2 ops2 := by
  refine ⟨by decide, by decide, ?_⟩
  obtain ⟨l1, s1, ops1, h1, hall⟩ := C10_display_cache sampleWidth topDownLayout.list
    (sampleState 3 0) topDownLayout 10 false (by decide) (by decide)
  have hs1 : s1 = sampleState 3 0 := by
    have e : topDownLayout.list.Draw sampleWidth (sampleState 3 0) topDownLayout 10 false
        = .ok (_, sampleState 3 0, _) := rfl
    rw [e] at h1
    injection h1 with h1
    injection h1 with _ h1
    injection h1 with h1 _
    exact h1.symm
  have hc : cropLineAt s1.buf (Crop s1.loc.perPage s1.loc.page (s1.buf.length : Int)) 1
      = some (1, sampleLine 1) := by
    rw [hs1]
    decide
  obtain ⟨-, -, l2, s2, ops2, h2, hno, -⟩ := hall 1 1 (sampleLine 1) (by decide) (by decide) hc
  exact ⟨l1, s1, ops1, h1, hc, l2, s2, ops2, h2, hno⟩

/-! ### Tabs and the width that Print returns -/

theorem decode_tab (rest : Str) : DecodeRuneInString (9 :: rest) = (9, 1) := by
  unfold DecodeRuneInString
  simp only []
  rw [if_pos (by decide)]
  rfl

theorem printLoop_tab (rw : Rune → Int) (y xOffset : Int) (fg bg : Attribute) (fuel : Nat)
    (rest : Str) (x written : Int) :
    printLoop rw y xOffset fg bg (fuel + 1) (9 :: rest) x written =
      ((printLoop rw y xOffset fg bg fuel rest (x + (4 - Int.tmod (x + xOffset) 4))
          (written + (4 - Int.tmod (x + xOffset) 4))).1,
       (printLoop rw y xOffset fg bg fuel rest (x + (4 - Int.tmod (x + xOffset) 4))
          (written + (4 - Int.tmod (x + xOffset) 4))).2.1,
       tabCells x y (4 - Int.tmod (x + xOffset) 4) fg bg ++
         (printLoop rw y xOffset fg bg fuel rest (x + (4 - Int.tmod (x + xOffset) 4))
          (written + (4 - Int.tmod (x + xOffset) 4))).2.2) := by
  rw [printLoop]
  simp only [decode_tab]
  have h1 : ¬ ((9 : Rune) = RuneError) := by decide
  simp only [h1, if_false, if_true, List.drop_succ_cons, List.drop_zero]

theorem mem_tabCells (x y n : Int) (fg bg : Attribute) (op : ScreenOp) :
    op ∈ tabCells x y n fg bg ↔ ∃ i, 0 ≤ i ∧ i ≤ n ∧ op = ScreenOp.setCell (x + i) y 32 fg bg := by
  unfold tabCells
  simp only [List.mem_map, mem_intRange]
  constructor
  · rintro ⟨i, ⟨h0, h1⟩, rfl⟩
    exact ⟨i, h0, by omega, rfl⟩
  · rintro ⟨i, h0, h1, rfl⟩
    exact ⟨i, ⟨h0, by omega⟩, rfl⟩

/-- Claim C12: for `x + xOffset >= 0` a tab at cursor column `x` advances the
cursor by `n = 4 - ((x + xOffset) mod 4)`, with `1 <= n <= 4`; the new
`x + xOffset` is the least multiple of 4 strictly greater than the old one;
the tab writes a space into exactly the `n + 1` cells `x .. x+n` of the row
and the loop goes on from column `x + n` with `n` added to the width; a tab
printed alone returns `n`.  A tab at column 5 with no offset writes the cells
5, 6, 7, 8, returns 3 and leaves the cursor at column 8. -/
theorem C12_tab_expansion (rw : Rune → Int) (scr : Screen) (y xOffset : Int) (fg bg : Attribute)
    (fuel : Nat) (rest : Str) (x written : Int) (h : 0 ≤ x + xOffset) :
    1 ≤ 4 - (x + xOffset) % 4 ∧ 4 - (x + xOffset) % 4 ≤ 4 ∧
    (x + (4 - (x + xOffset) % 4) + xOffset) % 4 = 0 ∧
    x + xOffset < x + (4 - (x + xOffset) % 4) + xOffset ∧
    (∀ m : Int, m % 4 = 0 → x + xOffset < m → x + (4 - (x + xOffset) % 4) + xOffset ≤ m) ∧
    printLoop rw y xOffset fg bg (fuel + 1) (9 :: rest) x written =
      ((printLoop rw y xOffset fg bg fuel rest (x + (4 - (x + xOffset) % 4))
          (written + (4 - (x + xOffset) % 4))).1,
       (printLoop rw y xOffset fg bg fuel rest (x + (4 - (x + xOffset) % 4))
          (written + (4 - (x + xOffset) % 4))).2.1,
       tabCells x y (4 - (x + xOffset) % 4) fg bg ++
         (printLoop rw y xOffset fg bg fuel rest (x + (4 - (x + xOffset) % 4))
          (written + (4 - (x + xOffset) % 4))).2.2) ∧
    (tabCells x y (4 - (x + xOffset) % 4) fg bg).length = ((4 - (x + xOffset) % 4) + 1).toNat ∧
    (∀ op, op ∈ tabCells x y (4 - (x + xOffset) % 4) fg bg ↔
      ∃ i, 0 ≤ i ∧ i ≤ 4 - (x + xOffset) % 4 ∧ op = ScreenOp.setCell (x + i) y 32 fg bg) ∧
    Print rw scr { X := x, XOffset := xOffset, Y := y, Fg := fg, Bg := bg, Msg := [9] } =
      (ScreenOp.print { X := x, XOffset := xOffset, Y := y, Fg := fg, Bg := bg, Msg := [9] } ::
         tabCells x y (4 - (x + xOffset) % 4) fg bg, 4 - (x + xOffset) % 4) ∧
    printLoop rw 0 0 fg bg 1 [9] 5 0 =
      (8, 3, [ScreenOp.setCell 5 0 32 fg bg, ScreenOp.setCell 6 0 32 fg bg,
              ScreenOp.setCell 7 0 32 fg bg, ScreenOp.setCell 8 0 32 fg bg]) := by
  have ht : Int.tmod (x + xOffset) 4 = (x + xOffset) % 4 :=
    Int.tmod_eq_emod h (by decide)
  refine ⟨by omega, by omega, by omega, by omega, ?_, ?_, ?_, ?_, ?_, ?_⟩
  · intro m hm hlt
    omega
  · rw [printLoop_tab, ht]
  · unfold tabCells
    rw [List.length_map, intRange_length]
    simp
  · intro op
    exact mem_tabCells _ _ _ _ _ _
  · unfold Print
    simp only [List.length_singleton, Bool.not_false, Bool.false_eq_true, if_false]
    rw [printLoop_tab, ht]
    simp [printLoop]
  · rfl

theorem C12_tab_expansion_witness :
    0 ≤ (5 : Int) + 0 ∧
    printLoop sampleWidth 0 0 1 0 1 [9] 5 0 =
      (8, 3, [ScreenOp.setCell 5 0 32 1 0, ScreenOp.setCell 6 0 32 1 0,
              ScreenOp.setCell 7 0 32 1 0, ScreenOp.setCell 8 0 32 1 0]) :=
  ⟨by decide,
   (C12_tab_expansion sampleWidth ⟨8, 12⟩ 0 0 1 0 0 [] 5 0 (by decide)).2.2.2.2.2.2.2.2.2⟩

/-- Claim C13: with `Fill` the padding is not part of the result.  `Print` adds
`width - x` after the fill loop has moved `x` to the right edge, so the value
returned is the width of the message alone (or less, when the message ends
past the right edge).  Printing `ab` with `Fill` on a terminal 8 columns wide
writes the 2 letters and 6 blank padding cells and returns 2, not 8. -/
theorem C13_fill_padding_not_counted (rw : Rune → Int) (scr : Screen) (args : PrintArgs) :
    (Print rw scr { args with Fill := true }).2 =
      (Print rw scr { args with Fill := false }).2 +
        (if (printLoop rw args.Y args.XOffset args.Fg args.Bg args.Msg.length args.Msg
              args.X 0).1 < scr.width then 0
         else scr.width - (printLoop rw args.Y args.XOffset args.Fg args.Bg args.Msg.length
              args.Msg args.X 0).1) ∧
    Print sampleWidth ⟨8, 12⟩ { Msg := [97, 98], Fill := true } =
      ([ScreenOp.print { Msg := [97, 98], Fill := true },
        ScreenOp.setCell 0 0 97 0 0, ScreenOp.setCell 1 0 98 0 0, ScreenOp.size,
        ScreenOp.setCell 2 0 32 0 0, ScreenOp.setCell 3 0 32 0 0, ScreenOp.setCell 4 0 32 0 0,
        ScreenOp.setCell 5 0 32 0 0, ScreenOp.setCell 6 0 32 0 0, ScreenOp.setCell 7 0 32 0 0],
       2) ∧
    StringWidth sampleWidth [97, 98] = 2 ∧
    (fillCells 2 0 8 0 0).length = 6 := by
  refine ⟨?_, by decide, by decide, by decide⟩
  unfold Print
  simp only [Bool.not_true, Bool.not_false, Bool.false_eq_true, if_false, if_true]
  split_ifs <;> omega

/-! ### Anchors and attributes -/

/-- Claim C14: `AnchorPosition` returns the offset `o` itself for a top anchor and
`h - o - 1`, with `h` the terminal height, for a bottom anchor; both for
settings built by `NewAnchorSettings`. -/
theorem C14_anchorPosition (o : Int) (scr : Screen) :
    NewAnchorSettings 1 o = .ok ⟨.AnchorTop, o⟩ ∧
    NewAnchorSettings 2 o = .ok ⟨.AnchorBottom, o⟩ ∧
    ((⟨.AnchorTop, o⟩ : AnchorSettings).AnchorPosition scr).1 = o ∧
    ((⟨.AnchorBottom, o⟩ : AnchorSettings).AnchorPosition scr).1 = scr.height - o - 1 :=
  ⟨rfl, rfl, rfl, rfl⟩

/-- Claim C20, as stated, fails: with both intensities set, `mergeAttribute 1 2`
is 2, the higher of the two values, not the lower. -/
theorem C20_merge_is_not_the_lower :
    (1 : Attribute) &&& 0x0F ≠ 0 ∧ (2 : Attribute) &&& 0x0F ≠ 0 ∧
    mergeAttribute 1 2 = 2 ∧ min (1 : Attribute) 2 = 1 := by
  decide

/-- Claim C20, amended: on 16-bit values, `mergeAttribute a b` is the bitwise OR
when either value has its low 4 bits zero; when both have them set it is
`((a - 1) OR (b - 1)) + 1` modulo `2^16`, which is the common value when
`a = b`. -/
theorem C20_mergeAttribute_amended (a b : Nat) (ha : a < 65536) (hb : b < 65536) :
    ((a &&& 0x0F = 0 ∨ b &&& 0x0F = 0) → mergeAttribute a b = a ||| b) ∧
    (a &&& 0x0F ≠ 0 → b &&& 0x0F ≠ 0 →
      mergeAttribute a b = (((a - 1) ||| (b - 1)) + 1) % 65536 ∧
      (a = b → mergeAttribute a b = a)) := by
  constructor
  · intro h
    unfold mergeAttribute
    rw [if_pos h]
  · intro h1 h2
    have ha1 : 1 ≤ a := by
      rcases Nat.eq_zero_or_pos a with h0 | h0
      · exact absurd (by rw [h0]; exact Nat.zero_and _) h1
      · exact h0
    have hb1 : 1 ≤ b := by
      rcases Nat.eq_zero_or_pos b with h0 | h0
      · exact absurd (by rw [h0]; exact Nat.zero_and _) h2
      · exact h0
    have ea : (a + 65535) % 65536 = a - 1 := by omega
    have eb : (b + 65535) % 65536 = b - 1 := by omega
    have hm : mergeAttribute a b = (((a - 1) ||| (b - 1)) + 1) % 65536 := by
      unfold mergeAttribute
      rw [if_neg (by rintro (h | h); exact h1 h; exact h2 h), ea, eb]
    refine ⟨hm, ?_⟩
    intro hab
    subst hab
    rw [hm, Nat.or_self]
    have e1 : a - 1 + 1 = a := Nat.sub_add_cancel ha1
    rw [e1]
    exact Nat.mod_eq_of_lt ha

theorem C20_mergeAttribute_amended_witness :
    (513 : Nat) < 65536 ∧ (2 : Nat) < 65536 ∧ (513 : Nat) &&& 0x0F ≠ 0 ∧ (2 : Nat) &&& 0x0F ≠ 0 ∧
    mergeAttribute 513 2 = (((513 - 1) ||| (2 - 1)) + 1) % 65536 :=
  ⟨by decide, by decide, by decide, by decide,
   ((C20_mergeAttribute_amended 513 2 (by decide) (by decide)).2 (by decide) (by decide)).1⟩

/-! ### The panics that a frame can raise -/

theorem sliceStr_error (s : Str) (a b : Int) (e : String) (h : sliceStr s a b = .error e) :
    e = "slice bounds out of range" := by
  unfold sliceStr at h
  split at h
  · cases h
  · injection h with h
    exact h.symm

theorem leadSegment_error (rw : Rune → Int) (scr : Screen) (y xOffset : Int) (st : Style)
    (line : Str) (m : Int × Int) (prev index : Int) (e : String)
    (h : leadSegment rw scr y xOffset st line m prev index = .error e) :
    e = "slice bounds out of range" := by
  unfold leadSegment at h
  split at h
  · split at h
    · rename_i e1 h1
      injection h with h
      subst h
      exact sliceStr_error _ _ _ _ h1
    · cases h
  · cases h

theorem matchLoop_error (rw : Rune → Int) (styles : StyleSet) (scr : Screen) (y xOffset : Int)
    (st : Style) (line : Str) :
    ∀ (spans : List (Int × Int)) (prev index : Int) (e : String),
      matchLoop rw styles scr y xOffset st line spans prev index = .error e →
      e = "slice bounds out of range" := by
  intro spans
  induction spans with
  | nil =>
    intro prev index e h
    unfold matchLoop at h
    cases h
  | cons m ms ih =>
    intro prev index e h
    unfold matchLoop at h
    split at h
    · rename_i e1 h1
      injection h with h
      subst h
      exact leadSegment_error _ _ _ _ _ _ _ _ _ _ h1
    · split at h
      · rename_i e1 h1
        injection h with h
        subst h
        exact sliceStr_error _ _ _ _ h1
      · simp only [] at h
        split at h
        · rename_i e1 h1
          injection h with h
          subst h
          exact ih _ _ _ h1
        · cases h

theorem tailSegment_error (rw : Rune → Int) (styles : StyleSet) (scr : Screen) (y xOffset : Int)
    (st : Style) (line : Str) (spans : List (Int × Int)) (prev index : Int) (e : String)
    (h : tailSegment rw styles scr y xOffset st line spans prev index = .error e) :
    e = "slice bounds out of range" ∨ e = "index out of range" := by
  unfold tailSegment at h
  split at h
  · injection h with h
    exact Or.inr h.symm
  · split at h
    · split at h
      · rename_i e1 h1
        injection h with h
        subst h
        exact Or.inl (sliceStr_error _ _ _ _ h1)
      · cases h
    · split at h
      · split at h
        · rename_i e1 h1
          injection h with h
          subst h
          exact Or.inl (sliceStr_error _ _ _ _ h1)
        · cases h
      · cases h

theorem drawRow_error (rw : Rune → Int) (l : ListArea) (state : Peco) (n y : Int) (st : Style)
    (target : Line) (e : String) (h : drawRow rw l state n y st target = .error e) :
    e = "slice bounds out of range" ∨ e = "index out of range" := by
  unfold drawRow at h
  simp only [] at h
  split at h
  · cases h
  · split at h
    · rename_i e1 h1
      injection h with h
      subst h
      exact Or.inl (matchLoop_error _ _ _ _ _ _ _ _ _ _ _ h1)
    · split at h
      · rename_i e1 h1
        injection h with h
        subst h
        exact tailSegment_error _ _ _ _ _ _ _ _ _ _ _ h1
      · cases h

theorem writeRow_error (rw : Rune → Int) (start n i : Int) (target : Line) (l : ListArea)
    (state : Peco) (e : String) (h : writeRow rw start n i target l state = .error e) :
    e = "slice bounds out of range" ∨ e = "index out of range" := by
  unfold writeRow at h
  simp only [] at h
  split at h
  · rename_i e1 h1
    injection h with h
    subst h
    exact drawRow_error _ _ _ _ _ _ _ _ h1
  · cases h

theorem rowLoop_error (rw : Rune → Int) (crop : List Int) (start perPage : Int) :
    ∀ (fuel : Nat) (n : Int) (l : ListArea) (state : Peco) (e : String),
      rowLoop rw crop start perPage fuel n l state = .error e →
      e = "slice bounds out of range" ∨ e = "index out of range" := by
  intro fuel
  induction fuel with
  | zero =>
    intro n l state e h
    unfold rowLoop at h
    cases h
  | succ f ih =>
    intro n l state e h
    unfold rowLoop at h
    split at h
    · cases h
    · split at h
      · cases h
      · split at h
        · cases h
        · split at h
          · exact ih _ _ _ _ h
          · split at h
            · rename_i e1 h1
              injection h with h
              subst h
              exact writeRow_error _ _ _ _ _ _ _ _ h1
            · split at h
              · rename_i e1 h1
                injection h with h
                subst h
                exact ih _ _ _ _ h1
              · cases h

theorem Draw_error (rw : Rune → Int) (l : ListArea) (state : Peco) (parent : BasicLayout)
    (perPage : Int) (rq : Bool) (hpp : 1 ≤ perPage) (e : String)
    (h : l.Draw rw state parent perPage rq = .error e) :
    e = "slice bounds out of range" ∨ e = "index out of range" := by
  unfold ListArea.Draw at h
  rw [if_neg (by omega)] at h
  simp only [] at h
  split at h
  · rename_i e1 h1
    injection h with h
    subst h
    exact rowLoop_error _ _ _ _ _ _ _ _ _ h1
  · cases h

theorem DrawScreen_error (rw : Rune → Int) (l : BasicLayout) (state : Peco) (rq : Bool)
    (e : String) (h : DrawScreen rw l state rq = .error e) :
    e = "linesPerPage is < 1" ∨ e = "slice bounds out of range" ∨ e = "index out of range" := by
  cases hl : linesPerPage state.screen with
  | error e1 =>
    unfold DrawScreen at h
    rw [hl] at h
    simp only [bind, Except.bind] at h
    injection h with h
    subst h
    unfold linesPerPage at hl
    simp only [] at hl
    split at hl
    · injection hl with hl
      exact Or.inl hl.symm
    · cases hl
  | ok pp =>
    have hpp : 1 ≤ pp := ((linesPerPage_ok_iff _ _).1 hl).2
    obtain ⟨cp, hcp, -⟩ := CalculatePage_facts state pp (by omega)
    cases hs : cp.2 with
    | some msg =>
      rw [DrawScreen_abort rw l state rq pp cp hl hcp (by rw [hs]; rfl)] at h
      cases h
    | none =>
      cases hd : l.list.Draw rw (DrawPrompt rw l cp.1).1 l pp rq with
      | ok d =>
        rw [DrawScreen_eq rw l state rq pp cp d hl hcp hs hd] at h
        cases h
      | error e1 =>
        have h2 : DrawScreen rw l state rq = .error e1 := by
          unfold DrawScreen
          rw [hl]
          simp only [bind, Except.bind, hcp, hs, hd]
        rw [h2] at h
        injection h with h
        subst h
        exact Or.inr (Draw_error _ _ _ _ _ _ hpp _ hd)

/-- Claim C15: with the extra offset 0, `linesPerPage` returns `height - 2` when
that is at least 1 and panics exactly when it is less than 1.  So for every
`perPage` that `linesPerPage` returns, `perPage >= 1`, `CalculatePage` returns
(it does not divide by zero) and `ListArea.Draw` does not raise its
`perPage < 1` panic; `DrawScreen` raises neither of these two panics. -/
theorem C15_linesPerPage (rw : Rune → Int) (l : BasicLayout) (state : Peco) (rq : Bool) :
    extraOffset = 0 ∧
    (1 ≤ state.screen.height - 2 → linesPerPage state.screen = .ok (state.screen.height - 2)) ∧
    (state.screen.height - 2 < 1 → linesPerPage state.screen = .error "linesPerPage is < 1") ∧
    ((∃ e, linesPerPage state.screen = .error e) ↔ state.screen.height - 2 < 1) ∧
    (∀ pp, linesPerPage state.screen = .ok pp →
      1 ≤ pp ∧
      (∀ st : Peco, ∃ cp, CalculatePage st pp = .ok cp) ∧
      (∀ (la : ListArea) (st : Peco) (parent : BasicLayout) (q : Bool),
        la.Draw rw st parent pp q ≠ .error "perPage < 1")) ∧
    DrawScreen rw l state rq ≠ .error "integer divide by zero" ∧
    DrawScreen rw l state rq ≠ .error "perPage < 1" := by
  refine ⟨rfl, ?_, ?_, ?_, ?_, ?_, ?_⟩
  · intro h
    exact (linesPerPage_ok_iff _ _).2 ⟨rfl, h⟩
  · intro h
    unfold linesPerPage extraOffset
    simp only []
    rw [if_pos (by omega)]
  · constructor
    · rintro ⟨e, he⟩
      by_contra hn
      rw [(linesPerPage_ok_iff _ _).2 ⟨rfl, by omega⟩] at he
      cases he
    · intro h
      refine ⟨"linesPerPage is < 1", ?_⟩
      unfold linesPerPage extraOffset
      simp only []
      rw [if_pos (by omega)]
  · intro pp hpp
    have h1 : 1 ≤ pp := ((linesPerPage_ok_iff _ _).1 hpp).2
    refine ⟨h1, ?_, ?_⟩
    · intro st
      obtain ⟨cp, hcp, -⟩ := CalculatePage_facts st pp (by omega)
      exact ⟨cp, hcp⟩
    · intro la st parent q hd
      rcases Draw_error rw la st parent pp q h1 _ hd with h | h
      · exact absurd h (by decide)
      · exact absurd h (by decide)
  · intro h
    rcases DrawScreen_error rw l state rq _ h with h | h | h
    · exact absurd h (by decide)
    · exact absurd h (by decide)
    · exact absurd h (by decide)
  · intro h
    rcases DrawScreen_error rw l state rq _ h with h | h | h
    · exact absurd h (by decide)
    · exact absurd h (by decide)
    · exact absurd h (by decide)

theorem C15_linesPerPage_witness :
    (1 : Int) ≤ (sampleState 3 0).screen.height - 2 ∧
    linesPerPage (sampleState 3 0).screen = .ok ((sampleState 3 0).screen.height - 2) :=
  ⟨by decide, (C15_linesPerPage sampleWidth topDownLayout (sampleState 3 0) false).2.1 (by decide)⟩

/-! ### Page scrolling in the two layouts -/

/-- Claim C18: the bottom-up layout mirrors the top-down one for `LineAbove`,
`LineBelow` and `ScrollPageDown`, but not for `ScrollPageUp`: the top-down
`ScrollPageDown` corrects its target on the page before the last, and the
bottom-up `ScrollPageUp` has no such correction.  With 25 lines, 10 lines per
page and the cursor on line 16 (page 2 of 3), top-down `ScrollPageDown`
commits line 24 while bottom-up `ScrollPageUp` commits line 0. -/
theorem C18_bottom_up_page_up_differs (loc : Location) (lcur lpp : Int) :
    scrollTarget false loc lcur lpp .ToLineAbove = scrollTarget true loc lcur lpp .ToLineBelow ∧
    scrollTarget false loc lcur lpp .ToLineBelow = scrollTarget true loc lcur lpp .ToLineAbove ∧
    scrollTarget false loc lcur lpp .ToScrollPageDown
      = scrollTarget true loc lcur lpp .ToScrollPageUp ∧
    CalculatePage (sampleState 25 16) 10 =
      .ok ({ sampleState 25 16 with loc := ⟨2, 10, 10, 25, 3, 16, 0⟩ }, none) ∧
    linesPerPage (sampleState 25 16).screen = .ok 10 ∧
    (MovePage topDownLayout { sampleState 25 16 with loc := ⟨2, 10, 10, 25, 3, 16, 0⟩ }
      .ToScrollPageDown).toOption.map (fun r => (r.2.1.loc.lineNumber, r.2.2)) = some (24, true) ∧
    (MovePage bottomUpLayout { sampleState 25 16 with loc := ⟨2, 10, 10, 25, 3, 16, 0⟩ }
      .ToScrollPageUp).toOption.map (fun r => (r.2.1.loc.lineNumber, r.2.2)) = some (0, true) := by
  refine ⟨rfl, rfl, rfl, rfl, rfl, by decide, by decide⟩

theorem clampLine_eq (N t : Int) (hN : 0 < N) :
    clampLine N t = if t < 0 then N - 1 else if N ≤ t then 0 else t := by
  unfold clampLine
  split_ifs <;> first | rfl | omega

/-- Claim C19: in the top-down layout with a non-empty buffer of `N` lines, on a
terminal of height at least 3 (so that `linesPerPage` returns `height - 2`),
`ScrollPageDown` from line `b` commits `N - 1` when `page = maxPage - 1` and
`N - b < linesPerPage`; otherwise it commits the clamp of `b + linesPerPage`:
`N - 1` if that is negative, 0 if it is `N` or more, else the target itself. -/
theorem C19_scroll_page_down (state : Peco) (l : BasicLayout)
    (htd : l.list.sortTopDown = true) (hN : state.buf ≠ [])
    (hh : 3 ≤ state.screen.height) :
    ∃ st, MovePage l state .ToScrollPageDown = .ok (l, st, true) ∧
      linesPerPage state.screen = .ok (state.screen.height - 2) ∧
      (state.loc.page = state.loc.maxPage - 1 ∧
          (state.buf.length : Int) - state.loc.lineNumber < state.screen.height - 2 →
        st.loc.lineNumber = (state.buf.length : Int) - 1) ∧
      (¬ (state.loc.page = state.loc.maxPage - 1 ∧
          (state.buf.length : Int) - state.loc.lineNumber < state.screen.height - 2) →
        st.loc.lineNumber =
          (if state.loc.lineNumber + (state.screen.height - 2) < 0 then
             (state.buf.length : Int) - 1
           else if (state.buf.length : Int) ≤ state.loc.lineNumber + (state.screen.height - 2)
             then 0
           else state.loc.lineNumber + (state.screen.height - 2))) := by
  obtain ⟨st, hv, hl⟩ := verticalScroll_facts state l .ToScrollPageDown hh
  have hpos : 0 < (state.buf.length : Int) := by
    have : 0 < state.buf.length := List.length_pos.2 hN
    omega
  refine ⟨st, MovePage_vertical state l _ st true ⟨by simp, by simp⟩ hv,
    linesPerPage_eq _ hh, ?_, ?_⟩
  · rintro ⟨hp, hlt⟩
    have ht : scrollTarget true state.loc (state.buf.length : Int) (state.screen.height - 2)
        .ToScrollPageDown = (state.buf.length : Int) - 1 := by
      unfold scrollTarget
      simp only [if_true]
      exact if_pos ⟨hp, by omega, hlt⟩
    rw [hl, htd, ht, clampLine_eq _ _ hpos]
    split_ifs <;> omega
  · intro hn
    have ht : scrollTarget true state.loc (state.buf.length : Int) (state.screen.height - 2)
        .ToScrollPageDown = state.loc.lineNumber + (state.screen.height - 2) := by
      unfold scrollTarget
      simp only [if_true]
      exact if_neg (fun h => hn ⟨h.1, h.2.2⟩)
    rw [hl, htd, ht, clampLine_eq _ _ hpos]

theorem C19_scroll_page_down_witness :
    ∃ st, MovePage topDownLayout { sampleState 25 16 with loc := ⟨2, 10, 10, 25, 3, 16, 0⟩ }
        .ToScrollPageDown
        = .ok (topDownLayout, st, true) ∧ st.loc.lineNumber = 24 := by
  obtain ⟨st, h1, -, h2, -⟩ := C19_scroll_page_down
    { sampleState 25 16 with loc := ⟨2, 10, 10, 25, 3, 16, 0⟩ } topDownLayout rfl
    (by decide) (by decide)
  exact ⟨st, h1, h2 (by decide)⟩

/-! ### The cache against a redraw from scratch -/

set_option maxRecDepth 100000 in
/-- Claim C11: the display cache can leave stale content on the screen.  In
range mode `verticalScroll` changes the selection of every line between the old
and the new cursor line, but marks only those two lines dirty.  From a fresh
frame of 5 lines with the range anchor and the cursor on line 0, a move to line
3 selects the lines 0 to 3; the next frame with the cache leaves the row of
line 1 (column 0 of row 2) in the basic style, and the same frame with the
cache purged draws it in the style of a saved selection. -/
theorem C11_cache_keeps_stale_rows :
    (cacheScenario false).toOption.map (fun ops => cellAt ops 0 2) = some (some (97, 1, 0)) ∧
    (cacheScenario true).toOption.map (fun ops => cellAt ops 0 2) = some (some (97, 7, 8)) ∧
    sampleStyles.Basic = ⟨1, 0⟩ ∧ sampleStyles.SavedSelection = ⟨7, 8⟩ := by
  refine ⟨by decide, by decide, rfl, rfl⟩

/-! ### The status bar -/

set_option maxRecDepth 100000 in
/-- Claim C16: the truncation loop of `PrintStatus` subtracts the byte length of
each dropped rune from the width, not its display width.  With a terminal 3
columns wide and a message of three letters U+3042, each 3 bytes long and 2
columns wide (width 6), one letter is dropped and the counter is 3; the two
letters left are 4 columns wide, more than the terminal, and they are printed
from column 0 (not `3 - 4`), the second one in the columns 2 and 3, past the
right edge. -/
theorem C16_status_truncates_by_bytes :
    StringWidth sampleWide [0xE3, 0x81, 0x82, 0xE3, 0x81, 0x82, 0xE3, 0x81, 0x82] = 6 ∧
    truncateLoop 3 9 [0xE3, 0x81, 0x82, 0xE3, 0x81, 0x82, 0xE3, 0x81, 0x82] 6 =
      .ok ([0xE3, 0x81, 0x82, 0xE3, 0x81, 0x82], 3) ∧
    StringWidth sampleWide [0xE3, 0x81, 0x82, 0xE3, 0x81, 0x82] = 4 ∧
    StatusBar.PrintStatus sampleWide topDownLayout.statusBar ⟨3, 12⟩
        [0xE3, 0x81, 0x82, 0xE3, 0x81, 0x82, 0xE3, 0x81, 0x82] 0 =
      .ok (topDownLayout.statusBar,
        [StatusEvent.timerLock, StatusEvent.timerUnlock, StatusEvent.timerLock,
         StatusEvent.screen ScreenOp.size, StatusEvent.screen ScreenOp.size,
         StatusEvent.screen (ScreenOp.print
           { X := 0, Y := 11, Fg := 2561, Bg := 2048,
             Msg := [0xE3, 0x81, 0x82, 0xE3, 0x81, 0x82] }),
         StatusEvent.screen (ScreenOp.setCell 0 11 0x3042 2561 2048),
         StatusEvent.screen (ScreenOp.setCell 2 11 0x3042 2561 2048),
         StatusEvent.screen ScreenOp.flush, StatusEvent.timerUnlock]) := by
  refine ⟨by decide, rfl, by decide, rfl⟩

theorem lockTrace_append (a b : List StatusEvent) :
    lockTrace (a ++ b) = lockTrace a ++ lockTrace b := by
  induction a with
  | nil => rfl
  | cons e es ih =>
    cases e with
    | timerLock =>
      show LockEvent.timerLock :: lockTrace (es ++ b) = _
      rw [ih]
      rfl
    | timerUnlock =>
      show LockEvent.timerUnlock :: lockTrace (es ++ b) = _
      rw [ih]
      rfl
    | screen op =>
      show op.lockEvents ++ lockTrace (es ++ b) = (op.lockEvents ++ lockTrace es) ++ lockTrace b
      rw [ih, List.append_assoc]

/-- While the timer lock is held and the terminal lock is free, calls on the
screen leave both so, and a nesting seen before stays seen. -/
theorem lockScan_screen (ops : List ScreenOp) :
    ∀ b : Bool, ∃ b2 : Bool,
      List.foldl lockStep ⟨true, false, b, false⟩ (lockTrace (ops.map StatusEvent.screen))
        = ⟨true, false, b2, false⟩ ∧ (b = true → b2 = true) := by
  induction ops with
  | nil =>
    intro b
    exact ⟨b, rfl, id⟩
  | cons op rest ih =>
    intro b
    cases op with
    | print args =>
      obtain ⟨b2, h, hb⟩ := ih b
      exact ⟨b2, h, hb⟩
    | setCell x y ch fg bg =>
      obtain ⟨b2, h, -⟩ := ih true
      refine ⟨b2, ?_, fun _ => ?_⟩
      · simp only [List.map_cons, lockTrace, ScreenOp.lockEvents, List.cons_append,
          List.nil_append, List.foldl_cons, lockStep, Bool.or_true]
        exact h
      · obtain ⟨b3, h3, hb3⟩ := ih true
        rw [h] at h3
        injection h3 with _ _ e _
        rw [e]
        exact hb3 rfl
    | size =>
      obtain ⟨b2, h, -⟩ := ih true
      refine ⟨b2, ?_, fun _ => ?_⟩
      · simp only [List.map_cons, lockTrace, ScreenOp.lockEvents, List.cons_append,
          List.nil_append, List.foldl_cons, lockStep, Bool.or_true]
        exact h
      · obtain ⟨b3, h3, hb3⟩ := ih true
        rw [h] at h3
        injection h3 with _ _ e _
        rw [e]
        exact hb3 rfl
    | flush =>
      obtain ⟨b2, h, -⟩ := ih true
      refine ⟨b2, ?_, fun _ => ?_⟩
      · simp only [List.map_cons, lockTrace, ScreenOp.lockEvents, List.cons_append,
          List.nil_append, List.foldl_cons, lockStep, Bool.or_true]
        exact h
      · obtain ⟨b3, h3, hb3⟩ := ih true
        rw [h] at h3
        injection h3 with _ _ e _
        rw [e]
        exact hb3 rfl

/-- The screen calls of `PrintStatus` end with `Flush`, which takes the terminal
lock. -/
theorem lockScan_statusOps (rw : Rune → Int) (s : StatusBar) (scr : Screen) (msg : Str)
    (width : Int) :
    List.foldl lockStep ⟨true, false, false, false⟩
        (lockTrace ((statusOps rw s scr msg width).map StatusEvent.screen))
      = ⟨true, false, true, false⟩ := by
  unfold statusOps
  simp only [List.map_append, lockTrace_append, List.foldl_append]
  generalize hA : (List.map StatusEvent.screen (s.as.AnchorPosition scr).2) = A
  obtain ⟨b1, h1, -⟩ := lockScan_screen (s.as.AnchorPosition scr).2 false
  rw [hA] at h1
  rw [h1]
  obtain ⟨b2, h2, -⟩ := lockScan_screen [ScreenOp.size] b1
  rw [h2]
  obtain ⟨b3, h3, -⟩ := lockScan_screen
    (if scr.width > width then
      (Print rw scr { Y := (s.as.AnchorPosition scr).1, Fg := s.styles.Basic.fg,
                      Bg := s.styles.Basic.bg,
                      Msg := if scr.width > width then List.replicate (scr.width - width).toNat 32
                        else [] }).1
     else []) b2
  rw [h3]
  obtain ⟨b4, h4, -⟩ := lockScan_screen
    (if width > 0 then
      (Print rw scr { X := scr.width - width, Y := (s.as.AnchorPosition scr).1,
                      Fg := s.styles.Basic.fg ||| AttrReverse ||| AttrBold ||| AttrReverse,
                      Bg := s.styles.Basic.bg ||| AttrReverse, Msg := msg }).1
     else []) b3
  rw [h4]
  simp only [List.map, lockTrace, ScreenOp.lockEvents, List.append_nil, List.foldl, lockStep,
    Bool.or_true]

/-- The lock operations of `PrintStatus` around its screen calls `ops`: those of
`stopTimer`, the timer lock, the screen calls, the unlock and, with a delay,
those of `setClearTimer`. -/
theorem lockScan_status_trace (ops : List ScreenOp)
    (h : List.foldl lockStep ⟨true, false, false, false⟩
        (lockTrace (ops.map StatusEvent.screen)) = ⟨true, false, true, false⟩) :
    lockScan (lockTrace ([StatusEvent.timerLock, StatusEvent.timerUnlock]
        ++ [StatusEvent.timerLock] ++ ops.map StatusEvent.screen ++ [StatusEvent.timerUnlock]))
      = ⟨false, false, true, false⟩ ∧
    lockScan (lockTrace ([StatusEvent.timerLock, StatusEvent.timerUnlock]
        ++ [StatusEvent.timerLock] ++ ops.map StatusEvent.screen ++ [StatusEvent.timerUnlock]
        ++ [StatusEvent.timerLock, StatusEvent.timerUnlock]))
      = ⟨false, false, true, false⟩ := by
  have e : lockTrace ([StatusEvent.timerLock, StatusEvent.timerUnlock]
        ++ [StatusEvent.timerLock] ++ ops.map StatusEvent.screen ++ [StatusEvent.timerUnlock])
      = [LockEvent.timerLock, LockEvent.timerUnlock, LockEvent.timerLock]
          ++ (lockTrace (ops.map StatusEvent.screen) ++ [LockEvent.timerUnlock]) := by
    rw [lockTrace_append, lockTrace_append]
    rfl
  have e1 : lockScan (lockTrace ([StatusEvent.timerLock, StatusEvent.timerUnlock]
        ++ [StatusEvent.timerLock] ++ ops.map StatusEvent.screen ++ [StatusEvent.timerUnlock]))
      = ⟨false, false, true, false⟩ := by
    unfold lockScan
    rw [e, List.foldl_append, List.foldl_append]
    show List.foldl lockStep (List.foldl lockStep ⟨true, false, false, false⟩
      (lockTrace (ops.map StatusEvent.screen))) [LockEvent.timerUnlock] = _
    rw [h]
    rfl
  refine ⟨e1, ?_⟩
  unfold lockScan at e1 ⊢
  rw [lockTrace_append, List.foldl_append, e1]
  rfl

/-- Claim C17, as stated, fails: `PrintStatus` takes the terminal-access lock
while it holds the timer lock.  Printing `ab` on a terminal 8 columns wide,
the scan of the lock operations records a terminal lock under the timer
lock. -/
theorem C17_terminal_lock_under_timer_lock :
    (StatusBar.PrintStatus sampleWidth topDownLayout.statusBar ⟨8, 12⟩ [97, 98] 0).toOption.map
        (fun r => (lockTrace r.2).take 6) =
      some [LockEvent.timerLock, LockEvent.timerUnlock, LockEvent.timerLock,
            LockEvent.termLock, LockEvent.termUnlock, LockEvent.termLock] ∧
    (StatusBar.PrintStatus sampleWidth topDownLayout.statusBar ⟨8, 12⟩ [97, 98] 0).toOption.map
        (fun r => (lockScan (lockTrace r.2)).termUnderTimer) = some true := by
  refine ⟨by decide, by decide⟩

/-- While the timer lock is held, the lock operations of calls on the screen
are all under it. -/
theorem termLocksUnderTimer_screen (ops : List ScreenOp) (rest : List LockEvent) :
    termLocksUnderTimer true (lockTrace (ops.map StatusEvent.screen) ++ rest)
      = termLocksUnderTimer true rest := by
  induction ops with
  | nil => rfl
  | cons op tl ih =>
    cases op with
    | print args => exact ih
    | setCell x y ch fg bg =>
      show (true && termLocksUnderTimer true _) = _
      rw [Bool.true_and]
      exact ih
    | size =>
      show (true && termLocksUnderTimer true _) = _
      rw [Bool.true_and]
      exact ih
    | flush =>
      show (true && termLocksUnderTimer true _) = _
      rw [Bool.true_and]
      exact ih

/-- A terminal lock taken before the timer lock is told apart from one taken
under it, which the scan of `lockScan` alone does not do. -/
theorem termLocksUnderTimer_outside :
    termLocksUnderTimer false
        [LockEvent.termLock, LockEvent.termUnlock, LockEvent.timerLock, LockEvent.termLock,
         LockEvent.termUnlock, LockEvent.timerUnlock] = false ∧
    lockScan
        [LockEvent.termLock, LockEvent.termUnlock, LockEvent.timerLock, LockEvent.termLock,
         LockEvent.termUnlock, LockEvent.timerUnlock] = ⟨false, false, true, false⟩ := by
  decide

/-- The lock operations of `PrintStatus` around its screen calls `ops`: every
terminal lock is taken under the timer lock. -/
theorem termLocksUnderTimer_status_trace (ops : List ScreenOp) (tail : List StatusEvent)
    (htail : tail = [] ∨ tail = [StatusEvent.timerLock, StatusEvent.timerUnlock]) :
    termLocksUnderTimer false (lockTrace ([StatusEvent.timerLock, StatusEvent.timerUnlock,
        StatusEvent.timerLock] ++ ops.map StatusEvent.screen ++ [StatusEvent.timerUnlock]
        ++ tail)) = true := by
  have e : lockTrace ([StatusEvent.timerLock, StatusEvent.timerUnlock,
        StatusEvent.timerLock] ++ ops.map StatusEvent.screen ++ [StatusEvent.timerUnlock]
        ++ tail)
      = [LockEvent.timerLock, LockEvent.timerUnlock, LockEvent.timerLock]
          ++ (lockTrace (ops.map StatusEvent.screen)
            ++ (LockEvent.timerUnlock :: lockTrace tail)) := by
    rw [lockTrace_append, lockTrace_append, lockTrace_append]
    simp only [List.append_assoc]
    rfl
  rw [e]
  show termLocksUnderTimer true (lockTrace (ops.map StatusEvent.screen)
    ++ (LockEvent.timerUnlock :: lockTrace tail)) = true
  rw [termLocksUnderTimer_screen]
  rcases htail with rfl | rfl <;> rfl

/-- Claim C17, amended: whenever `PrintStatus` returns, its trace is the lock
operations of `stopTimer`, then `timerMutex.Lock`, then all its calls on the
screen, then `timerMutex.Unlock`, then, with a delay, the lock operations of
`setClearTimer`.  So every terminal primitive it invokes takes the
terminal-access lock while the timer lock is held, the timer lock is never
taken while the terminal lock is held, and both locks are free at the end;
`stopTimer` and `setClearTimer` take the timer lock alone. -/
theorem C17_lock_order_amended (rw : Rune → Int) (s : StatusBar) (scr : Screen) (msg : Str)
    (clearDelay : Int) (r : StatusBar × List StatusEvent)
    (h : s.PrintStatus rw scr msg clearDelay = .ok r) :
    (∃ t, truncateLoop scr.width msg.length msg (StringWidth rw msg) = .ok t ∧
      r.2 = [StatusEvent.timerLock, StatusEvent.timerUnlock, StatusEvent.timerLock]
        ++ (statusOps rw s scr t.1 t.2).map StatusEvent.screen ++ [StatusEvent.timerUnlock]
        ++ (if clearDelay ≠ 0 then [StatusEvent.timerLock, StatusEvent.timerUnlock] else [])) ∧
    termLocksUnderTimer false (lockTrace r.2) = true ∧
    lockScan (lockTrace r.2) = ⟨false, false, true, false⟩ ∧
    lockTrace s.stopTimer.2 = [LockEvent.timerLock, LockEvent.timerUnlock] ∧
    lockTrace s.setClearTimer.2 = [LockEvent.timerLock, LockEvent.timerUnlock] ∧
    lockScan (lockTrace s.stopTimer.2) = ⟨false, false, false, false⟩ ∧
    lockScan (lockTrace s.setClearTimer.2) = ⟨false, false, false, false⟩ := by
  refine ⟨?_, ?_, ?_, rfl, rfl, rfl, rfl⟩
  · unfold StatusBar.PrintStatus at h
    simp only [] at h
    split at h
    · cases h
    · rename_i t ht
      refine ⟨t, ht, ?_⟩
      split at h
      · rename_i hd
        injection h with h
        subst h
        rw [if_pos hd]
        rfl
      · rename_i hd
        injection h with h
        subst h
        rw [if_neg hd]
        simp only [List.append_nil]
        rfl
  · unfold StatusBar.PrintStatus at h
    simp only [] at h
    split at h
    · cases h
    · rename_i t ht
      split at h
      · injection h with h
        subst h
        exact termLocksUnderTimer_status_trace (statusOps rw s scr t.1 t.2) _ (Or.inr rfl)
      · injection h with h
        subst h
        have hs := termLocksUnderTimer_status_trace (statusOps rw s scr t.1 t.2) []
          (Or.inl rfl)
        rw [List.append_nil] at hs
        exact hs
  · unfold StatusBar.PrintStatus at h
    simp only [] at h
    split at h
    · cases h
    · rename_i t ht
      split at h
      · injection h with h
        subst h
        exact (lockScan_status_trace _ (lockScan_statusOps rw s scr t.1 t.2)).2
      · injection h with h
        subst h
        exact (lockScan_status_trace _ (lockScan_statusOps rw s scr t.1 t.2)).1

theorem C17_lock_order_amended_witness :
    termLocksUnderTimer false (lockTrace
      [StatusEvent.timerLock, StatusEvent.timerUnlock, StatusEvent.timerLock,
       StatusEvent.screen ScreenOp.size, StatusEvent.screen ScreenOp.size,
       StatusEvent.screen (ScreenOp.print
         { X := 0, Y := 11, Fg := 2561, Bg := 2048,
           Msg := [0xE3, 0x81, 0x82, 0xE3, 0x81, 0x82] }),
       StatusEvent.screen (ScreenOp.setCell 0 11 0x3042 2561 2048),
       StatusEvent.screen (ScreenOp.setCell 2 11 0x3042 2561 2048),
       StatusEvent.screen ScreenOp.flush, StatusEvent.timerUnlock]) = true ∧
    lockScan (lockTrace
      [StatusEvent.timerLock, StatusEvent.timerUnlock, StatusEvent.timerLock,
       StatusEvent.screen ScreenOp.size, StatusEvent.screen ScreenOp.size,
       StatusEvent.screen (ScreenOp.print
         { X := 0, Y := 11, Fg := 2561, Bg := 2048,
           Msg := [0xE3, 0x81, 0x82, 0xE3, 0x81, 0x82] }),
       StatusEvent.screen (ScreenOp.setCell 0 11 0x3042 2561 2048),
       StatusEvent.screen (ScreenOp.setCell 2 11 0x3042 2561 2048),
       StatusEvent.screen ScreenOp.flush, StatusEvent.timerUnlock])
      = ⟨false, false, true, false⟩ :=
  ⟨(C17_lock_order_amended sampleWide topDownLayout.statusBar ⟨3, 12⟩
      [0xE3, 0x81, 0x82, 0xE3, 0x81, 0x82, 0xE3, 0x81, 0x82] 0 _ rfl).2.1,
   (C17_lock_order_amended sampleWide topDownLayout.statusBar ⟨3, 12⟩
      [0xE3, 0x81, 0x82, 0xE3, 0x81, 0x82, 0xE3, 0x81, 0x82] 0 _ rfl).2.2.1⟩

/-! ### Jumping to a row of the page -/

theorem Crop_slot (buf : List Line) (perPage page n : Int) (h0 : 0 ≤ n) (hp : n < perPage)
    (ho : 0 ≤ perPage * (page - 1)) (hlt : perPage * (page - 1) + n < (buf.length : Int)) :
    ∃ t, cropLineAt buf (Crop perPage page (buf.length : Int)) n
      = some (perPage * (page - 1) + n, t) := by
  obtain ⟨t, ht⟩ := LineAt_of_lt buf (perPage * (page - 1) + n) (by omega) hlt
  refine ⟨t, ?_⟩
  unfold Crop
  simp only []
  rw [if_neg (by omega)]
  apply cropLineAt_intRange_of _ _ _ _ _ h0 _ ht
  split_ifs <;> omega

/-- Claim C22: on a page with `offset = perPage * (page - 1) >= 0` and a slot
`n >= 0` with `offset + n` inside the buffer, `ListArea.Draw` shows the line
`offset + n` in slot `n` of the page.  In the top-down layout `MovePage` with
`LineInPage(n)` commits that line.  In the bottom-up layout it commits
`offset - n`, or the last line when that is negative: with 5 lines on page 1,
`LineInPage(1)` commits line 4, while slot 1 shows line 1. -/
theorem C22_line_in_page (state : Peco) (l : BasicLayout) (n : Int)
    (hh : 3 ≤ state.screen.height)
    (hoff : state.loc.offset = state.loc.perPage * (state.loc.page - 1))
    (ho : 0 ≤ state.loc.offset) (hn : 0 ≤ n)
    (hlt : state.loc.offset + n < (state.buf.length : Int)) :
    (n < state.loc.perPage →
      ∃ t, cropLineAt state.buf
          (Crop state.loc.perPage state.loc.page (state.buf.length : Int)) n
        = some (state.loc.offset + n, t)) ∧
    (l.list.sortTopDown = true →
      ∃ st, MovePage l state (.ToLineInPage n) = .ok (l, st, true) ∧
        st.loc.lineNumber = state.loc.offset + n) ∧
    (l.list.sortTopDown = false →
      ∃ st, MovePage l state (.ToLineInPage n) = .ok (l, st, true) ∧
        st.loc.lineNumber =
          (if state.loc.offset - n < 0 then (state.buf.length : Int) - 1
           else state.loc.offset - n)) ∧
    (MovePage bottomUpLayout (sampleState 5 0) (.ToLineInPage 1)).toOption.map
        (fun r => (r.2.1.loc.lineNumber, r.2.2)) = some (4, true) ∧
    cropLineAt (sampleState 5 0).buf (Crop 10 1 5) 1 = some (1, sampleLine 1) := by
  obtain ⟨st, hv, hl⟩ := verticalScroll_facts state l (.ToLineInPage n) hh
  have hm := MovePage_vertical state l _ st true ⟨by simp, by simp⟩ hv
  have hpos : 0 < (state.buf.length : Int) := by omega
  refine ⟨?_, ?_, ?_, by decide, by decide⟩
  · intro hp
    rw [hoff] at ho hlt ⊢
    exact Crop_slot state.buf _ _ n hn hp ho hlt
  · intro htd
    refine ⟨st, hm, ?_⟩
    have ht : scrollTarget true state.loc (state.buf.length : Int) (state.screen.height - 2)
        (.ToLineInPage n) = state.loc.offset + n := by
      unfold scrollTarget
      simp only [if_true]
      rw [hoff]
    rw [hl, htd, ht, clampLine_eq _ _ hpos]
    split_ifs <;> omega
  · intro hbu
    refine ⟨st, hm, ?_⟩
    have ht : scrollTarget false state.loc (state.buf.length : Int) (state.screen.height - 2)
        (.ToLineInPage n) = state.loc.offset - n := by
      unfold scrollTarget
      simp only [Bool.false_eq_true, if_false]
      rw [hoff]
    rw [hl, hbu, ht, clampLine_eq _ _ hpos]
    split_ifs <;> omega

theorem C22_line_in_page_witness :
    ∃ st, MovePage topDownLayout (sampleState 5 0) (.ToLineInPage 3)
        = .ok (topDownLayout, st, true) ∧ st.loc.lineNumber = 3 := by
  obtain ⟨st, h1, h2⟩ := (C22_line_in_page (sampleState 5 0) topDownLayout 3
    (by decide) (by decide) (by decide) (by decide) (by decide)).2.1 rfl
  exact ⟨st, h1, h2⟩

/-! ### The segments of a row with match spans -/

/-- The loop of `Print` moves the cursor by the width it adds. -/
theorem printLoop_cursor (rw : Rune → Int) (y xOffset : Int) (fg bg : Attribute) (fuel : Nat) :
    ∀ (msg : Str) (x written : Int),
      (printLoop rw y xOffset fg bg fuel msg x written).1 - x
        = (printLoop rw y xOffset fg bg fuel msg x written).2.1 - written := by
  induction fuel with
  | zero =>
    intro msg x written
    cases msg <;> simp [printLoop]
  | succ f ih =>
    intro msg x written
    cases msg with
    | nil => simp [printLoop]
    | cons b bs =>
      unfold printLoop
      simp only []
      split_ifs
      all_goals dsimp only
      all_goals
        first
        | (have h := ih (List.drop 1 (b :: bs))
              (x + (4 - Int.tmod (x + xOffset) 4)) (written + (4 - Int.tmod (x + xOffset) 4))
           omega)
        | (have h := ih (List.drop 1 (b :: bs)) (x + rw 63) (written + rw 63)
           omega)
        | (have h := ih (List.drop (DecodeRuneInString (b :: bs)).2 (b :: bs))
              (x + (4 - Int.tmod (x + xOffset) 4)) (written + (4 - Int.tmod (x + xOffset) 4))
           omega)
        | (have h := ih (List.drop (DecodeRuneInString (b :: bs)).2 (b :: bs))
              (x + rw (DecodeRuneInString (b :: bs)).1)
              (written + rw (DecodeRuneInString (b :: bs)).1)
           omega)

theorem printCalls_append (a b : List ScreenOp) :
    printCalls (a ++ b) = printCalls a ++ printCalls b := by
  induction a with
  | nil => rfl
  | cons op ops ih =>
    cases op with
    | print args =>
      show _ :: printCalls (ops ++ b) = _ :: printCalls ops ++ printCalls b
      rw [ih]
      rfl
    | setCell x y ch fg bg => exact ih
    | size => exact ih
    | flush => exact ih

theorem printCalls_map_setCell {α : Type} (f : α → ScreenOp)
    (hf : ∀ a, ∃ x y ch fg bg, f a = ScreenOp.setCell x y ch fg bg) (xs : List α) :
    printCalls (xs.map f) = [] := by
  induction xs with
  | nil => rfl
  | cons a as ih =>
    obtain ⟨x, y, ch, fg, bg, h⟩ := hf a
    rw [List.map_cons, h]
    exact ih

theorem printCalls_printLoop (rw : Rune → Int) (y xOffset : Int) (fg bg : Attribute)
    (fuel : Nat) :
    ∀ (msg : Str) (x written : Int),
      printCalls (printLoop rw y xOffset fg bg fuel msg x written).2.2 = [] := by
  induction fuel with
  | zero =>
    intro msg x written
    cases msg <;> rfl
  | succ f ih =>
    intro msg x written
    cases msg with
    | nil => rfl
    | cons b bs =>
      unfold printLoop
      simp only []
      split_ifs
      all_goals dsimp only
      all_goals
        first
        | (rw [printCalls_append, ih, List.append_nil]
           exact printCalls_map_setCell _ (fun i => ⟨_, _, _, _, _, rfl⟩) _)
        | exact ih _ _ _

/-- A call of `Print` makes one entry in the list of calls. -/
theorem printCalls_Print (rw : Rune → Int) (scr : Screen) (args : PrintArgs) :
    printCalls (Print rw scr args).1 = [{ args with Fill := false }] := by
  unfold Print
  simp only []
  split
  · show _ :: printCalls _ = _
    rw [printCalls_printLoop]
  · show _ :: printCalls _ = _
    rw [printCalls_append, printCalls_printLoop]
    show _ :: printCalls (List.map _ _) = _
    rw [printCalls_map_setCell _ (fun i => ⟨_, _, _, _, _, rfl⟩)]

/-- Without `Fill`, `Print` returns the distance the cursor has moved. -/
theorem Print_width (rw : Rune → Int) (scr : Screen) (args : PrintArgs)
    (h : args.Fill = false) :
    args.X + (Print rw scr args).2
      = (printLoop rw args.Y args.XOffset args.Fg args.Bg args.Msg.length args.Msg args.X 0).1 := by
  have hc := printLoop_cursor rw args.Y args.XOffset args.Fg args.Bg args.Msg.length args.Msg
    args.X 0
  unfold Print
  simp only [h, Bool.not_false, if_true]
  omega

/-- With `Fill`, `Print` returns the distance the cursor has moved when the
text ends at or before the right edge. -/
theorem Print_width_fill (rw : Rune → Int) (scr : Screen) (args : PrintArgs)
    (h : args.Fill = true)
    (hfit : (printLoop rw args.Y args.XOffset args.Fg args.Bg args.Msg.length args.Msg
      args.X 0).1 ≤ scr.width) :
    args.X + (Print rw scr args).2
      = (printLoop rw args.Y args.XOffset args.Fg args.Bg args.Msg.length args.Msg args.X 0).1 := by
  have hc := printLoop_cursor rw args.Y args.XOffset args.Fg args.Bg args.Msg.length args.Msg
    args.X 0
  unfold Print
  simp only [h, Bool.not_true, Bool.false_eq_true, if_false]
  split_ifs <;> omega


theorem sliceStr_eq (s : Str) (a b : Int) (h0 : 0 ≤ a) (h1 : a ≤ b)
    (h2 : b ≤ (s.length : Int)) :
    sliceStr s a b = .ok ((s.drop a.toNat).take (b.toNat - a.toNat)) := by
  unfold sliceStr
  rw [if_pos ⟨h0, h1, h2⟩]

theorem slice_length (s : Str) (a b : Int) (h0 : 0 ≤ a) (h1 : a ≤ b)
    (h2 : b ≤ (s.length : Int)) :
    (((s.drop a.toNat).take (b.toNat - a.toNat)).length : Int) = b - a := by
  rw [List.length_take, List.length_drop]
  omega

theorem leadSegment_pos (rw : Rune → Int) (scr : Screen) (y xOffset : Int) (st : Style)
    (line : Str) (m : Int × Int) (prev index : Int) (hi : 0 ≤ index) (hlt : index < m.1)
    (hm : m.1 ≤ (line.length : Int)) :
    leadSegment rw scr y xOffset st line m prev index =
      .ok ((printLoop rw y xOffset st.fg st.bg
              ((line.drop index.toNat).take (m.1.toNat - index.toNat)).length
              ((line.drop index.toNat).take (m.1.toNat - index.toNat)) prev 0).1,
           m.1,
           (Print rw scr { X := prev, Y := y, XOffset := xOffset, Fg := st.fg, Bg := st.bg,
                           Msg := (line.drop index.toNat).take (m.1.toNat - index.toNat) }).1) := by
  unfold leadSegment
  rw [if_pos (by omega), sliceStr_eq line index m.1 hi (by omega) hm]
  simp only []
  have hw := Print_width rw scr
    ⟨prev, xOffset, y, st.fg, st.bg, (line.drop index.toNat).take (m.1.toNat - index.toNat),
      false⟩ rfl
  have hl := slice_length line index m.1 hi (by omega) hm
  simp only [] at hw
  rw [hw]
  have e : index + (((line.drop index.toNat).take (m.1.toNat - index.toNat)).length : Int)
      = m.1 := by omega
  rw [e]

theorem leadSegment_neg (rw : Rune → Int) (scr : Screen) (y xOffset : Int) (st : Style)
    (line : Str) (m : Int × Int) (prev index : Int) (hlt : ¬ index < m.1) :
    leadSegment rw scr y xOffset st line m prev index = .ok (prev, index, []) := by
  unfold leadSegment
  rw [if_neg (by omega)]

theorem foldl_last_end (spans : List (Int × Int)) :
    ∀ (index : Int) (m : Int × Int), spans.getLast? = some m →
      spans.foldl (fun _ k => k.2) index = m.2 := by
  induction spans with
  | nil =>
    intro index m h
    cases h
  | cons a rest ih =>
    intro index m h
    cases rest with
    | nil =>
      simp only [List.getLast?_singleton, Option.some.injEq] at h
      subst h
      rfl
    | cons b bs =>
      rw [List.getLast?_cons_cons] at h
      exact ih a.2 m h


theorem specRow_unmatched (rw : Rune → Int) (styles : StyleSet) (y xOffset : Int) (st : Style)
    (c : Str) (rest : List (Bool × Str)) (x : Int) :
    specRow rw styles y xOffset st ((false, c) :: rest) x =
      (false, ⟨x, xOffset, y, st.fg, st.bg, c, false⟩,
        (printLoop rw y xOffset st.fg st.bg c.length c x 0).1) ::
      specRow rw styles y xOffset st rest
        (printLoop rw y xOffset st.fg st.bg c.length c x 0).1 :=
  rfl

theorem specRow_matched (rw : Rune → Int) (styles : StyleSet) (y xOffset : Int) (st : Style)
    (c : Str) (rest : List (Bool × Str)) (x : Int) :
    specRow rw styles y xOffset st ((true, c) :: rest) x =
      (true, ⟨x, xOffset, y, styles.Matched.fg, mergeAttribute st.bg styles.Matched.bg, c, false⟩,
        (printLoop rw y xOffset styles.Matched.fg (mergeAttribute st.bg styles.Matched.bg)
          c.length c x 0).1) ::
      specRow rw styles y xOffset st rest
        (printLoop rw y xOffset styles.Matched.fg (mergeAttribute st.bg styles.Matched.bg)
          c.length c x 0).1 :=
  rfl

/-- One pass of the span loop on a span that starts at `index`: the span's
text is printed from `prev`, and the loop goes on after it. -/
theorem matchLoop_step (rw : Rune → Int) (styles : StyleSet) (scr : Screen) (y xOffset : Int)
    (st : Style) (line : Str) (m : Int × Int) (ms : List (Int × Int)) (prev index : Int)
    (hm0 : 0 ≤ m.1) (h2 : m.1 ≤ m.2) (h3 : m.2 ≤ (line.length : Int))
    (lead : Int × Int × List ScreenOp)
    (hlead : leadSegment rw scr y xOffset st line m prev index = .ok lead)
    (hidx : lead.2.1 = m.1)
    (hfit : (printLoop rw y xOffset styles.Matched.fg (mergeAttribute st.bg styles.Matched.bg)
        ((line.drop m.1.toNat).take (m.2.toNat - m.1.toNat)).length
        ((line.drop m.1.toNat).take (m.2.toNat - m.1.toNat)) lead.1 0).1 ≤ scr.width)
    (r : Int × Int × List ScreenOp)
    (hr : matchLoop rw styles scr y xOffset st line ms
      (printLoop rw y xOffset styles.Matched.fg (mergeAttribute st.bg styles.Matched.bg)
        ((line.drop m.1.toNat).take (m.2.toNat - m.1.toNat)).length
        ((line.drop m.1.toNat).take (m.2.toNat - m.1.toNat)) lead.1 0).1 m.2 = .ok r) :
    matchLoop rw styles scr y xOffset st line (m :: ms) prev index =
      .ok (r.1, r.2.1,
        lead.2.2 ++
          (Print rw scr ⟨lead.1, xOffset, y, styles.Matched.fg,
            mergeAttribute st.bg styles.Matched.bg,
            (line.drop m.1.toNat).take (m.2.toNat - m.1.toNat), true⟩).1 ++ r.2.2) := by
  have hw := Print_width_fill rw scr ⟨lead.1, xOffset, y, styles.Matched.fg,
    mergeAttribute st.bg styles.Matched.bg,
    (line.drop m.1.toNat).take (m.2.toNat - m.1.toNat), true⟩ rfl hfit
  have hl := slice_length line m.1 m.2 hm0 h2 h3
  have e2 : lead.2.1 + (((line.drop m.1.toNat).take (m.2.toNat - m.1.toNat)).length : Int)
      = m.2 := by omega
  simp only [] at hw
  unfold matchLoop
  rw [hlead]
  simp only []
  rw [sliceStr_eq line m.1 m.2 hm0 h2 h3]
  simp only []
  rw [hw, e2, hr]

/-- On sorted spans whose matched segments end at or before the right edge,
the span loop returns, leaves `index` at the end of the last span and makes the
`Print` calls the specification lists for the text up to there. -/
theorem matchLoop_segments (rw : Rune → Int) (styles : StyleSet) (scr : Screen)
    (y xOffset : Int) (st : Style) (line : Str) :
    ∀ (spans : List (Int × Int)) (prev index : Int), 0 ≤ index →
      spansSorted (line.length : Int) spans index = true →
      (∀ s ∈ specRow rw styles y xOffset st (specSegments line spans index) prev,
        s.1 = true → s.2.2 ≤ scr.width) →
      ∃ r, matchLoop rw styles scr y xOffset st line spans prev index = .ok r ∧
        r.2.1 = spans.foldl (fun _ k => k.2) index ∧
        (specRow rw styles y xOffset st (specSegments line spans index) prev).map
            (fun s => s.2.1)
          = printCalls r.2.2 ++
            (specRow rw styles y xOffset st (specSegments line [] r.2.1) r.1).map
              (fun s => s.2.1) := by
  intro spans
  induction spans with
  | nil =>
    intro prev index _ _ _
    exact ⟨(prev, index, []), rfl, rfl, rfl⟩
  | cons m ms ih =>
    intro prev index hi hs hfit
    simp only [spansSorted, Bool.and_eq_true, decide_eq_true_eq] at hs
    obtain ⟨⟨⟨h1, h2⟩, h3⟩, h4⟩ := hs
    have hm0 : 0 ≤ m.1 := by omega
    by_cases hlt : index < m.1
    · have hseg : specSegments line (m :: ms) index =
          (false, (line.drop index.toNat).take (m.1.toNat - index.toNat)) ::
          (true, (line.drop m.1.toNat).take (m.2.toNat - m.1.toNat)) ::
          specSegments line ms m.2 := by
        simp only [specSegments, hlt, if_true, List.singleton_append]
      rw [hseg, specRow_unmatched, specRow_matched] at hfit ⊢
      have hlead := leadSegment_pos rw scr y xOffset st line m prev index hi hlt (by omega)
      have hf2 := hfit _ (List.mem_cons_of_mem _ (List.mem_cons_self _ _)) rfl
      obtain ⟨r, hr, hr2, hr3⟩ := ih _ m.2 (by omega) h4
        (fun s hs => hfit s (List.mem_cons_of_mem _ (List.mem_cons_of_mem _ hs)))
      refine ⟨_, matchLoop_step rw styles scr y xOffset st line m ms prev index hm0 h2 h3 _
        hlead rfl hf2 r hr, hr2, ?_⟩
      simp only [List.map_cons]
      rw [hr3, printCalls_append, printCalls_append, printCalls_Print, printCalls_Print]
      rfl
    · have hseg : specSegments line (m :: ms) index =
          (true, (line.drop m.1.toNat).take (m.2.toNat - m.1.toNat)) ::
          specSegments line ms m.2 := by
        simp only [specSegments, hlt, if_false, List.nil_append]
      rw [hseg, specRow_matched] at hfit ⊢
      have hlead := leadSegment_neg rw scr y xOffset st line m prev index hlt
      have hf2 := hfit _ (List.mem_cons_self _ _) rfl
      obtain ⟨r, hr, hr2, hr3⟩ := ih _ m.2 (by omega) h4
        (fun s hs => hfit s (List.mem_cons_of_mem _ hs))
      refine ⟨_, matchLoop_step rw styles scr y xOffset st line m ms prev index hm0 h2 h3 _
        hlead (by show index = m.1; omega) hf2 r hr, hr2, ?_⟩
      simp only [List.map_cons]
      rw [hr3, printCalls_append, printCalls_append, printCalls_Print]
      rfl


theorem take_drop_append (line : Str) (i j : Nat) (h : i ≤ j) :
    (line.drop i).take (j - i) ++ line.drop j = line.drop i := by
  have h1 := List.take_append_drop (j - i) (line.drop i)
  rw [List.drop_drop, Nat.add_sub_cancel' h] at h1
  exact h1

/-- The segments of the specification, put together again, are the text from
`lo` on. -/
theorem specSegments_flatten (line : Str) :
    ∀ (spans : List (Int × Int)) (lo : Int), 0 ≤ lo →
      spansSorted (line.length : Int) spans lo = true →
      ((specSegments line spans lo).map Prod.snd).flatten = line.drop lo.toNat := by
  intro spans
  induction spans with
  | nil =>
    intro lo h0 hs
    simp only [spansSorted, decide_eq_true_eq] at hs
    unfold specSegments
    split_ifs with hlt
    · simp only [List.map_cons, List.map_nil, List.flatten_cons, List.flatten_nil,
        List.append_nil]
    · have : line.length ≤ lo.toNat := by omega
      rw [List.drop_eq_nil_of_le this]
      rfl
  | cons m ms ih =>
    intro lo h0 hs
    simp only [spansSorted, Bool.and_eq_true, decide_eq_true_eq] at hs
    obtain ⟨⟨⟨h1, h2⟩, h3⟩, h4⟩ := hs
    have hrest := ih m.2 (by omega) h4
    have e2 := take_drop_append line m.1.toNat m.2.toNat (by omega)
    unfold specSegments
    split_ifs with hlt
    · have e1 := take_drop_append line lo.toNat m.1.toNat (by omega)
      simp only [List.singleton_append, List.map_cons, List.flatten_cons, hrest]
      rw [e2, e1]
    · have e0 : lo.toNat = m.1.toNat := by omega
      simp only [List.nil_append, List.map_cons, List.flatten_cons, hrest]
      rw [e2, e0]

theorem spansSorted_mem (len : Int) :
    ∀ (spans : List (Int × Int)) (lo : Int), 0 ≤ lo → spansSorted len spans lo = true →
      ∀ m ∈ spans, 0 ≤ m.1 ∧ m.1 ≤ m.2 ∧ m.2 ≤ len := by
  intro spans
  induction spans with
  | nil =>
    intro lo _ _ m hm
    cases hm
  | cons a rest ih =>
    intro lo h0 hs m hm
    simp only [spansSorted, Bool.and_eq_true, decide_eq_true_eq] at hs
    obtain ⟨⟨⟨h1, h2⟩, h3⟩, h4⟩ := hs
    rcases List.mem_cons.1 hm with rfl | hm'
    · exact ⟨by omega, h2, h3⟩
    · exact ih a.2 (by omega) h4 m hm'

/-- After the span loop, with `index` at the end of the last span, the end of
the row loop prints the rest of the text, if any, in the row's style. -/
theorem tailSegment_segments (rw : Rune → Int) (styles : StyleSet) (scr : Screen)
    (y xOffset : Int) (st : Style) (line : Str) (spans : List (Int × Int)) (prev : Int)
    (m : Int × Int) (hlast : spans.getLast? = some m)
    (h0 : 0 ≤ m.1) (h1 : m.1 ≤ m.2) (h2 : m.2 ≤ (line.length : Int)) :
    ∃ t, tailSegment rw styles scr y xOffset st line spans prev m.2 = .ok t ∧
      printCalls t =
        (specRow rw styles y xOffset st (specSegments line [] m.2) prev).map
          (fun s => s.2.1) := by
  unfold tailSegment
  rw [hlast]
  simp only []
  rw [if_neg (by omega)]
  unfold specSegments
  by_cases hlt : m.2 < (line.length : Int)
  · rw [if_pos (by omega), if_pos hlt,
      sliceStr_eq line m.2 (line.length : Int) (by omega) (by omega) (le_refl _)]
    have e : (line.drop m.2.toNat).take ((line.length : Int).toNat - m.2.toNat)
        = line.drop m.2.toNat := by
      apply List.take_of_length_le
      rw [List.length_drop]
      omega
    rw [e]
    refine ⟨_, rfl, ?_⟩
    rw [printCalls_Print, specRow_unmatched]
    rfl
  · rw [if_neg (by omega), if_neg hlt]
    exact ⟨[], rfl, rfl⟩

/-- Claim C21: a rewritten row whose match spans are present, sorted, not
overlapping and within the display string is printed as the segments of the
specification, each from the column where the previous one ended, and the
segments put together are the display string, provided that every matched
segment ends at or before the terminal's right edge.  When a matched segment
ends past the right edge, `Print` with `Fill` returns less than the width of
its text and the next segment starts at the right edge instead: on 8 columns
the row `abcdefghij` with the span `(0, 9)` has its first segment end at
column 9 and its last segment start at column 8.  A span list that is present
but empty makes the row loop panic. -/
theorem C21_row_segments (rw : Rune → Int) (l : ListArea) (state : Peco) (n y : Int)
    (st : Style) (target : Line) (spans : List (Int × Int))
    (hidx : target.indices = some spans) (hne : spans ≠ [])
    (hs : spansSorted (target.displayString.length : Int) spans 0 = true)
    (hfit : ∀ s ∈ specRow rw l.styles y state.loc.column st
        (specSegments target.displayString spans 0) (jumpPrefix rw state n y st).1,
      s.1 = true → s.2.2 ≤ state.screen.width) :
    (∃ ops, drawRow rw l state n y st target = .ok ops ∧
      printCalls ops = printCalls (jumpPrefix rw state n y st).2 ++
        (specRow rw l.styles y state.loc.column st
          (specSegments target.displayString spans 0) (jumpPrefix rw state n y st).1).map
          (fun s => s.2.1)) ∧
    ((specSegments target.displayString spans 0).map Prod.snd).flatten
      = target.displayString ∧
    (ListArea.Draw sampleWidth topDownLayout.list { sampleState 1 0 with buf := [longLine] }
        topDownLayout 10 false).toOption.map
        (fun r => (printCalls r.2.2).filter (fun a => decide (a.Y = 1))) =
      some [⟨0, 0, 1, 3, 8, [97, 98, 99, 100, 101, 102, 103, 104, 105], false⟩,
            ⟨8, 0, 1, 5, 6, [106], false⟩] ∧
    specRow sampleWidth sampleStyles 1 0 sampleStyles.Selected
        (specSegments longLine.displayString [(0, 9)] 0) 0 =
      [(true, ⟨0, 0, 1, 3, 8, [97, 98, 99, 100, 101, 102, 103, 104, 105], false⟩, 9),
       (false, ⟨9, 0, 1, 5, 6, [106], false⟩, 10)] ∧
    drawRow sampleWidth topDownLayout.list (sampleState 1 0) 0 1 sampleStyles.Selected
        { sampleLine 0 with indices := some [] } = .error "index out of range" := by
  refine ⟨?_, ?_, by decide, by decide, rfl⟩
  · obtain ⟨r, hr, hr2, hr3⟩ := matchLoop_segments rw l.styles state.screen y state.loc.column
      st target.displayString spans (jumpPrefix rw state n y st).1 0 (le_refl _) hs hfit
    cases hlast : spans.getLast? with
    | none => exact absurd (List.getLast?_eq_none_iff.1 hlast) hne
    | some m =>
      obtain ⟨hm0, hm1, hm2⟩ := spansSorted_mem _ spans 0 (le_refl _) hs m
        (List.mem_of_getLast?_eq_some hlast)
      have hidx2 : r.2.1 = m.2 := by rw [hr2]; exact foldl_last_end spans 0 m hlast
      obtain ⟨t, ht, ht2⟩ := tailSegment_segments rw l.styles state.screen y state.loc.column
        st target.displayString spans r.1 m hlast hm0 hm1 hm2
      refine ⟨(jumpPrefix rw state n y st).2 ++ r.2.2 ++ t, ?_, ?_⟩
      · unfold drawRow
        simp only [hidx]
        rw [hr]
        simp only []
        rw [hidx2, ht]
      · rw [printCalls_append, printCalls_append, hr3, ht2, hidx2, List.append_assoc]
  · have h := specSegments_flatten target.displayString spans 0 (le_refl _) hs
    rw [h]
    rfl

theorem C21_row_segments_witness :
    spansSorted (spanLine.displayString.length : Int) [(1, 3), (4, 5)] 0 = true ∧
    ∃ ops, drawRow sampleWidth topDownLayout.list (sampleState 1 0) 0 1 sampleStyles.Selected
        spanLine = .ok ops ∧
      printCalls ops =
        [⟨0, 0, 1, 5, 6, [97], false⟩, ⟨1, 0, 1, 3, 8, [98, 99], false⟩,
         ⟨3, 0, 1, 5, 6, [100], false⟩, ⟨4, 0, 1, 3, 8, [101], false⟩,
         ⟨5, 0, 1, 5, 6, [102], false⟩] :=
  ⟨by decide,
   (C21_row_segments sampleWidth topDownLayout.list (sampleState 1 0) 0 1 sampleStyles.Selected
      spanLine [(1, 3), (4, 5)] rfl (by decide) (by decide) (by decide)).1⟩

end Layout
